import Mathlib

/-!
# bs.h: a verification development

A shallow embedding of `bs.h` (target model, target registry, dependency
flattener, ninja emitter, target triples) together with theorems about it.

Conventions of the embedding.

* A `c_string` is `Option String`: `none` is the null pointer, `some s` a
  pointer to the NUL-terminated text `s`.
* A fixed-capacity C array `T entries[Count]` is a `List (Option T)` holding the
  leading slots; every slot past the end of the list is all-zero.  `none` is
  the all-zero slot, `some x` a slot holding the (non-zero) value `x`.
* Functions that can stop the process return `Except Fault _`.
* `FILE* output` is the text written so far; `fprintf` appends to it.
-/

namespace Bs

/-! ## Faults -/

/-- Ways in which a run stops without a result. -/
inductive Fault where
  /-- An `assert(...)` failed and the process was aborted. -/
  | assertion
  /-- A store past the last element of a fixed-capacity array (undefined behaviour). -/
  | out_of_bounds
  /-- Use of a null `c_string` as text (`strlen(nullptr)`). -/
  | null_string
  /-- The recursion budget of the embedding ran out (never happens in `flatten_targets`). -/
  | out_of_fuel
  deriving DecidableEq, Repr

/-! ## Strings and fixed-capacity arrays -/

/-- The type `char const*`. -/
abbrev c_string := Option String

/-- Text printed for a `%s` argument; glibc prints `(null)` for a null pointer. -/
def fmt_s : c_string → String
  | some s => s
  | none => "(null)"

/-- Function `strlen`. -/
def strlen (s : String) : Nat := s.length

/-- The constant `MAX_ENTRIES`. -/
def MAX_ENTRIES : Nat := 128

/-- Read of `items[i]`; slots past the stored prefix are zero. -/
def entry {α : Type} (items : List (Option α)) (i : Nat) : Option α :=
  items.getD i none

/-- Store `items[i] = v` (for `i` inside the array). -/
def store {α : Type} (items : List (Option α)) (i : Nat) (v : Option α) : List (Option α) :=
  if i < items.length then items.set i v
  else items ++ List.replicate (i - items.length) none ++ [v]

/-- The loop of `len`: `n` slots remain to be inspected, starting at index `i`. -/
def len_loop {α : Type} (items : List (Option α)) : Nat → Nat → Nat
  | 0, i => i
  | n + 1, i => if (entry items i).isNone then i else len_loop items n (i + 1)

/-- Function `len(items)` for an array of `Count` slots: the index of the first
all-zero slot, or `Count` when there is none. -/
def len {α : Type} (Count : Nat) (items : List (Option α)) : Nat :=
  len_loop items Count 0

/-- Function `capacity(items)`. -/
def capacity {α : Type} (Count : Nat) (_items : List (Option α)) : Nat := Count

/-- The values an array of `Count` slots holds before its first all-zero slot. -/
def live {α : Type} : Nat → List (Option α) → List α
  | 0, _ => []
  | _ + 1, [] => []
  | _ + 1, none :: _ => []
  | n + 1, some a :: rest => a :: live n rest

/-- Function `memcpy(items + c, &other, sizeof(T) * n)`, slot by slot from slot `k` of `other`. -/
def memcpy_loop {α : Type} (other : List (Option α)) (c : Nat) :
    Nat → Nat → List (Option α) → List (Option α)
  | 0, _, items => items
  | n + 1, k, items => memcpy_loop other c n (k + 1) (store items (c + k) (entry other k))

/-- Function `cat(items, other)`: copy the live entries of `other` to the slots
after the live entries of `items`, provided `assert(Count - c > c2)` holds. -/
def cat {α : Type} (Count Count2 : Nat) (items other : List (Option α)) :
    Except Fault (List (Option α)) :=
  let c := len Count items
  let c2 := len Count2 other
  if Count - c > c2 then .ok (memcpy_loop other c c2 0 items) else .error .assertion

/-- A counted loop `for (i = start; ...; i++)` running `n` times over a state. -/
def for_loop {σ : Type} (body : Nat → σ → σ) : Nat → Nat → σ → σ
  | 0, _, s => s
  | n + 1, i, s => for_loop body n (i + 1) (body i s)

/-- A counted loop whose body may stop the run. -/
def for_loop_except {σ : Type} (body : Nat → σ → Except Fault σ) :
    Nat → Nat → σ → Except Fault σ
  | 0, _, s => .ok s
  | n + 1, i, s =>
    match body i s with
    | .ok s' => for_loop_except body n (i + 1) s'
    | .error e => .error e

/-- Concatenation of a list of text fragments. -/
def concat_all : List String → String
  | [] => ""
  | s :: rest => s ++ concat_all rest

/-! ## Target triples -/

/-- The struct `TargetTriple`. -/
structure TargetTriple where
  arch : c_string
  abi : c_string
  os : c_string
  deriving DecidableEq, Repr

/-- Operating systems for which `system_os` and `system_abi` compile. -/
inductive HostOs where
  | apple
  | linux
  deriving DecidableEq, Repr

/-- Architectures for which `system_arch` compiles. -/
inductive HostArch where
  | aarch64
  | x86_64
  | i386
  deriving DecidableEq, Repr

/-- The platform macros the header is compiled under. -/
structure Host where
  os : HostOs
  arch : HostArch
  deriving DecidableEq, Repr

/-- Function `system_os`. -/
def system_os (h : Host) : c_string :=
  match h.os with
  | .apple => some "macos"
  | .linux => some "linux"

/-- Function `system_arch`. -/
def system_arch (h : Host) : c_string :=
  match h.arch with
  | .aarch64 => some "aarch64"
  | .x86_64 => some "x86_64"
  | .i386 => some "i386"

/-- Function `system_abi`. -/
def system_abi (h : Host) : c_string :=
  match h.os with
  | .apple => some "none"
  | .linux => some "gnu"

/-- Function `system_target_triple`. -/
def system_target_triple (h : Host) : TargetTriple :=
  { arch := system_arch h, abi := system_abi h, os := system_os h }

/-- Function `wasm_target_triple`. -/
def wasm_target_triple : TargetTriple :=
  { arch := some "wasm32", abi := none, os := none }

/-- Function `snprintf(dest, size, ...)` on the fully formatted text: at most
`size - 1` characters are kept. -/
def snprintf (size : Nat) (text : String) : String :=
  ⟨text.data.take (size - 1)⟩

/-- Function `target_triple_string`. -/
def target_triple_string (triple : TargetTriple) : String :=
  let len0 := 0
  let arch := match triple.arch with | some s => s | none => "unknown"
  let abi := match triple.abi with | some s => s | none => "unknown"
  let os := match triple.os with | some s => s | none => "unknown"
  let len1 := len0 + (strlen arch + 1)
  let len2 := len1 + (strlen abi + 1)
  let len3 := len2 + (strlen os + 1)
  snprintf len3 (arch ++ "-" ++ abi ++ "-" ++ os)

/-! ## The target data model -/

/-- The enum `TargetKind`. -/
inductive TargetKind where
  | Binary
  | Library
  | Targets
  deriving DecidableEq, Repr

/-- Values of the pointer union `{ binary, library, targets }` of a `Target`. -/
inductive Ptr where
  /-- The null pointer. -/
  | null
  /-- Address of the global `all_targets_deps`. -/
  | all_targets_deps
  /-- Address of the argument block (or of a user `Targets` object) number `a`. -/
  | heap (a : Nat)
  /-- Address `&binary->deps` inside the `BinaryArgs` block number `a`. -/
  | binary_deps (a : Nat)
  /-- Address `&library->deps` inside the `LibraryArgs` block number `a`. -/
  | library_deps (a : Nat)
  deriving DecidableEq, Repr

/-- The struct `Target`.  Its three texts are non-null, so a `Target` is never
the all-zero slot value. -/
structure Target where
  name : String
  file : String
  base_dir : String
  args : Ptr
  kind : TargetKind
  deriving DecidableEq, Repr

/-- The struct `Strings`. -/
structure Strings where
  entries : List c_string := []
  deriving DecidableEq, Repr

/-- The struct `Targets`. -/
structure Targets where
  entries : List (Option Target) := []
  deriving DecidableEq, Repr

/-- The struct `BinaryArgs`; members left out of an initialiser are zero. -/
structure BinaryArgs where
  srcs : Strings := {}
  compile_flags : Strings := {}
  linker_flags : Strings := {}
  target_triple : TargetTriple := { arch := none, abi := none, os := none }
  deps : Targets := {}
  deriving DecidableEq, Repr

/-- The struct `LibraryArgs`; members left out of an initialiser are zero. -/
structure LibraryArgs where
  srcs : Strings := {}
  exported_headers : Strings := {}
  header_namespace : c_string := none
  compile_flags : Strings := {}
  linker_flags : Strings := {}
  target_triple : TargetTriple := { arch := none, abi := none, os := none }
  link_style : c_string := none
  deps : Targets := {}
  deriving DecidableEq, Repr

/-- The objects targets point to: argument blocks and `Targets` objects by
number, and the global `all_targets_deps`. -/
structure Memory where
  binary : Nat → BinaryArgs := fun _ => {}
  library : Nat → LibraryArgs := fun _ => {}
  targets : Nat → Targets := fun _ => {}
  all_targets_deps : Targets := {}

/-- Read of `*p` for `p : BinaryArgs*`; a pointer to no such block reads as zeroes. -/
def Memory.binary_at (m : Memory) : Ptr → BinaryArgs
  | .heap a => m.binary a
  | _ => {}

/-- Read of `*p` for `p : LibraryArgs*`; a pointer to no such block reads as zeroes. -/
def Memory.library_at (m : Memory) : Ptr → LibraryArgs
  | .heap a => m.library a
  | _ => {}

/-- Read of `*p` for `p : Targets*`; the null pointer reads as zeroes. -/
def Memory.targets_at (m : Memory) : Ptr → Targets
  | .null => {}
  | .all_targets_deps => m.all_targets_deps
  | .heap a => m.targets a
  | .binary_deps a => (m.binary a).deps
  | .library_deps a => (m.library a).deps

/-- The pointer `&binary->deps` for `binary = p`. -/
def Ptr.to_binary_deps : Ptr → Ptr
  | .heap a => .binary_deps a
  | _ => .null

/-- The pointer `&library->deps` for `library = p`. -/
def Ptr.to_library_deps : Ptr → Ptr
  | .heap a => .library_deps a
  | _ => .null

/-- Member `name` of an array slot (null in the all-zero slot). -/
def slot_name : Option Target → c_string
  | some t => some t.name
  | none => none

/-- Member `kind` of an array slot (`TargetKind_Binary`, the zero value, in the all-zero slot). -/
def slot_kind : Option Target → TargetKind
  | some t => t.kind
  | none => .Binary

/-- Member `library` of an array slot (null in the all-zero slot). -/
def slot_args : Option Target → Ptr
  | some t => t.args
  | none => .null

/-! ## Default compile flags -/

/-- Function `default_cxx_args`. -/
def default_cxx_args : Strings :=
  { entries := [some "-Wall", some "-Wextra", some "-fcolor-diagnostics"] }

/-- Function `default_cpp_args`. -/
def default_cpp_args : Strings :=
  let args := default_cxx_args
  { entries := store args.entries (len MAX_ENTRIES args.entries) (some "-std=c++17") }

/-- Function `default_c_args`. -/
def default_c_args : Strings :=
  let args := default_cxx_args
  let args : Strings :=
    { entries := store args.entries (len MAX_ENTRIES args.entries) (some "-std=11") }
  { entries := store args.entries (len MAX_ENTRIES args.entries) (some "-xc") }

/-- Function `default_objc_args`. -/
def default_objc_args : Strings :=
  let args := default_c_args
  { entries := store args.entries (len MAX_ENTRIES args.entries) (some "-xobjc") }

/-- Function `default_objcpp_args`. -/
def default_objcpp_args : Strings :=
  let args := default_cpp_args
  { entries := store args.entries (len MAX_ENTRIES args.entries) (some "-xobjc++") }

/-! ## The target registry and the constructors -/

/-- The C library functions the header calls on paths. -/
structure Libc where
  dirname : String → String
  realpath : String → c_string

/-- The process state the constructors work on: memory, the registry counter
`all_targets_count` and the number of the next block `malloc` hands out. -/
structure World where
  memory : Memory := {}
  all_targets_count : Nat := 0
  next_block : Nat := 0

/-- The global `all_targets`. -/
def all_targets : Target :=
  { name := "all", file := "", base_dir := "", args := .all_targets_deps, kind := .Targets }

/-- The statement `all_targets_deps.entries[all_targets_count++] = target;` at the
end of every constructor.  The source has no bounds check; a store at index 128
or more lands past the array. -/
def all_targets_append (w : World) (target : Target) : Except Fault World :=
  let id := w.all_targets_count
  if id < MAX_ENTRIES then
    .ok { w with
      memory := { w.memory with
        all_targets_deps :=
          { entries := store w.memory.all_targets_deps.entries id (some target) } }
      all_targets_count := id + 1 }
  else .error .out_of_bounds

/-- Store of a `BinaryArgs` value into the block number `a`. -/
def Memory.set_binary (m : Memory) (a : Nat) (v : BinaryArgs) : Memory :=
  { m with binary := fun b => if b = a then v else m.binary b }

/-- Store of a `LibraryArgs` value into the block number `a`. -/
def Memory.set_library (m : Memory) (a : Nat) (v : LibraryArgs) : Memory :=
  { m with library := fun b => if b = a then v else m.library b }

/-- Function `cpp_binary`. -/
def cpp_binary (host : Host) (libc : Libc) (name : String) (args : BinaryArgs)
    (file : String) (w : World) : Except Fault (Target × World) :=
  let base_dir := libc.dirname file
  let a := w.next_block
  let res := args
  let res := { res with compile_flags := default_cpp_args }
  let res := { res with target_triple := system_target_triple host }
  match cat MAX_ENTRIES MAX_ENTRIES res.compile_flags.entries args.compile_flags.entries with
  | .error e => .error e
  | .ok flags =>
    let res := { res with compile_flags := { entries := flags } }
    let target : Target :=
      { name := name, file := file, base_dir := base_dir, args := .heap a, kind := .Binary }
    match all_targets_append
        { w with memory := w.memory.set_binary a res, next_block := a + 1 } target with
    | .error e => .error e
    | .ok w' => .ok (target, w')

/-- Function `cpp_library`. -/
def cpp_library (libc : Libc) (name : String) (args : LibraryArgs)
    (file : String) (w : World) : Except Fault (Target × World) :=
  let base_dir := libc.dirname file
  let a := w.next_block
  let res := args
  let res := { res with compile_flags := default_cpp_args }
  match cat MAX_ENTRIES MAX_ENTRIES res.compile_flags.entries args.compile_flags.entries with
  | .error e => .error e
  | .ok flags =>
    let res := { res with compile_flags := { entries := flags } }
    let target : Target :=
      { name := name, file := file, base_dir := base_dir, args := .heap a, kind := .Library }
    match all_targets_append
        { w with memory := w.memory.set_library a res, next_block := a + 1 } target with
    | .error e => .error e
    | .ok w' => .ok (target, w')

/-- Function `c_library`. -/
def c_library (libc : Libc) (name : String) (args : LibraryArgs)
    (file : String) (w : World) : Except Fault (Target × World) :=
  let base_dir := libc.dirname file
  let a := w.next_block
  let res := args
  let res := { res with compile_flags := default_c_args }
  match cat MAX_ENTRIES MAX_ENTRIES res.compile_flags.entries args.compile_flags.entries with
  | .error e => .error e
  | .ok flags =>
    let res := { res with compile_flags := { entries := flags } }
    let target : Target :=
      { name := name, file := file, base_dir := base_dir, args := .heap a, kind := .Library }
    match all_targets_append
        { w with memory := w.memory.set_library a res, next_block := a + 1 } target with
    | .error e => .error e
    | .ok w' => .ok (target, w')

/-- Function `objc_library`. -/
def objc_library (libc : Libc) (name : String) (args : LibraryArgs)
    (file : String) (w : World) : Except Fault (Target × World) :=
  let base_dir := libc.dirname file
  let a := w.next_block
  let res := args
  let res := { res with compile_flags := default_objc_args }
  match cat MAX_ENTRIES MAX_ENTRIES res.compile_flags.entries args.compile_flags.entries with
  | .error e => .error e
  | .ok flags =>
    let res := { res with compile_flags := { entries := flags } }
    let target : Target :=
      { name := name, file := file, base_dir := base_dir, args := .heap a, kind := .Library }
    match all_targets_append
        { w with memory := w.memory.set_library a res, next_block := a + 1 } target with
    | .error e => .error e
    | .ok w' => .ok (target, w')

/-- Function `objcpp_library`. -/
def objcpp_library (libc : Libc) (name : String) (args : LibraryArgs)
    (file : String) (w : World) : Except Fault (Target × World) :=
  let base_dir := libc.dirname file
  let a := w.next_block
  let res := args
  let res := { res with compile_flags := default_objcpp_args }
  match cat MAX_ENTRIES MAX_ENTRIES res.compile_flags.entries args.compile_flags.entries with
  | .error e => .error e
  | .ok flags =>
    let res := { res with compile_flags := { entries := flags } }
    let target : Target :=
      { name := name, file := file, base_dir := base_dir, args := .heap a, kind := .Library }
    match all_targets_append
        { w with memory := w.memory.set_library a res, next_block := a + 1 } target with
    | .error e => .error e
    | .ok w' => .ok (target, w')

/-! ## The dependency flattener -/

/-- The struct `StringView`: the `m_size` characters at `m_data`. -/
structure StringView where
  chars : List Char
  deriving DecidableEq, Repr

/-- Member `m_size`. -/
def StringView.m_size (s : StringView) : Nat := s.chars.length

/-- Function `StringView::from_c_string`. -/
def StringView.from_c_string (s : String) : StringView := ⟨s.data⟩

/-- Function `StringView::operator==`.  The shortcut for equal data pointers is
left out: views of equal size on one address hold the same characters. -/
def StringView.eq (a b : StringView) : Bool :=
  if a.m_size ≠ b.m_size then false
  else if a.m_size = 0 then true
  else (a.chars.head? == b.chars.head?) && (a.chars.tail == b.chars.tail)

/-- The struct `SmallMap<StringView, Target, capacity>`: the first `m_size`
keys and values; `m_size` is the length of `m_keys`. -/
structure SmallMap where
  m_keys : List StringView := []
  m_values : List Target := []
  deriving DecidableEq, Repr

/-- Member `m_size`. -/
def SmallMap.m_size (m : SmallMap) : Nat := m.m_keys.length

/-- Function `SmallMap::append`.  The assertion `id <= capacity` lets
`id = capacity` through, where the two stores land past the arrays. -/
def SmallMap.append (capacity : Nat) (m : SmallMap) (key : StringView) (value : Target) :
    Except Fault SmallMap :=
  let id := m.m_size
  if id ≤ capacity then
    if id < capacity then .ok { m_keys := m.m_keys ++ [key], m_values := m.m_values ++ [value] }
    else .error .out_of_bounds
  else .error .assertion

/-- The loop of `SmallMap::has` over the stored keys. -/
def SmallMap.has_loop (key : StringView) : List StringView → Bool
  | [] => false
  | k :: rest => if StringView.eq k key then true else SmallMap.has_loop key rest

/-- Function `SmallMap::has`. -/
def SmallMap.has (m : SmallMap) (key : StringView) : Bool :=
  SmallMap.has_loop key m.m_keys

/-- Function `target_deps` followed by the read of the `Targets` it points to. -/
def target_deps (memory : Memory) (target : Target) : Targets :=
  match target.kind with
  | .Binary => (memory.binary_at target.args).deps
  | .Library => (memory.library_at target.args).deps
  | .Targets => memory.targets_at target.args

/-- The lambda `rec` of `recurse_targets`, on the pair of the captured `seen`
map and the callback state `user`; `fuel` bounds the depth of the recursion. -/
def recurse_targets_rec {σ : Type} (memory : Memory) (callback : σ → Target → Except Fault σ) :
    Nat → Target → SmallMap × σ → Except Fault (SmallMap × σ)
  | 0, _, _ => .error .out_of_fuel
  | fuel + 1, target, (seen, user) =>
    let name := StringView.from_c_string target.name
    if seen.has name then .ok (seen, user)
    else
      match seen.append 128 name target with
      | .error e => .error e
      | .ok seen =>
        match callback user target with
        | .error e => .error e
        | .ok user =>
          let deps := target_deps memory target
          let deps_len := len MAX_ENTRIES deps.entries
          for_loop_except
            (fun i st =>
              match entry deps.entries i with
              | some dep => recurse_targets_rec memory callback fuel dep st
              | none => .error .null_string)
            deps_len 0 (seen, user)

/-- Function `recurse_targets` with an explicit recursion budget. -/
def recurse_targets_fuel {σ : Type} (fuel : Nat) (memory : Memory) (target : Target) (user : σ)
    (callback : σ → Target → Except Fault σ) : Except Fault σ :=
  match recurse_targets_rec memory callback fuel target ({}, user) with
  | .ok (_, user) => .ok user
  | .error e => .error e

/-- Function `recurse_targets`.  A nest of 129 calls would need 129 distinct
names in `seen`, so this budget is never used up. -/
def recurse_targets {σ : Type} (memory : Memory) (target : Target) (user : σ)
    (callback : σ → Target → Except Fault σ) : Except Fault σ :=
  recurse_targets_fuel (MAX_ENTRIES + 1) memory target user callback

/-- The struct `Context` of `flatten_targets`. -/
structure Context where
  i : Nat := 0
  result : Targets := {}
  deriving DecidableEq, Repr

/-- The callback of `flatten_targets`: `self->result.entries[self->i++] = target;`.
The source has no bounds check; a store at index 128 or more lands past the array. -/
def flatten_callback (self : Context) (target : Target) : Except Fault Context :=
  if self.i < MAX_ENTRIES then
    .ok { i := self.i + 1, result := { entries := store self.result.entries self.i (some target) } }
  else .error .out_of_bounds

/-- Function `flatten_targets` with an explicit recursion budget. -/
def flatten_targets_fuel (fuel : Nat) (memory : Memory) (target : Target) : Except Fault Targets :=
  match recurse_targets_fuel fuel memory target ({} : Context) flatten_callback with
  | .ok context => .ok context.result
  | .error e => .error e

/-- Function `flatten_targets`. -/
def flatten_targets (memory : Memory) (target : Target) : Except Fault Targets :=
  match recurse_targets memory target ({} : Context) flatten_callback with
  | .ok context => .ok context.result
  | .error e => .error e

/-! ## Rules -/

/-- The struct `Variable`; its name is non-null, so it is never the all-zero slot value. -/
structure Variable where
  name : String
  default_value : c_string := none
  deriving DecidableEq, Repr

/-- The struct `TargetRule`. -/
structure TargetRule where
  name : String
  command : String
  description : String
  /-- Member `variables`. -/
  vars : List (Option Variable) := []
  deriving DecidableEq, Repr

/-- The globals `all_rules` and `all_rules_count`. -/
structure RuleTable where
  all_rules : List (Option TargetRule) := []
  all_rules_count : Nat := 0
  deriving DecidableEq, Repr

/-- Function `ninja_rule`: `all_rules[all_rules_count++] = rule;` on an array of 64 slots. -/
def ninja_rule (table : RuleTable) (rule : TargetRule) : Except Fault RuleTable :=
  let id := table.all_rules_count
  if id < 64 then
    .ok { all_rules := store table.all_rules id (some rule), all_rules_count := id + 1 }
  else .error .out_of_bounds

/-- The global `cxx_rule`. -/
def cxx_rule : TargetRule :=
  { name := "cxx"
    command := "clang++ -target $target $args -MD -MQ $out -MF $depfile -o $out -c $in"
    description := "Compiling $language object $out"
    vars := [
      some { name := "out" }, some { name := "in" }, some { name := "target" },
      some { name := "deps", default_value := some "gcc" }, some { name := "args" },
      some { name := "depfile" }, some { name := "language" }] }

/-- The global `merge_object_rule`. -/
def merge_object_rule : TargetRule :=
  { name := "merge-object"
    command := "$ld -r -o $out $in"
    description := "Linking static target $out"
    vars := [some { name := "out" }, some { name := "in" }] }

/-- The global `binary_link_rule`. -/
def binary_link_rule : TargetRule :=
  { name := "link-binary"
    command := "clang++ -target $target -o $out $in $link_args"
    description := "Linking binary target $out"
    vars := [
      some { name := "out" }, some { name := "in" }, some { name := "target" },
      some { name := "link_args" }] }

/-- The global `header_link_rule`. -/
def header_link_rule : TargetRule :=
  { name := "namespace-header"
    command := "ln -sf $in $out"
    description := "Namespacing header $out"
    vars := [some { name := "out" }, some { name := "in" }] }

/-- The global `compdb_rule`. -/
def compdb_rule : TargetRule :=
  { name := "compdb"
    command := "ninja -t compdb > compile_commands.json"
    description := "Emitting compdb"
    vars := [] }

/-- The rule table after the static initialisers of the five rule globals have
run, in their order in the header. -/
def static_rules : Except Fault RuleTable :=
  match ninja_rule {} cxx_rule with
  | .error e => .error e
  | .ok t =>
    match ninja_rule t merge_object_rule with
    | .error e => .error e
    | .ok t =>
      match ninja_rule t binary_link_rule with
      | .error e => .error e
      | .ok t =>
        match ninja_rule t header_link_rule with
        | .error e => .error e
        | .ok t => ninja_rule t compdb_rule

/-- The struct `LanguageExtension`. -/
structure LanguageExtension where
  name : String
  extension : String
  deriving DecidableEq, Repr

/-- The local table `languages` of `language_from_filename`. -/
def languages : List LanguageExtension :=
  [ { name := "C++", extension := ".cpp" },
    { name := "C", extension := ".c" },
    { name := "Objective-C++", extension := ".mm" },
    { name := "Objective-C", extension := ".m" } ]

/-- The loop of `language_from_filename` over the rest of the table. -/
def language_from_filename_loop (name : String) : List LanguageExtension → c_string
  | [] => none
  | language :: rest =>
    let name_len := strlen name
    let extension_len := strlen language.extension
    if name_len < extension_len then language_from_filename_loop name rest
    else
      let ext := name.data.drop (name_len - extension_len)
      if ext = language.extension.data then some language.name
      else language_from_filename_loop name rest

/-- Function `language_from_filename`. -/
def language_from_filename (name : String) : c_string :=
  language_from_filename_loop name languages

/-! ## The ninja emitter -/

/-- Function `emit_ninja_rule`. -/
def emit_ninja_rule (output : String) (rule : TargetRule) : String :=
  let output := output ++ ("rule " ++ rule.name ++ "\n")
  let output := output ++ ("    command = " ++ rule.command ++ "\n")
  let output := output ++ ("    description = " ++ rule.description ++ "\n")
  let variable_count := len 8 rule.vars
  let output :=
    for_loop
      (fun i output =>
        match entry rule.vars i with
        | some var =>
          match var.default_value with
          | some default_value =>
            output ++ ("    " ++ var.name ++ " = " ++ default_value ++ "\n")
          | none => output
        | none => output)
      variable_count 0 output
  output ++ "\n"

/-- Function `emit_ninja_build_binary`. -/
def emit_ninja_build_binary (memory : Memory) (output : String) (target : Target) :
    Except Fault String :=
  let binary := memory.binary_at target.args
  let triple := target_triple_string binary.target_triple
  let base_dir := target.base_dir
  let srcs_len := len MAX_ENTRIES binary.srcs.entries
  let name := target.name
  match flatten_targets memory
      { name := "__deps__", file := "", base_dir := "",
        args := target.args.to_binary_deps, kind := .Targets } with
  | .error e => .error e
  | .ok deps =>
    let deps_len := len MAX_ENTRIES deps.entries
    let output := output ++ ("build " ++ triple ++ "/" ++ name ++ ": link-binary")
    let output :=
      for_loop
        (fun i output =>
          let src := entry binary.srcs.entries i
          output ++ (" " ++ triple ++ "/" ++ base_dir ++ "/" ++ fmt_s src ++ ".o"))
        srcs_len 0 output
    let output :=
      for_loop
        (fun i output =>
          let dep := entry deps.entries i
          output ++ (" " ++ triple ++ "/" ++ fmt_s (slot_name dep) ++ ".o"))
        (deps_len - 1) 1 output
    let output := output ++ "\n"
    let output := output ++ ("    target = " ++ triple ++ "\n")
    let output := output ++ "\n"
    let args := binary.compile_flags
    let args_len := len MAX_ENTRIES args.entries
    .ok (for_loop
      (fun i output =>
        let src := entry binary.srcs.entries i
        let output := output ++ ("build " ++ triple ++ "/" ++ base_dir ++ "/" ++ fmt_s src
          ++ ".o: cxx ../" ++ base_dir ++ "/" ++ fmt_s src)
        let output := if deps_len > 1 then output ++ " |" else output
        let output :=
          for_loop
            (fun dep_index output =>
              let dep := entry deps.entries dep_index
              if slot_kind dep = .Library then
                output ++ (" ns/"
                  ++ fmt_s (memory.library_at (slot_args dep)).header_namespace ++ "/_")
              else output)
            (deps_len - 1) 1 output
        let output := output ++ "\n"
        let output := output
          ++ ("    language = " ++ fmt_s (src.bind language_from_filename) ++ "\n")
        let output := output ++ ("    target = " ++ triple ++ "\n")
        let output := output ++ ("    depfile = " ++ fmt_s src ++ "." ++ triple ++ ".d\n")
        let output := output ++ "    args ="
        let output :=
          for_loop (fun arg output => output ++ (" " ++ fmt_s (entry args.entries arg)))
            args_len 0 output
        let output :=
          for_loop
            (fun dep_index output =>
              let dep := entry deps.entries dep_index
              if slot_kind dep = .Library then
                let library := memory.library_at (slot_args dep)
                let ns := library.header_namespace
                output ++ (" -Ins/" ++ fmt_s ns ++ "/h")
              else output)
            (deps_len - 1) 1 output
        let output := output ++ "\n"
        output ++ "\n")
      srcs_len 0 output)

/-- Function `emit_ninja_build_library`. -/
def emit_ninja_build_library (libc : Libc) (memory : Memory) (output : String)
    (target : Target) : Except Fault String :=
  let library := memory.library_at target.args
  let triple := target_triple_string library.target_triple
  let base_dir := target.base_dir
  let srcs_len := len MAX_ENTRIES library.srcs.entries
  let headers_len := len MAX_ENTRIES library.exported_headers.entries
  let name := target.name
  let output :=
    for_loop
      (fun i output =>
        let header := entry library.exported_headers.entries i
        let out := base_dir ++ "/" ++ fmt_s header
        let header_path := libc.realpath out
        output ++ ("build ns/" ++ name ++ "/h/" ++ name ++ "/" ++ fmt_s header
          ++ ": namespace-header " ++ fmt_s header_path ++ "\n"))
      headers_len 0 output
  let output := output ++ "\n"
  let output := output ++ ("build ns/" ++ fmt_s library.header_namespace ++ "/_: phony")
  let output :=
    for_loop
      (fun i output =>
        let header := entry library.exported_headers.entries i
        output ++ (" ns/" ++ name ++ "/h/" ++ name ++ "/" ++ fmt_s header))
      headers_len 0 output
  let output := output ++ "\n\n"
  let output := output ++ ("build " ++ triple ++ "/" ++ name ++ ".o: merge-object ")
  let output :=
    for_loop
      (fun i output =>
        let src := entry library.srcs.entries i
        let output := output ++ (triple ++ "/" ++ base_dir ++ "/" ++ fmt_s src ++ ".o")
        if i ≠ srcs_len - 1 then output ++ " " else output)
      srcs_len 0 output
  let output := output ++ "\n"
  let output := output ++ "    ld = ld\n"
  let output := output ++ "\n"
  match flatten_targets memory
      { name := "__deps__", file := "", base_dir := "",
        args := target.args.to_library_deps, kind := .Targets } with
  | .error e => .error e
  | .ok deps =>
    let deps_len := len MAX_ENTRIES deps.entries
    let args := library.compile_flags
    let args_len := len MAX_ENTRIES args.entries
    .ok (for_loop
      (fun i output =>
        let src := entry library.srcs.entries i
        let output := output ++ ("build " ++ triple ++ "/" ++ base_dir ++ "/" ++ fmt_s src
          ++ ".o: cxx ../" ++ base_dir ++ "/" ++ fmt_s src)
        let output := if deps_len > 1 then output ++ " |" else output
        let output :=
          for_loop
            (fun dep_index output =>
              let dep := entry deps.entries dep_index
              if slot_kind dep = .Library then
                output ++ (" ns/"
                  ++ fmt_s (memory.library_at (slot_args dep)).header_namespace ++ "/_")
              else output)
            (deps_len - 1) 1 output
        let output := output ++ "\n"
        let output := output
          ++ ("    language = " ++ fmt_s (src.bind language_from_filename) ++ "\n")
        let output := output ++ ("    target = " ++ triple ++ "\n")
        let output := output ++ ("    depfile = " ++ fmt_s src ++ "." ++ triple ++ ".d\n")
        let output := output ++ "    args ="
        let output :=
          for_loop (fun arg output => output ++ (" " ++ fmt_s (entry args.entries arg)))
            args_len 0 output
        let output :=
          for_loop
            (fun dep_index output =>
              let dep := entry deps.entries dep_index
              if slot_kind dep = .Library then
                let library := memory.library_at (slot_args dep)
                let ns := library.header_namespace
                output ++ (" -Ins/" ++ fmt_s ns ++ "/h")
              else output)
            (deps_len - 1) 1 output
        let output := output ++ "\n"
        output ++ "\n")
      srcs_len 0 output)

/-- Function `emit_ninja`.  The slots of `all_rules` below `all_rules_count` hold
rules; an all-zero slot would print as a rule whose three texts are null. -/
def emit_ninja (libc : Libc) (rules : RuleTable) (memory : Memory) (output : String)
    (target : Target) : Except Fault String :=
  let output := output ++ "ninja_required_version = 1.8.2\n\n"
  let output :=
    for_loop
      (fun i output =>
        match entry rules.all_rules i with
        | some rule => emit_ninja_rule output rule
        | none => emit_ninja_rule output { name := "(null)", command := "(null)", description := "(null)" })
      rules.all_rules_count 0 output
  let output := output ++ "build compile_commands.json: compdb\n\n"
  match flatten_targets memory target with
  | .error e => .error e
  | .ok targets =>
    let targets_len := len MAX_ENTRIES targets.entries
    for_loop_except
      (fun i output =>
        match entry targets.entries i with
        | some target =>
          match target.kind with
          | .Binary => emit_ninja_build_binary memory output target
          | .Library => emit_ninja_build_library libc memory output target
          | .Targets => .ok output
        | none => .error .null_string)
      targets_len 0 output

/-! ## Abstract views used by the proofs -/

/-- Sequential composition of a fallible visit over a list. -/
def visit_all {α σ : Type} (f : α → σ → Except Fault σ) : List α → σ → Except Fault σ
  | [], s => .ok s
  | d :: ds, s =>
    match f d s with
    | .ok s' => visit_all f ds s'
    | .error e => .error e

/-- The dependency list of a target: the live entries of the array `target_deps` points to. -/
def deps_list (memory : Memory) (target : Target) : List Target :=
  live MAX_ENTRIES (target_deps memory target).entries

/-- One dependency edge: `d` is in the dependency list of `t`. -/
def Dep (memory : Memory) (t d : Target) : Prop := d ∈ deps_list memory t

/-- Target `u` is transitively reachable from `t` (in zero or more steps). -/
def Reach (memory : Memory) (t u : Target) : Prop := Relation.ReflTransGen (Dep memory) t u

/-- No target depends on itself through one or more edges. -/
def Acyclic (memory : Memory) : Prop := ∀ t, ¬ Relation.TransGen (Dep memory) t t

/-- The names of a list of targets. -/
def names (V : List Target) : List String := V.map (fun t => t.name)

/-- The state of the traversal after the targets `V` have been recorded, in
order: the `seen` map and the `Context` of `flatten_targets`. -/
def state_of (V : List Target) : SmallMap × Context :=
  ({ m_keys := V.map (fun t => StringView.from_c_string t.name), m_values := V },
   { i := V.length, result := { entries := V.map some } })

/-- The traversal of `recurse_targets` on the list of recorded targets alone. -/
def dfs (memory : Memory) : Nat → Target → List Target → Except Fault (List Target)
  | 0, _, _ => .error .out_of_fuel
  | fuel + 1, t, V =>
    if t.name ∈ names V then .ok V
    else if V.length < 128 then
      visit_all (fun d W => dfs memory fuel d W) (deps_list memory t) (V ++ [t])
    else if V.length ≤ 128 then .error .out_of_bounds
    else .error .assertion

/-- What a traversal started from the targets `D` adds to the recorded list `V`:
`V'` extends `V` by targets reachable from `D`, every added target has the names
of all its dependencies recorded, distinct names stay distinct, the names of `D`
are recorded, and the capacity bound on the list is kept. -/
def VisitPost (memory : Memory) (D V V' : List Target) : Prop :=
  ∃ new, V' = V ++ new
    ∧ (∀ u ∈ new, ∃ d ∈ D, Reach memory d u)
    ∧ (∀ u ∈ new, ∀ d ∈ deps_list memory u, d.name ∈ names V')
    ∧ ((names V).Nodup → (names V').Nodup)
    ∧ (∀ d ∈ D, d.name ∈ names V')
    ∧ (V.length ≤ 128 → V'.length ≤ 128)

/-- No target reachable from `root` depends on itself through one or more edges. -/
def AcyclicFrom (memory : Memory) (root : Target) : Prop :=
  ∀ t, Reach memory root t → ¬ Relation.TransGen (Dep memory) t t

/-- Reachable targets with the same name are the same target. -/
def DistinctNames (memory : Memory) (root : Target) : Prop :=
  ∀ u v, Reach memory root u → Reach memory root v → u.name = v.name → u = v

/-! ## Example graphs -/

/-- Example root `R`, a binary whose arguments are block 0. -/
def ex_R : Target :=
  { name := "R", file := "build.cpp", base_dir := ".", args := .heap 0, kind := .Binary }

/-- Example library `A`, arguments in block 1. -/
def ex_A : Target :=
  { name := "A", file := "build.cpp", base_dir := ".", args := .heap 1, kind := .Library }

/-- Example library `B`, arguments in block 2. -/
def ex_B : Target :=
  { name := "B", file := "build.cpp", base_dir := ".", args := .heap 2, kind := .Library }

/-- Example library `C`, arguments in block 3. -/
def ex_C : Target :=
  { name := "C", file := "build.cpp", base_dir := ".", args := .heap 3, kind := .Library }

/-- The graph `R -> [A, B]`, `A -> [C]`, `B -> [C]`, `C -> []`. -/
def diamond : Memory :=
  { binary := fun a =>
      match a with
      | 0 => { deps := { entries := [some ex_A, some ex_B] } }
      | _ => {}
    library := fun a =>
      match a with
      | 1 => { deps := { entries := [some ex_C] } }
      | 2 => { deps := { entries := [some ex_C] } }
      | _ => {} }

/-- The graph `R -> [A, B]`, `A -> [B, C]`, `B -> [C]`, `C -> []`. -/
def skewed : Memory :=
  { binary := fun a =>
      match a with
      | 0 => { deps := { entries := [some ex_A, some ex_B] } }
      | _ => {}
    library := fun a =>
      match a with
      | 1 => { deps := { entries := [some ex_B, some ex_C] } }
      | 2 => { deps := { entries := [some ex_C] } }
      | _ => {} }

/-- The two-target cycle `A -> [B]`, `B -> [A]`. -/
def two_cycle : Memory :=
  { library := fun a =>
      match a with
      | 1 => { deps := { entries := [some ex_B] } }
      | 2 => { deps := { entries := [some ex_A] } }
      | _ => {} }

/-- A second target named `A`, arguments in block 4. -/
def ex_A2 : Target :=
  { name := "A", file := "other.cpp", base_dir := "other", args := .heap 4, kind := .Library }

/-- The graph `R -> [A, A2]`, `A -> []`, `A2 -> [C]`, in which `A` and `A2` share a name. -/
def collision : Memory :=
  { binary := fun a =>
      match a with
      | 0 => { deps := { entries := [some ex_A, some ex_A2] } }
      | _ => {}
    library := fun a =>
      match a with
      | 4 => { deps := { entries := [some ex_C] } }
      | _ => {} }

/-- Example C library: every declaring file lies in `src`, every path resolves under `/project`. -/
def ex_libc : Libc :=
  { dirname := fun _ => "src", realpath := fun p => some ("/project/" ++ p) }

/-- Example host: Linux on x86-64. -/
def ex_host : Host := { os := .linux, arch := .x86_64 }

/-! ## The emitted text, edge by edge -/

/-- Concatenation of text fragments that depend on the position, counted from `k`. -/
def concat_from {α : Type} (E : Nat → α → String) : Nat → List α → String
  | _, [] => ""
  | k, a :: rest => E k a ++ concat_from E (k + 1) rest

/-- The order-only part of the build line of a compile edge, for the flattened
dependency list `deps` (synthetic root at position 0 included). -/
def order_only_text (memory : Memory) (deps : List Target) : String :=
  (if deps.length > 1 then " |" else "")
    ++ concat_all (deps.tail.map fun dep =>
        if dep.kind = .Library then
          " ns/" ++ fmt_s (memory.library_at dep.args).header_namespace ++ "/_"
        else "")

/-- The include flags a compile edge gets from the flattened dependency list `deps`. -/
def include_flags_text (memory : Memory) (deps : List Target) : String :=
  concat_all (deps.tail.map fun dep =>
    if dep.kind = .Library then
      " -Ins/" ++ fmt_s (memory.library_at dep.args).header_namespace ++ "/h"
    else "")

/-- The compile edge of the source `src`. -/
def compile_edge_text (memory : Memory) (triple base_dir : String) (flags : List String)
    (deps : List Target) (src : String) : String :=
  "build " ++ triple ++ "/" ++ base_dir ++ "/" ++ src ++ ".o: cxx ../" ++ base_dir ++ "/" ++ src
    ++ order_only_text memory deps ++ "\n"
    ++ "    language = " ++ fmt_s (language_from_filename src) ++ "\n"
    ++ "    target = " ++ triple ++ "\n"
    ++ "    depfile = " ++ src ++ "." ++ triple ++ ".d\n"
    ++ "    args =" ++ concat_all (flags.map fun flag => " " ++ flag)
    ++ include_flags_text memory deps ++ "\n" ++ "\n"

/-- The link edge of a binary. -/
def link_edge_text (triple name base_dir : String) (srcs : List String) (deps : List Target) :
    String :=
  "build " ++ triple ++ "/" ++ name ++ ": link-binary"
    ++ concat_all (srcs.map fun src => " " ++ triple ++ "/" ++ base_dir ++ "/" ++ src ++ ".o")
    ++ concat_all (deps.tail.map fun dep => " " ++ triple ++ "/" ++ dep.name ++ ".o")
    ++ "\n" ++ "    target = " ++ triple ++ "\n" ++ "\n"

/-- The header-publish edges, the phony edge and the merge edge of a library, as
`emit_ninja_build_library` writes them. -/
def library_edges_text (libc : Libc) (header_namespace : c_string)
    (triple name base_dir : String) (srcs headers : List String) : String :=
  concat_all (headers.map fun header =>
      "build ns/" ++ name ++ "/h/" ++ name ++ "/" ++ header ++ ": namespace-header "
        ++ fmt_s (libc.realpath (base_dir ++ "/" ++ header)) ++ "\n")
    ++ "\n"
    ++ "build ns/" ++ fmt_s header_namespace ++ "/_: phony"
    ++ concat_all (headers.map fun header => " ns/" ++ name ++ "/h/" ++ name ++ "/" ++ header)
    ++ "\n\n"
    ++ "build " ++ triple ++ "/" ++ name ++ ".o: merge-object "
    ++ concat_from
        (fun i src => triple ++ "/" ++ base_dir ++ "/" ++ src ++ ".o"
          ++ if i ≠ srcs.length - 1 then " " else "")
        0 srcs
    ++ "\n" ++ "    ld = ld\n" ++ "\n"

/-- The synthetic root both emit functions flatten: a group named `__deps__`
whose member list is the dependency array at `deps`. -/
def deps_root (deps : Ptr) : Target :=
  { name := "__deps__", file := "", base_dir := "", args := deps, kind := .Targets }

/-- The example project: library `core` (namespace `core`, source `core.cpp`,
header `core.h`) and binary `app` (source `main.cpp`, dependency `core`), both
declared in `src/build.cpp` on the example host.  The result is the two targets
and the process state after both constructors. -/
def ex_project : Except Fault (Target × Target × World) :=
  match cpp_library ex_libc "core"
      { srcs := { entries := [some "core.cpp"] },
        exported_headers := { entries := [some "core.h"] },
        header_namespace := some "core" } "src/build.cpp" {} with
  | .error e => .error e
  | .ok (core, w) =>
    match cpp_binary ex_host ex_libc "app"
        { srcs := { entries := [some "main.cpp"] },
          deps := { entries := [some core] } } "src/build.cpp" w with
    | .error e => .error e
    | .ok (app, w) => .ok (core, app, w)

/-- The triple string of a binary target: `target_triple_string(binary->target_triple)`. -/
def binary_triple (memory : Memory) (target : Target) : String :=
  target_triple_string (memory.binary_at target.args).target_triple

/-- The triple string of a library target: `target_triple_string(library->target_triple)`. -/
def library_triple (memory : Memory) (target : Target) : String :=
  target_triple_string (memory.library_at target.args).target_triple

/-- The file name `name` ends with the text `ext`. -/
def ends_with (name ext : String) : Prop := ext.data <:+ name.data

instance (name ext : String) : Decidable (ends_with name ext) :=
  inferInstanceAs (Decidable (ext.data <:+ name.data))

/-- The Library-kind entries of a flattened dependency list, in flattened order. -/
def library_entries (deps : List Target) : List Target :=
  deps.filter (fun dep => dep.kind = .Library)

/-- The merge edge of a library, as `emit_ninja_build_library` writes it. -/
def merge_edge_text (triple name base_dir : String) (srcs : List String) : String :=
  "build " ++ triple ++ "/" ++ name ++ ".o: merge-object "
    ++ concat_from
        (fun i src => triple ++ "/" ++ base_dir ++ "/" ++ src ++ ".o"
          ++ if i ≠ srcs.length - 1 then " " else "")
        0 srcs
    ++ "\n" ++ "    ld = ld\n" ++ "\n"

/-- The example project with the header namespace of the library renamed: library
`core` with header namespace `corelib` (source `core.cpp`, header `core.h`) and
binary `app` (source `main.cpp`, dependency `core`), declared in `src/build.cpp`. -/
def ex_renamed_project : Except Fault (Target × Target × World) :=
  match cpp_library ex_libc "core"
      { srcs := { entries := [some "core.cpp"] },
        exported_headers := { entries := [some "core.h"] },
        header_namespace := some "corelib" } "src/build.cpp" {} with
  | .error e => .error e
  | .ok (core, w) =>
    match cpp_binary ex_host ex_libc "app"
        { srcs := { entries := [some "main.cpp"] },
          deps := { entries := [some core] } } "src/build.cpp" w with
    | .error e => .error e
    | .ok (app, w) => .ok (core, app, w)

/-- The cycle `R -> [A]`, `A -> [R]` through the binary `R`. -/
def binary_cycle : Memory :=
  { binary := fun a =>
      match a with
      | 0 => { deps := { entries := [some ex_A] } }
      | _ => {}
    library := fun a =>
      match a with
      | 1 => { deps := { entries := [some ex_R] } }
      | _ => {} }

/-- Concatenation of the texts of a list of emissions; the first failing
emission, in order, makes the whole fail. -/
def concat_results : List (Except Fault String) → Except Fault String
  | [] => .ok ""
  | r :: rest =>
    match r with
    | .error e => .error e
    | .ok s =>
      match concat_results rest with
      | .error e => .error e
      | .ok t => .ok (s ++ t)

/-- The edges `emit_ninja` writes for one entry of the flattened list: the binary
edges of a binary, the library edges of a library, nothing for a group. -/
def target_edges (libc : Libc) (memory : Memory) (target : Target) : Except Fault String :=
  match target.kind with
  | .Binary => emit_ninja_build_binary memory "" target
  | .Library => emit_ninja_build_library libc memory "" target
  | .Targets => .ok ""

/-- The rule table after registering the rules `rs`, in order, with `ninja_rule`,
starting from the empty table. -/
def register_rules (rs : List TargetRule) : Except Fault RuleTable :=
  visit_all (fun rule table => ninja_rule table rule) rs {}

/-- One call of a constructor, with its arguments. -/
inductive Declaration where
  | cpp_binary (name : String) (args : BinaryArgs) (file : String)
  | cpp_library (name : String) (args : LibraryArgs) (file : String)
  | c_library (name : String) (args : LibraryArgs) (file : String)
  | objc_library (name : String) (args : LibraryArgs) (file : String)
  | objcpp_library (name : String) (args : LibraryArgs) (file : String)

/-- Execution of one constructor call. -/
def construct (host : Host) (libc : Libc) (d : Declaration) (w : World) :
    Except Fault (Target × World) :=
  match d with
  | .cpp_binary name args file => Bs.cpp_binary host libc name args file w
  | .cpp_library name args file => Bs.cpp_library libc name args file w
  | .c_library name args file => Bs.c_library libc name args file w
  | .objc_library name args file => Bs.objc_library libc name args file w
  | .objcpp_library name args file => Bs.objcpp_library libc name args file w

/-- Execution of a sequence of constructor calls, in order; the result is the
list of the returned targets and the final process state. -/
def construct_all (host : Host) (libc : Libc) :
    List Declaration → World → Except Fault (List Target × World)
  | [], w => .ok ([], w)
  | d :: rest, w =>
    match construct host libc d w with
    | .error e => .error e
    | .ok (t, w') =>
      match construct_all host libc rest w' with
      | .error e => .error e
      | .ok (ts, w'') => .ok (t :: ts, w'')

/-- The array holds nothing after its live entries: every slot from the first
all-zero slot on is all-zero (as in every array built by an initialiser, by
`cat` or by appending at `len`). -/
def Terminated {α : Type} (Count : Nat) (items : List (Option α)) : Prop :=
  ∀ i, len Count items ≤ i → entry items i = none

/-- The name of the example target number `i`: `t` followed by three decimal digits. -/
def registry_name (i : Nat) : String :=
  ⟨['t', Char.ofNat (48 + i / 100 % 10), Char.ofNat (48 + i / 10 % 10),
    Char.ofNat (48 + i % 10)]⟩

/-- The example library number `i`, declared in `src/build.cpp`, arguments in block `i`. -/
def registry_target (i : Nat) : Target :=
  { name := registry_name i, file := "src/build.cpp", base_dir := "src", args := .heap i,
    kind := .Library }

/-- A memory whose registry is full: the 128 libraries `t000` .. `t127`, each
without sources and dependencies, are the entries of `all_targets_deps`. -/
def full_registry : Memory :=
  { all_targets_deps := { entries := (List.range 128).map fun i => some (registry_target i) } }

/-- The process state after those 128 libraries have been constructed. -/
def full_world : World :=
  { memory := full_registry, all_targets_count := 128, next_block := 128 }

/-- A memory with a binary (block 0) and a library (block 1) that have the same
sources, compile flags, triple and dependency list `[C]`; `C` is a library with
the header namespace `c`. -/
def twins : Memory :=
  { binary := fun a =>
      match a with
      | 0 => { srcs := { entries := [some "main.cpp", some "util.c"] },
               compile_flags := { entries := [some "-Wall", some "-O2"] },
               deps := { entries := [some ex_C] } }
      | _ => {}
    library := fun a =>
      match a with
      | 1 => { srcs := { entries := [some "main.cpp", some "util.c"] },
               compile_flags := { entries := [some "-Wall", some "-O2"] },
               deps := { entries := [some ex_C] } }
      | 3 => { header_namespace := some "c" }
      | _ => {} }

/-- A project without libraries: binary `gen` (source `gen.cpp`) and binary `app`
(source `main.cpp`, dependency `gen`), both declared in `src/build.cpp` on the
example host.  The result is the two targets and the process state after both
constructors. -/
def ex_tool_project : Except Fault (Target × Target × World) :=
  match cpp_binary ex_host ex_libc "gen"
      { srcs := { entries := [some "gen.cpp"] } } "src/build.cpp" {} with
  | .error e => .error e
  | .ok (gen, w) =>
    match cpp_binary ex_host ex_libc "app"
        { srcs := { entries := [some "main.cpp"] },
          deps := { entries := [some gen] } } "src/build.cpp" w with
    | .error e => .error e
    | .ok (app, w) => .ok (gen, app, w)

/-- A project whose library has the name of the synthetic flattening root: library
`__deps__` (namespace `deps`, source `deps.cpp`, header `deps.h`) and binary `app`
(source `main.cpp`, dependency `__deps__`), both declared in `src/build.cpp` on the
example host.  The result is the two targets and the process state after both
constructors. -/
def ex_root_named_project : Except Fault (Target × Target × World) :=
  match cpp_library ex_libc "__deps__"
      { srcs := { entries := [some "deps.cpp"] },
        exported_headers := { entries := [some "deps.h"] },
        header_namespace := some "deps" } "src/build.cpp" {} with
  | .error e => .error e
  | .ok (lib, w) =>
    match cpp_binary ex_host ex_libc "app"
        { srcs := { entries := [some "main.cpp"] },
          deps := { entries := [some lib] } } "src/build.cpp" w with
    | .error e => .error e
    | .ok (app, w) => .ok (lib, app, w)

/-! ## Lemmas on arrays and loops -/

theorem entry_cons_succ {α : Type} (x : Option α) (items : List (Option α)) (i : Nat) :
    entry (x :: items) (i + 1) = entry items i := by
  simp [entry]

theorem len_loop_cons {α : Type} (x : Option α) (items : List (Option α)) (n i : Nat) :
    len_loop (x :: items) n (i + 1) = len_loop items n i + 1 := by
  induction n generalizing i with
  | zero => simp [len_loop]
  | succ n ih =>
    simp only [len_loop, entry_cons_succ]
    split
    · rfl
    · exact ih (i + 1)

theorem len_eq_length_live {α : Type} (Count : Nat) (items : List (Option α)) :
    len Count items = (live Count items).length := by
  induction Count generalizing items with
  | zero => simp [len, len_loop, live]
  | succ n ih =>
    cases items with
    | nil => simp [len, len_loop, live, entry]
    | cons x rest =>
      cases x with
      | none => simp [len, len_loop, live, entry]
      | some a =>
        have h := ih rest
        simp only [len] at h
        simp [len, len_loop, live, entry, len_loop_cons, h]

theorem live_map_some {α : Type} (Count : Nat) (V : List α) (h : V.length ≤ Count) :
    live Count (V.map some) = V := by
  induction V generalizing Count with
  | nil => cases Count <;> simp [live]
  | cons a rest ih =>
    cases Count with
    | zero => simp at h
    | succ n =>
      simp only [List.map_cons, live]
      rw [ih n (by simpa using h)]

theorem store_length {α : Type} (items : List (Option α)) (v : Option α) :
    store items items.length v = items ++ [v] := by
  simp [store]

theorem for_loop_shift {α σ : Type} (f : Option α → σ → σ) (x : Option α)
    (items : List (Option α)) (n k : Nat) (s : σ) :
    for_loop (fun i s => f (entry (x :: items) i) s) n (k + 1) s
      = for_loop (fun i s => f (entry items i) s) n k s := by
  induction n generalizing k s with
  | zero => rfl
  | succ n ih => simp only [for_loop, entry_cons_succ]; exact ih (k + 1) _

theorem for_loop_live {α σ : Type} (f : Option α → σ → σ) (Count : Nat)
    (items : List (Option α)) (s : σ) :
    for_loop (fun i s => f (entry items i) s) (len Count items) 0 s
      = (live Count items).foldl (fun s a => f (some a) s) s := by
  induction Count generalizing items s with
  | zero => simp [len, len_loop, live, for_loop]
  | succ n ih =>
    cases items with
    | nil => simp [len, len_loop, live, entry, for_loop]
    | cons x rest =>
      cases x with
      | none => simp [len, len_loop, live, entry, for_loop]
      | some a =>
        have hl : len (n + 1) (some a :: rest) = len n rest + 1 := by
          simp [len, len_loop, entry, len_loop_cons]
        rw [hl]
        simp only [for_loop, live, List.foldl_cons]
        rw [for_loop_shift]
        have h0 : entry (some a :: rest) 0 = some a := by simp [entry]
        rw [h0]
        exact ih rest _

theorem for_loop_live_tail {α σ : Type} (f : Option α → σ → σ) (Count : Nat)
    (items : List (Option α)) (s : σ) :
    for_loop (fun i s => f (entry items i) s) (len Count items - 1) 1 s
      = (live Count items).tail.foldl (fun s a => f (some a) s) s := by
  cases Count with
  | zero => simp [len, len_loop, live, for_loop]
  | succ n =>
    cases items with
    | nil => simp [len, len_loop, live, entry, for_loop]
    | cons x rest =>
      cases x with
      | none => simp [len, len_loop, live, entry, for_loop]
      | some a =>
        have hl : len (n + 1) (some a :: rest) = len n rest + 1 := by
          simp [len, len_loop, entry, len_loop_cons]
        rw [hl]
        simp only [Nat.add_sub_cancel, live, List.tail_cons]
        rw [for_loop_shift]
        exact for_loop_live f n rest s

theorem for_loop_except_shift {α σ : Type} (f : Option α → σ → Except Fault σ) (x : Option α)
    (items : List (Option α)) (n k : Nat) (s : σ) :
    for_loop_except (fun i s => f (entry (x :: items) i) s) n (k + 1) s
      = for_loop_except (fun i s => f (entry items i) s) n k s := by
  induction n generalizing k s with
  | zero => rfl
  | succ n ih =>
    simp only [for_loop_except, entry_cons_succ]
    cases f (entry items k) s with
    | error e => rfl
    | ok s' => exact ih (k + 1) s'

theorem for_loop_except_live {α σ : Type} (f : Option α → σ → Except Fault σ) (Count : Nat)
    (items : List (Option α)) (s : σ) :
    for_loop_except (fun i s => f (entry items i) s) (len Count items) 0 s
      = visit_all (fun a s => f (some a) s) (live Count items) s := by
  induction Count generalizing items s with
  | zero => simp [len, len_loop, live, for_loop_except, visit_all]
  | succ n ih =>
    cases items with
    | nil => simp [len, len_loop, live, entry, for_loop_except, visit_all]
    | cons x rest =>
      cases x with
      | none => simp [len, len_loop, live, entry, for_loop_except, visit_all]
      | some a =>
        have hl : len (n + 1) (some a :: rest) = len n rest + 1 := by
          simp [len, len_loop, entry, len_loop_cons]
        rw [hl]
        have h0 : entry (some a :: rest) 0 = some a := by simp [entry]
        simp only [for_loop_except, live, visit_all, h0]
        cases f (some a) s with
        | error e => rfl
        | ok s' =>
          simp only []
          rw [for_loop_except_shift]
          exact ih rest s'

theorem foldl_append_text {α : Type} (g : α → String) (L : List α) (out : String) :
    L.foldl (fun out a => out ++ g a) out = out ++ concat_all (L.map g) := by
  induction L generalizing out with
  | nil => simp [concat_all]
  | cons a rest ih =>
    simp only [List.foldl_cons, List.map_cons, concat_all]
    rw [ih, String.append_assoc]
/-! ## The flattener as a traversal of the recorded list -/

theorem StringView.eq_iff (a b : StringView) : StringView.eq a b = true ↔ a = b := by
  cases a with
  | mk ca =>
    cases b with
    | mk cb =>
      cases ca with
      | nil => cases cb <;> simp [StringView.eq, StringView.m_size]
      | cons x xs =>
        cases cb with
        | nil => simp [StringView.eq, StringView.m_size]
        | cons y ys =>
          simp only [StringView.eq, StringView.m_size, List.length_cons, List.head?_cons,
            List.tail_cons, StringView.mk.injEq, List.cons.injEq]
          by_cases hl : xs.length = ys.length
          · simp [hl]
          · have : xs ≠ ys := fun h => hl (by rw [h])
            simp [hl, this]

theorem SmallMap.has_loop_iff (key : StringView) (keys : List StringView) :
    SmallMap.has_loop key keys = true ↔ key ∈ keys := by
  induction keys with
  | nil => simp [SmallMap.has_loop]
  | cons k rest ih =>
    simp only [SmallMap.has_loop, List.mem_cons]
    by_cases h : StringView.eq k key = true
    · have hk := (StringView.eq_iff k key).1 h
      subst hk
      simp [h]
    · have hne : ¬ key = k := fun e => h ((StringView.eq_iff k key).2 e.symm)
      simp [h, hne, ih]

theorem from_c_string_injective (s t : String)
    (h : StringView.from_c_string s = StringView.from_c_string t) : s = t := by
  simp only [StringView.from_c_string, StringView.mk.injEq] at h
  exact String.ext h

theorem has_state_of (V : List Target) (t : Target) :
    (state_of V).1.has (StringView.from_c_string t.name) = true ↔ t.name ∈ names V := by
  simp only [SmallMap.has, state_of, SmallMap.has_loop_iff, List.mem_map, names]
  constructor
  · rintro ⟨u, hu, he⟩
    exact ⟨u, hu, from_c_string_injective _ _ he⟩
  · rintro ⟨u, hu, he⟩
    exact ⟨u, hu, by rw [he]⟩

/-- Lift of a result on recorded lists to a result on traversal states. -/
theorem visit_all_state_of (f : Target → SmallMap × Context → Except Fault (SmallMap × Context))
    (g : Target → List Target → Except Fault (List Target))
    (h : ∀ d V, f d (state_of V)
      = match g d V with | .ok V' => .ok (state_of V') | .error e => .error e)
    (D : List Target) (V : List Target) :
    visit_all f D (state_of V)
      = match visit_all g D V with | .ok V' => .ok (state_of V') | .error e => .error e := by
  induction D generalizing V with
  | nil => rfl
  | cons d rest ih =>
    simp only [visit_all, h d V]
    cases g d V with
    | error e => rfl
    | ok V' => exact ih V'

theorem rec_eq_dfs (memory : Memory) (fuel : Nat) (t : Target) (V : List Target) :
    recurse_targets_rec memory flatten_callback fuel t (state_of V)
      = match dfs memory fuel t V with
        | .ok V' => .ok (state_of V')
        | .error e => .error e := by
  induction fuel generalizing t V with
  | zero => rfl
  | succ fuel ih =>
    have hhas := has_state_of V t
    by_cases hmem : t.name ∈ names V
    · have h1 := hhas.2 hmem
      simp only [state_of] at h1
      simp [recurse_targets_rec, state_of, dfs, hmem, h1]
    · have h1 : (state_of V).1.has (StringView.from_c_string t.name) = false := by
        cases hb : (state_of V).1.has (StringView.from_c_string t.name) with
        | false => rfl
        | true => exact absurd (hhas.1 hb) hmem
      simp only [state_of] at h1
      by_cases hlt : V.length < 128
      · have hstore : store (List.map some V) V.length (some t) = List.map some (V ++ [t]) := by
          have := store_length (List.map some V) (some t)
          simpa using this
        have hloop := for_loop_except_live
          (fun (o : Option Target) (st : SmallMap × Context) =>
            match o with
            | some dep => recurse_targets_rec memory flatten_callback fuel dep st
            | none => Except.error Fault.null_string)
          MAX_ENTRIES (target_deps memory t).entries (state_of (V ++ [t]))
        have hv := visit_all_state_of
          (fun d st => recurse_targets_rec memory flatten_callback fuel d st)
          (fun d W => dfs memory fuel d W) (fun d W => ih d W) (deps_list memory t) (V ++ [t])
        simp only [recurse_targets_rec, state_of, dfs, hmem, h1, SmallMap.append,
          SmallMap.m_size, List.length_map, hlt, Nat.le_of_lt hlt, flatten_callback,
          MAX_ENTRIES, hstore, if_true, if_false, Bool.false_eq_true]
        simp only [state_of, MAX_ENTRIES, List.map_append, List.map_cons, List.map_nil,
          List.length_append, List.length_cons, List.length_nil, deps_list] at hloop hv ⊢
        rw [hloop]
        exact hv
      · by_cases hle : V.length ≤ 128
        · simp [recurse_targets_rec, state_of, dfs, hmem, h1, SmallMap.append,
            SmallMap.m_size, hlt, hle]
        · simp [recurse_targets_rec, state_of, dfs, hmem, h1, SmallMap.append,
            SmallMap.m_size, hlt, hle]
theorem flatten_targets_fuel_eq_dfs (fuel : Nat) (memory : Memory) (root : Target) :
    flatten_targets_fuel fuel memory root
      = match dfs memory fuel root [] with
        | .ok V => .ok { entries := V.map some }
        | .error e => .error e := by
  have h := rec_eq_dfs memory fuel root []
  have h0 : state_of [] = (({} : SmallMap), ({} : Context)) := rfl
  rw [h0] at h
  simp only [flatten_targets_fuel, recurse_targets_fuel, h]
  cases dfs memory fuel root [] with
  | error e => rfl
  | ok V => rfl

theorem flatten_targets_eq_dfs (memory : Memory) (root : Target) :
    flatten_targets memory root
      = match dfs memory (MAX_ENTRIES + 1) root [] with
        | .ok V => .ok { entries := V.map some }
        | .error e => .error e :=
  flatten_targets_fuel_eq_dfs (MAX_ENTRIES + 1) memory root

theorem names_append (V W : List Target) : names (V ++ W) = names V ++ names W := by
  simp [names]

theorem VisitPost.refl (memory : Memory) (V : List Target) : VisitPost memory [] V V :=
  ⟨[], by simp, by simp, by simp, fun h => h, by simp, fun h => h⟩

theorem VisitPost.trans (memory : Memory) (D₁ D₂ V V₁ V₂ : List Target)
    (h₁ : VisitPost memory D₁ V V₁) (h₂ : VisitPost memory D₂ V₁ V₂) :
    VisitPost memory (D₁ ++ D₂) V V₂ := by
  obtain ⟨n₁, e₁, r₁, c₁, nd₁, s₁, l₁⟩ := h₁
  obtain ⟨n₂, e₂, r₂, c₂, nd₂, s₂, l₂⟩ := h₂
  have hsub : ∀ x, x ∈ names V₁ → x ∈ names V₂ := by
    intro x hx
    rw [e₂, names_append]
    exact List.mem_append_left _ hx
  refine ⟨n₁ ++ n₂, by rw [e₂, e₁, List.append_assoc], ?_, ?_, fun h => nd₂ (nd₁ h), ?_,
    fun h => l₂ (l₁ h)⟩
  · intro u hu
    rcases List.mem_append.1 hu with hu | hu
    · obtain ⟨d, hd, hr⟩ := r₁ u hu
      exact ⟨d, List.mem_append_left _ hd, hr⟩
    · obtain ⟨d, hd, hr⟩ := r₂ u hu
      exact ⟨d, List.mem_append_right _ hd, hr⟩
  · intro u hu d hd
    rcases List.mem_append.1 hu with hu | hu
    · exact hsub _ (c₁ u hu d hd)
    · exact c₂ u hu d hd
  · intro d hd
    rcases List.mem_append.1 hd with hd | hd
    · exact hsub _ (s₁ d hd)
    · exact s₂ d hd

theorem visit_all_post (memory : Memory) (f : Target → List Target → Except Fault (List Target))
    (hf : ∀ d V V', f d V = .ok V' → VisitPost memory [d] V V')
    (D V V' : List Target) (h : visit_all f D V = .ok V') : VisitPost memory D V V' := by
  induction D generalizing V with
  | nil =>
    simp only [visit_all, Except.ok.injEq] at h
    subst h
    exact VisitPost.refl memory V
  | cons d rest ih =>
    simp only [visit_all] at h
    cases hd : f d V with
    | error e => rw [hd] at h; cases h
    | ok V₁ =>
      rw [hd] at h
      exact VisitPost.trans memory [d] rest V V₁ V' (hf d V V₁ hd) (ih V₁ h)

theorem dfs_post (memory : Memory) (fuel : Nat) (t : Target) (V V' : List Target)
    (h : dfs memory fuel t V = .ok V') :
    VisitPost memory [t] V V' ∧ (t.name ∈ names V → V' = V)
      ∧ (t.name ∉ names V → ∃ rest, V' = V ++ t :: rest) := by
  induction fuel generalizing t V V' with
  | zero => simp [dfs] at h
  | succ fuel ih =>
    by_cases hmem : t.name ∈ names V
    · simp only [dfs, hmem, if_true, Except.ok.injEq] at h
      subst h
      refine ⟨⟨[], by simp, by simp, by simp, fun h => h, ?_, fun h => h⟩, fun _ => rfl,
        fun hn => absurd hmem hn⟩
      intro d hd
      simp only [List.mem_singleton] at hd
      subst hd
      exact hmem
    · by_cases hlt : V.length < 128
      · simp only [dfs, hmem, hlt, if_true, if_false] at h
        obtain ⟨new, e, r, c, nd, s, l⟩ :=
          visit_all_post memory (fun d W => dfs memory fuel d W)
            (fun d W W' hd => (ih d W W' hd).1) (deps_list memory t) (V ++ [t]) V' h
        have e' : V' = V ++ t :: new := by rw [e]; simp
        refine ⟨⟨t :: new, e', ?_, ?_, ?_, ?_, ?_⟩, fun hm => absurd hm hmem,
          fun _ => ⟨new, e'⟩⟩
        · intro u hu
          refine ⟨t, List.mem_singleton.2 rfl, ?_⟩
          rcases List.mem_cons.1 hu with hu | hu
          · subst hu; exact Relation.ReflTransGen.refl
          · obtain ⟨d, hd, hr⟩ := r u hu
            exact Relation.ReflTransGen.head hd hr
        · intro u hu d hd
          rcases List.mem_cons.1 hu with hu | hu
          · subst hu; exact s d hd
          · exact c u hu d hd
        · intro hn
          apply nd
          rw [names_append]
          simp only [names, List.map_cons, List.map_nil]
          rw [List.nodup_append]
          refine ⟨hn, List.nodup_singleton _, ?_⟩
          intro x hx hx'
          simp only [List.mem_singleton] at hx'
          subst hx'
          exact hmem hx
        · intro d hd
          simp only [List.mem_singleton] at hd
          subst hd
          rw [e', names_append]
          simp [names]
        · intro _
          apply l
          simp only [List.length_append, List.length_singleton]
          omega
      · by_cases hle : V.length ≤ 128
        · simp [dfs, hmem, hlt, hle] at h
        · simp [dfs, hmem, hlt, hle] at h
theorem VisitPost.length_le (memory : Memory) (D V V' : List Target)
    (h : VisitPost memory D V V') : V.length ≤ V'.length := by
  obtain ⟨new, e, _⟩ := h
  rw [e, List.length_append]
  omega

theorem visit_all_no_fuel (f : Target → List Target → Except Fault (List Target)) (n : Nat)
    (hf : ∀ d W, W.length ≤ 128 → n ≤ W.length → f d W ≠ .error .out_of_fuel)
    (hpost : ∀ d W W', f d W = .ok W' → W.length ≤ W'.length ∧ (W.length ≤ 128 → W'.length ≤ 128))
    (D V : List Target) (hV : V.length ≤ 128) (hn : n ≤ V.length) :
    visit_all f D V ≠ .error .out_of_fuel := by
  induction D generalizing V with
  | nil => simp [visit_all]
  | cons d rest ih =>
    simp only [visit_all]
    cases hd : f d V with
    | error e =>
      intro he
      simp only [Except.error.injEq] at he
      subst he
      exact hf d V hV hn hd
    | ok V₁ =>
      have hp := hpost d V V₁ hd
      exact ih V₁ (hp.2 hV) (Nat.le_trans hn hp.1)

theorem dfs_no_fuel (memory : Memory) (fuel : Nat) (t : Target) (V : List Target)
    (hV : V.length ≤ 128) (hfuel : 128 < fuel + V.length) :
    dfs memory fuel t V ≠ .error .out_of_fuel := by
  induction fuel generalizing t V with
  | zero => omega
  | succ fuel ih =>
    by_cases hmem : t.name ∈ names V
    · simp [dfs, hmem]
    · by_cases hlt : V.length < 128
      · simp only [dfs, hmem, hlt, if_true, if_false]
        apply visit_all_no_fuel (fun d W => dfs memory fuel d W) (V.length + 1)
        · intro d W hW hn
          exact ih d W hW (by omega)
        · intro d W W' hd
          have hp := (dfs_post memory fuel d W W' hd).1
          have hl := VisitPost.length_le memory _ _ _ hp
          obtain ⟨_, _, _, _, _, _, hb⟩ := hp
          exact ⟨hl, hb⟩
        · simp only [List.length_append, List.length_singleton]; omega
        · simp
      · by_cases hle : V.length ≤ 128
        · simp [dfs, hmem, hlt, hle]
        · simp [dfs, hmem, hlt, hle]

theorem visit_all_mono (f g : Target → List Target → Except Fault (List Target))
    (h : ∀ d W r, f d W = r → r ≠ .error .out_of_fuel → g d W = r)
    (D V : List Target) (r : Except Fault (List Target))
    (hr : visit_all f D V = r) (hne : r ≠ .error .out_of_fuel) : visit_all g D V = r := by
  induction D generalizing V with
  | nil => simpa [visit_all] using hr
  | cons d rest ih =>
    simp only [visit_all] at hr ⊢
    cases hd : f d V with
    | error e =>
      rw [hd] at hr
      simp only at hr
      have hg := h d V (.error e) hd (by rw [hr]; exact hne)
      rw [hg]
      exact hr
    | ok V₁ =>
      rw [hd] at hr
      simp only at hr
      have hg := h d V (.ok V₁) hd (by simp)
      rw [hg]
      exact ih V₁ hr

theorem dfs_mono (memory : Memory) (fuel : Nat) (t : Target) (V : List Target)
    (r : Except Fault (List Target)) (hr : dfs memory fuel t V = r)
    (hne : r ≠ .error .out_of_fuel) : dfs memory (fuel + 1) t V = r := by
  induction fuel generalizing t V r with
  | zero =>
    simp only [dfs] at hr
    exact absurd hr.symm hne
  | succ fuel ih =>
    by_cases hmem : t.name ∈ names V
    · simp only [dfs, hmem, if_true] at hr ⊢
      exact hr
    · by_cases hlt : V.length < 128
      · simp only [dfs, hmem, hlt, if_true, if_false] at hr ⊢
        exact visit_all_mono (fun d W => dfs memory fuel d W)
          (fun d W => dfs memory (fuel + 1) d W) (fun d W r h hn => ih d W r h hn) _ _ r hr hne
      · by_cases hle : V.length ≤ 128
        · simp only [dfs, hmem, hlt, hle, if_true, if_false] at hr ⊢
          exact hr
        · simp only [dfs, hmem, hlt, hle, if_false] at hr ⊢
          exact hr

theorem dfs_mono_add (memory : Memory) (fuel k : Nat) (t : Target) (V : List Target)
    (hne : dfs memory fuel t V ≠ .error .out_of_fuel) :
    dfs memory (fuel + k) t V = dfs memory fuel t V := by
  induction k with
  | zero => rfl
  | succ k ih =>
    have := dfs_mono memory (fuel + k) t V _ ih hne
    simpa [Nat.add_assoc] using this

theorem visit_all_only_fuel (f : Target → List Target → Except Fault (List Target))
    (Inv : List Target → Prop) (D : List Target)
    (hf : ∀ d ∈ D, ∀ W, Inv W → ∀ e, f d W = .error e → e = .out_of_fuel)
    (hpost : ∀ d ∈ D, ∀ W W', Inv W → f d W = .ok W' → Inv W')
    (V : List Target) (hV : Inv V) (e : Fault) (he : visit_all f D V = .error e) :
    e = .out_of_fuel := by
  induction D generalizing V with
  | nil => simp [visit_all] at he
  | cons d rest ih =>
    simp only [visit_all] at he
    cases hd : f d V with
    | error e' =>
      rw [hd] at he
      simp only [Except.error.injEq] at he
      subst he
      exact hf d (List.mem_cons_self _ _) V hV _ hd
    | ok V₁ =>
      rw [hd] at he
      exact ih (fun d' hd' => hf d' (List.mem_cons_of_mem _ hd'))
        (fun d' hd' => hpost d' (List.mem_cons_of_mem _ hd')) V₁
        (hpost d (List.mem_cons_self _ _) V V₁ hV hd) he

theorem dfs_only_fuel (memory : Memory) (root : Target) (U : List Target)
    (hU : U.length ≤ 128) (hreach : ∀ u, Reach memory root u → u ∈ U)
    (fuel : Nat) (t : Target) (V : List Target) (ht : Reach memory root t)
    (hV : (∀ v ∈ V, Reach memory root v) ∧ (names V).Nodup)
    (e : Fault) (he : dfs memory fuel t V = .error e) : e = .out_of_fuel := by
  induction fuel generalizing t V e with
  | zero => simpa [dfs] using he.symm
  | succ fuel ih =>
    by_cases hmem : t.name ∈ names V
    · simp [dfs, hmem] at he
    · have hnd : (names (V ++ [t])).Nodup := by
        rw [names_append]
        simp only [names, List.map_cons, List.map_nil]
        rw [List.nodup_append]
        refine ⟨hV.2, List.nodup_singleton _, ?_⟩
        intro x hx hx'
        simp only [List.mem_singleton] at hx'
        subst hx'
        exact hmem hx
      have hrV : ∀ v ∈ V ++ [t], Reach memory root v := by
        intro v hv
        rcases List.mem_append.1 hv with hv | hv
        · exact hV.1 v hv
        · simp only [List.mem_singleton] at hv
          subst hv
          exact ht
      have hlen : (V ++ [t]).length ≤ 128 := by
        have hsub : V ++ [t] ⊆ U := fun v hv => hreach v (hrV v hv)
        have hnd' : (V ++ [t]).Nodup := List.Nodup.of_map _ hnd
        exact Nat.le_trans (List.Subperm.length_le (List.Nodup.subperm hnd' hsub)) hU
      have hlt : V.length < 128 := by
        simp only [List.length_append, List.length_singleton] at hlen
        omega
      simp only [dfs, hmem, hlt, if_true, if_false] at he
      apply visit_all_only_fuel (fun d W => dfs memory fuel d W)
        (fun W => (∀ v ∈ W, Reach memory root v) ∧ (names W).Nodup) (deps_list memory t)
        ?_ ?_ (V ++ [t]) ⟨hrV, hnd⟩ e he
      · intro d hd W hW e' he'
        exact ih d W (Relation.ReflTransGen.tail ht hd) hW e' he'
      · intro d hd W W' hW hd'
        obtain ⟨new, e₁, r, _, nd, _, _⟩ := (dfs_post memory fuel d W W' hd').1
        refine ⟨?_, nd hW.2⟩
        intro v hv
        rw [e₁] at hv
        rcases List.mem_append.1 hv with hv | hv
        · exact hW.1 v hv
        · obtain ⟨d', hd'', hr⟩ := r v hv
          simp only [List.mem_singleton] at hd''
          subst hd''
          exact Relation.ReflTransGen.trans (Relation.ReflTransGen.tail ht hd) hr
theorem reach_subset (memory : Memory) (root : Target) (U : List Target) (hroot : root ∈ U)
    (hclosed : ∀ u ∈ U, ∀ d ∈ deps_list memory u, d ∈ U) (u : Target)
    (h : Reach memory root u) : u ∈ U := by
  induction h with
  | refl => exact hroot
  | tail _ hd ih => exact hclosed _ ih _ hd

theorem acyclic_of_rank (memory : Memory) (root : Target) (U : List Target) (rank : Target → Nat)
    (hroot : root ∈ U)
    (hclosed : ∀ u ∈ U, ∀ d ∈ deps_list memory u, d ∈ U ∧ rank d < rank u) :
    AcyclicFrom memory root := by
  have hlt : ∀ t u, Relation.TransGen (Dep memory) t u → t ∈ U → u ∈ U ∧ rank u < rank t := by
    intro t u h
    induction h with
    | single hd => intro ht; exact hclosed _ ht _ hd
    | tail _ hd ih =>
      intro ht
      obtain ⟨hb, hr⟩ := ih ht
      obtain ⟨hc, hr'⟩ := hclosed _ hb _ hd
      exact ⟨hc, Nat.lt_trans hr' hr⟩
  intro t ht hcyc
  have htU := reach_subset memory root U hroot (fun u hu d hd => (hclosed u hu d hd).1) t ht
  exact Nat.lt_irrefl _ (hlt t t hcyc htU).2

theorem distinct_names_of_list (memory : Memory) (root : Target) (U : List Target)
    (hroot : root ∈ U) (hclosed : ∀ u ∈ U, ∀ d ∈ deps_list memory u, d ∈ U)
    (hU : ∀ u ∈ U, ∀ v ∈ U, u.name = v.name → u = v) : DistinctNames memory root :=
  fun u v hu hv => hU u (reach_subset memory root U hroot hclosed u hu) v
    (reach_subset memory root U hroot hclosed v hv)

/-- With at most 128 reachable targets of distinct names, the traversal from the
root records exactly the reachable targets, the root first, none twice. -/
theorem dfs_reachable (memory : Memory) (root : Target) (U : List Target)
    (hU : U.length ≤ 128) (hreach : ∀ u, Reach memory root u → u ∈ U)
    (hnames : DistinctNames memory root) :
    ∃ rest, dfs memory (MAX_ENTRIES + 1) root [] = .ok (root :: rest)
      ∧ (root :: rest).length ≤ 128 ∧ (root :: rest).Nodup
      ∧ ∀ u, u ∈ root :: rest ↔ Reach memory root u := by
  have hinv : (∀ v ∈ ([] : List Target), Reach memory root v) ∧ (names []).Nodup := by
    simp [names]
  cases hd : dfs memory (MAX_ENTRIES + 1) root [] with
  | error e =>
    have he := dfs_only_fuel memory root U hU hreach _ root [] Relation.ReflTransGen.refl hinv e hd
    subst he
    exact absurd hd (dfs_no_fuel memory _ root [] (by simp) (by simp [MAX_ENTRIES]))
  | ok V =>
    obtain ⟨⟨new, e, r, c, nd, _, l⟩, _, hfresh⟩ := dfs_post memory _ root [] V hd
    obtain ⟨rest, e'⟩ := hfresh (by simp [names])
    simp only [List.nil_append] at e e'
    subst e
    have hr : ∀ u ∈ V, Reach memory root u := by
      intro u hu
      obtain ⟨d, hd', hr⟩ := r u hu
      simp only [List.mem_singleton] at hd'
      subst hd'
      exact hr
    have hall : ∀ u, Reach memory root u → u ∈ V := by
      intro u hu
      induction hu with
      | refl => rw [e']; exact List.mem_cons_self _ _
      | tail hb hd' ih =>
        have hn := c _ ih _ hd'
        simp only [List.nil_append, names, List.mem_map] at hn
        obtain ⟨x, hx, hxe⟩ := hn
        have := hnames x _ (hr x hx) (Relation.ReflTransGen.tail hb hd') hxe
        rw [← this]
        exact hx
    refine ⟨rest, by rw [e'], ?_, ?_, ?_⟩
    · rw [← e']; exact l (by simp)
    · rw [← e']
      have := nd (by simp [names])
      simp only [List.nil_append] at this
      exact List.Nodup.of_map _ this
    · intro u
      rw [← e']
      exact ⟨hr u, hall u⟩

/-- C1: for a root whose reachable targets have pairwise distinct names and number at
most 128 (they all lie in a list `U` of at most 128 targets), `flatten_targets`
returns a sequence with the root at position 0 that holds every target reachable
from the root exactly once and no other target. -/
theorem C1_flatten_targets_reachable (memory : Memory) (root : Target) (U : List Target)
    (hU : U.length ≤ 128) (hreach : ∀ u, Reach memory root u → u ∈ U)
    (hnames : DistinctNames memory root) :
    ∃ ts, flatten_targets memory root = .ok ts
      ∧ entry ts.entries 0 = some root
      ∧ (∀ u, Reach memory root u → (live MAX_ENTRIES ts.entries).count u = 1)
      ∧ (∀ u, u ∈ live MAX_ENTRIES ts.entries → Reach memory root u) := by
  obtain ⟨rest, hd, hl, hnd, hiff⟩ := dfs_reachable memory root U hU hreach hnames
  refine ⟨{ entries := (root :: rest).map some }, ?_, ?_, ?_, ?_⟩
  · rw [flatten_targets_eq_dfs, hd]
  · simp [entry]
  · intro u hu
    rw [live_map_some MAX_ENTRIES _ hl]
    exact List.count_eq_one_of_mem hnd ((hiff u).2 hu)
  · intro u hu
    rw [live_map_some MAX_ENTRIES _ hl] at hu
    exact (hiff u).1 hu

theorem C1_flatten_targets_reachable_witness :
    ∃ ts, flatten_targets diamond ex_R = .ok ts
      ∧ entry ts.entries 0 = some ex_R
      ∧ (∀ u, Reach diamond ex_R u → (live MAX_ENTRIES ts.entries).count u = 1)
      ∧ (∀ u, u ∈ live MAX_ENTRIES ts.entries → Reach diamond ex_R u) :=
  C1_flatten_targets_reachable diamond ex_R [ex_R, ex_A, ex_B, ex_C] (by decide)
    (reach_subset diamond ex_R [ex_R, ex_A, ex_B, ex_C] (by decide) (by decide))
    (distinct_names_of_list diamond ex_R [ex_R, ex_A, ex_B, ex_C] (by decide) (by decide)
      (by decide))
theorem flatten_targets_ok_iff (memory : Memory) (root : Target) (ts : Targets)
    (h : flatten_targets memory root = .ok ts) :
    ∃ V, dfs memory (MAX_ENTRIES + 1) root [] = .ok V ∧ ts = { entries := V.map some }
      ∧ V.length ≤ 128 ∧ live MAX_ENTRIES ts.entries = V := by
  rw [flatten_targets_eq_dfs] at h
  cases hd : dfs memory (MAX_ENTRIES + 1) root [] with
  | error e => rw [hd] at h; cases h
  | ok V =>
    rw [hd] at h
    simp only [Except.ok.injEq] at h
    obtain ⟨⟨_, _, _, _, _, _, l⟩, _, _⟩ := dfs_post memory _ root [] V hd
    have hl : V.length ≤ 128 := l (by simp)
    refine ⟨V, rfl, h.symm, hl, ?_⟩
    rw [← h]
    exact live_map_some MAX_ENTRIES V hl

theorem dfs_root_two (memory : Memory) (fuel : Nat) (R A B : Target) (V : List Target)
    (hdeps : deps_list memory R = [A, B]) (h : dfs memory (fuel + 1) R [] = .ok V) :
    ∃ V₁, dfs memory fuel A [R] = .ok V₁ ∧ dfs memory fuel B V₁ = .ok V := by
  simp only [dfs, names, List.map_nil, List.not_mem_nil, if_false, List.length_nil,
    Nat.zero_lt_succ, Nat.ofNat_pos, if_true, hdeps, visit_all, List.nil_append] at h
  cases hA : dfs memory fuel A [R] with
  | error e => rw [hA] at h; cases h
  | ok V₁ =>
    rw [hA] at h
    simp only at h
    cases hB : dfs memory fuel B V₁ with
    | error e => rw [hB] at h; cases h
    | ok V₂ =>
      rw [hB] at h
      simp only [Except.ok.injEq] at h
      subst h
      exact ⟨V₁, rfl, hB⟩

theorem shared_dependency_order (memory : Memory) (R A B C : Target) (ts : Targets)
    (hdeps : deps_list memory R = [A, B]) (hCA : C ∈ deps_list memory A)
    (_hCB : C ∈ deps_list memory B) (hacyc : AcyclicFrom memory R)
    (hnames : DistinctNames memory R) (hAB : ¬ Reach memory A B)
    (h : flatten_targets memory R = .ok ts) :
    ∃ l₁ l₂ l₃, live MAX_ENTRIES ts.entries = R :: A :: (l₁ ++ (C :: l₂) ++ (B :: l₃))
      ∧ (live MAX_ENTRIES ts.entries).count C = 1 := by
  obtain ⟨V, hd, _, _, hlive⟩ := flatten_targets_ok_iff memory R ts h
  rw [hlive]
  obtain ⟨V₁, hA, hB⟩ := dfs_root_two memory _ R A B V hdeps hd
  have hRA : Dep memory R A := by simp [Dep, hdeps]
  have hRB : Dep memory R B := by simp [Dep, hdeps]
  have rR : Reach memory R R := Relation.ReflTransGen.refl
  have rA : Reach memory R A := Relation.ReflTransGen.single hRA
  have rB : Reach memory R B := Relation.ReflTransGen.single hRB
  have rC : Reach memory R C := Relation.ReflTransGen.tail rA hCA
  have hAR : A ≠ R := by
    intro e
    rw [e] at hRA
    exact hacyc R rR (Relation.TransGen.single hRA)
  have hBR : B ≠ R := by
    intro e
    rw [e] at hRB
    exact hacyc R rR (Relation.TransGen.single hRB)
  have hCR : C ≠ R := by
    intro e
    rw [e] at hCA
    exact hacyc R rR (Relation.TransGen.tail (Relation.TransGen.single hRA) hCA)
  have hCA' : C ≠ A := by
    intro e
    rw [e] at hCA
    exact hacyc A rA (Relation.TransGen.single hCA)
  obtain ⟨⟨new₁, e₁, r₁, c₁, nd₁, _, _⟩, _, f₁⟩ := dfs_post memory _ A [R] V₁ hA
  obtain ⟨rest₁, e₁'⟩ := f₁ (by
    simp only [names, List.map_cons, List.map_nil, List.mem_singleton]
    exact fun e => hAR (hnames A R rA rR e))
  have hnew₁ : new₁ = A :: rest₁ := List.append_cancel_left (e₁.symm.trans e₁')
  have hr₁ : ∀ u ∈ new₁, Reach memory A u := by
    intro u hu
    obtain ⟨d, hd', hr⟩ := r₁ u hu
    simp only [List.mem_singleton] at hd'
    subst hd'
    exact hr
  have hCrest : C ∈ rest₁ := by
    have hn := c₁ A (by rw [hnew₁]; exact List.mem_cons_self _ _) C hCA
    rw [e₁'] at hn
    simp only [names, List.map_append, List.map_cons, List.map_nil, List.mem_append,
      List.mem_singleton, List.mem_cons, List.mem_map, List.not_mem_nil, or_false] at hn
    rcases hn with hn | hn | ⟨x, hx, hxe⟩
    · exact absurd (hnames C R rC rR hn) hCR
    · exact absurd (hnames C A rC rA hn) hCA'
    · have hxr : Reach memory R x :=
        Relation.ReflTransGen.trans rA (hr₁ x (by rw [hnew₁]; exact List.mem_cons_of_mem _ hx))
      rw [← hnames x C hxr rC hxe]
      exact hx
  obtain ⟨l₁, l₂, hsplit⟩ := List.append_of_mem hCrest
  obtain ⟨⟨new₂, e₂, _, _, nd₂, _, _⟩, _, f₂⟩ := dfs_post memory _ B V₁ V hB
  obtain ⟨l₃, e₂'⟩ := f₂ (by
    rw [e₁']
    simp only [names, List.map_append, List.map_cons, List.map_nil, List.mem_append,
      List.mem_singleton, List.mem_cons, List.mem_map, List.not_mem_nil, or_false]
    rintro (hn | hn | ⟨x, hx, hxe⟩)
    · exact hBR (hnames B R rB rR hn)
    · exact hAB (by rw [hnames B A rB rA hn]; exact Relation.ReflTransGen.refl)
    · have hAx := hr₁ x (by rw [hnew₁]; exact List.mem_cons_of_mem _ hx)
      have hxr : Reach memory R x := Relation.ReflTransGen.trans rA hAx
      rw [hnames x B hxr rB hxe] at hAx
      exact hAB hAx)
  have hV : V = R :: A :: (l₁ ++ (C :: l₂) ++ (B :: l₃)) := by
    rw [e₂', e₁', hsplit]
    simp
  have hnd : V.Nodup := by
    have h1 := nd₂ (nd₁ (by simp [names]))
    exact List.Nodup.of_map _ h1
  refine ⟨l₁, l₂, l₃, hV, ?_⟩
  apply List.count_eq_one_of_mem hnd
  rw [hV]
  simp

/-- C2 (amended): dependencies are visited depth-first in declaration order.  For
every graph whose targets reachable from `R` have pairwise distinct names and lie
on no cycle, where `R` has the dependency list `[A, B]`, both `A` and `B` list `C`
as a dependency and `B` is not reachable from `A`: whenever `flatten_targets R`
returns, the sequence contains `C` exactly once, after `A` and before `B`.  For the
graph `R -> [A, B]`, `A -> [C]`, `B -> [C]`, `C -> []` the result is exactly
`[R, A, C, B]`. -/
theorem C2_shared_dependency_under_first_branch :
    (∀ (memory : Memory) (R A B C : Target) (ts : Targets),
        deps_list memory R = [A, B] → C ∈ deps_list memory A → C ∈ deps_list memory B →
        AcyclicFrom memory R → DistinctNames memory R → ¬ Reach memory A B →
        flatten_targets memory R = .ok ts →
        ∃ l₁ l₂ l₃, live MAX_ENTRIES ts.entries = R :: A :: (l₁ ++ (C :: l₂) ++ (B :: l₃))
          ∧ (live MAX_ENTRIES ts.entries).count C = 1)
    ∧ flatten_targets diamond ex_R
        = .ok { entries := [some ex_R, some ex_A, some ex_C, some ex_B] } :=
  ⟨shared_dependency_order, by rfl⟩

theorem C2_shared_dependency_under_first_branch_witness :
    ∃ l₁ l₂ l₃,
      live MAX_ENTRIES [some ex_R, some ex_A, some ex_C, some ex_B]
          = ex_R :: ex_A :: (l₁ ++ (ex_C :: l₂) ++ (ex_B :: l₃))
        ∧ (live MAX_ENTRIES [some ex_R, some ex_A, some ex_C, some ex_B]).count ex_C = 1 :=
  C2_shared_dependency_under_first_branch.1 diamond ex_R ex_A ex_B ex_C
    { entries := [some ex_R, some ex_A, some ex_C, some ex_B] }
    (by rfl) (by decide) (by decide)
    (acyclic_of_rank diamond ex_R [ex_R, ex_A, ex_B, ex_C]
      (fun t => if t = ex_R then 2 else if t = ex_C then 0 else 1) (by decide) (by decide))
    (distinct_names_of_list diamond ex_R [ex_R, ex_A, ex_B, ex_C] (by decide) (by decide)
      (by decide))
    (fun h => absurd (reach_subset diamond ex_A [ex_A, ex_C] (by decide) (by decide) ex_B h)
      (by decide))
    (by rfl)

/-- C2 (counterexample): in the acyclic graph `R -> [A, B]`, `A -> [B, C]`, `B -> [C]`,
`C -> []` with distinct names, `A` and `B` both depend on `C`, yet the flattened
sequence is `[R, A, B, C]`: `C` comes after `B`. -/
theorem C2_counterexample :
    ¬ (∀ (memory : Memory) (R A B C : Target) (ts : Targets),
        deps_list memory R = [A, B] → C ∈ deps_list memory A → C ∈ deps_list memory B →
        AcyclicFrom memory R → DistinctNames memory R →
        flatten_targets memory R = .ok ts →
        ∃ l₁ l₂ l₃, live MAX_ENTRIES ts.entries = R :: A :: (l₁ ++ (C :: l₂) ++ (B :: l₃))
          ∧ (live MAX_ENTRIES ts.entries).count C = 1) := by
  intro h
  obtain ⟨l₁, l₂, l₃, e, _⟩ := h skewed ex_R ex_A ex_B ex_C
    { entries := [some ex_R, some ex_A, some ex_B, some ex_C] }
    (by rfl) (by decide) (by decide)
    (acyclic_of_rank skewed ex_R [ex_R, ex_A, ex_B, ex_C]
      (fun t => if t = ex_R then 3 else if t = ex_A then 2 else if t = ex_B then 1 else 0)
      (by decide) (by decide))
    (distinct_names_of_list skewed ex_R [ex_R, ex_A, ex_B, ex_C] (by decide) (by decide)
      (by decide))
    (by rfl)
  have e' : [ex_B, ex_C] = l₁ ++ (ex_C :: l₂) ++ (ex_B :: l₃) := by
    have := e
    simp only [live, MAX_ENTRIES, List.cons.injEq, true_and] at this
    exact this
  have hlen := congrArg List.length e'
  simp only [List.length_cons, List.length_nil, List.length_append] at hlen
  have h1 : l₁ = [] := List.eq_nil_of_length_eq_zero (by omega)
  have h2 : l₂ = [] := List.eq_nil_of_length_eq_zero (by omega)
  subst h1 h2
  simp only [List.nil_append, List.singleton_append, List.cons.injEq] at e'
  exact absurd e'.1 (by decide)
theorem flatten_targets_no_fuel (memory : Memory) (root : Target) :
    flatten_targets memory root ≠ .error .out_of_fuel := by
  rw [flatten_targets_eq_dfs]
  have h := dfs_no_fuel memory (MAX_ENTRIES + 1) root [] (by simp) (by simp [MAX_ENTRIES])
  cases hd : dfs memory (MAX_ENTRIES + 1) root [] with
  | ok V => simp
  | error e =>
    rw [hd] at h
    intro he
    simp only [Except.error.injEq] at he
    subst he
    exact h rfl

theorem flatten_targets_fuel_stable (memory : Memory) (root : Target) (k : Nat) :
    flatten_targets_fuel (MAX_ENTRIES + 1 + k) memory root = flatten_targets memory root := by
  rw [flatten_targets_eq_dfs, flatten_targets_fuel_eq_dfs,
    dfs_mono_add memory (MAX_ENTRIES + 1) k root []
      (dfs_no_fuel memory (MAX_ENTRIES + 1) root [] (by simp) (by simp [MAX_ENTRIES]))]

theorem visit_all_error (f : Target → List Target → Except Fault (List Target))
    (Inv : List Target → Prop) (P : Fault → Prop) (D : List Target)
    (hf : ∀ d ∈ D, ∀ W, Inv W → ∀ e, f d W = .error e → P e)
    (hpost : ∀ d ∈ D, ∀ W W', Inv W → f d W = .ok W' → Inv W')
    (V : List Target) (hV : Inv V) (e : Fault) (he : visit_all f D V = .error e) : P e := by
  induction D generalizing V with
  | nil => simp [visit_all] at he
  | cons d rest ih =>
    simp only [visit_all] at he
    cases hd : f d V with
    | error e' =>
      rw [hd] at he
      simp only [Except.error.injEq] at he
      subst he
      exact hf d (List.mem_cons_self _ _) V hV _ hd
    | ok V₁ =>
      rw [hd] at he
      exact ih (fun d' hd' => hf d' (List.mem_cons_of_mem _ hd'))
        (fun d' hd' => hpost d' (List.mem_cons_of_mem _ hd')) V₁
        (hpost d (List.mem_cons_self _ _) V V₁ hV hd) he

theorem dfs_error_cases (memory : Memory) (fuel : Nat) (t : Target) (V : List Target)
    (hV : V.length ≤ 128) (e : Fault) (he : dfs memory fuel t V = .error e) :
    e = .out_of_fuel ∨ e = .out_of_bounds := by
  induction fuel generalizing t V e with
  | zero =>
    simp only [dfs, Except.error.injEq] at he
    exact Or.inl he.symm
  | succ fuel ih =>
    by_cases hmem : t.name ∈ names V
    · simp [dfs, hmem] at he
    · by_cases hlt : V.length < 128
      · simp only [dfs, hmem, hlt, if_true, if_false] at he
        apply visit_all_error (fun d W => dfs memory fuel d W) (fun W => W.length ≤ 128)
          (fun e => e = .out_of_fuel ∨ e = .out_of_bounds) (deps_list memory t) ?_ ?_
          (V ++ [t]) ?_ e he
        · intro d _ W hW e' he'
          exact ih d W hW e' he'
        · intro d _ W W' hW hd
          obtain ⟨_, _, _, _, _, _, hb⟩ := (dfs_post memory fuel d W W' hd).1
          exact hb hW
        · simp only [List.length_append, List.length_singleton]
          omega
      · simp only [dfs, hmem, hlt, hV, if_true, if_false, Except.error.injEq] at he
        exact Or.inr he.symm

theorem flatten_targets_outcome (memory : Memory) (root : Target) :
    (∃ ts, flatten_targets memory root = .ok ts)
      ∨ flatten_targets memory root = .error .out_of_bounds := by
  cases h : flatten_targets memory root with
  | ok ts => exact Or.inl ⟨ts, rfl⟩
  | error e =>
    right
    have h' := h
    rw [flatten_targets_eq_dfs] at h'
    cases hd : dfs memory (MAX_ENTRIES + 1) root [] with
    | ok V => rw [hd] at h'; cases h'
    | error e' =>
      rw [hd] at h'
      simp only [Except.error.injEq] at h'
      subst h'
      rcases dfs_error_cases memory _ root [] (by simp) e' hd with he | he
      · subst he
        exact absurd hd (dfs_no_fuel memory _ root [] (by simp) (by simp [MAX_ENTRIES]))
      · rw [he]

/-- C3: `flatten_targets` terminates on every dependency graph, cyclic ones included:
a target whose name is already in `seen` is skipped and `seen` holds at most 128
names, so the traversal never exhausts its recursion budget of 129 nested calls,
every larger budget gives the same outcome, and every run ends either with a
sequence or at the store past the end of the full `seen` map.  For the cycle
`A -> [B]`, `B -> [A]`, `flatten_targets A` yields exactly `[A, B]`. -/
theorem C3_flatten_targets_terminates :
    (∀ (memory : Memory) (root : Target), flatten_targets memory root ≠ .error .out_of_fuel)
    ∧ (∀ (memory : Memory) (root : Target) (k : Nat),
        flatten_targets_fuel (MAX_ENTRIES + 1 + k) memory root = flatten_targets memory root)
    ∧ (∀ (memory : Memory) (root : Target),
        (∃ ts, flatten_targets memory root = .ok ts)
          ∨ flatten_targets memory root = .error .out_of_bounds)
    ∧ flatten_targets two_cycle ex_A = .ok { entries := [some ex_A, some ex_B] } :=
  ⟨flatten_targets_no_fuel, flatten_targets_fuel_stable, flatten_targets_outcome, by rfl⟩

theorem flatten_targets_names_nodup (memory : Memory) (root : Target) (ts : Targets)
    (h : flatten_targets memory root = .ok ts) :
    (names (live MAX_ENTRIES ts.entries)).Nodup := by
  obtain ⟨V, hd, _, _, hlive⟩ := flatten_targets_ok_iff memory root ts h
  rw [hlive]
  obtain ⟨⟨_, _, _, _, nd, _, _⟩, _, _⟩ := dfs_post memory _ root [] V hd
  exact nd (by simp [names])

theorem rec_skips_seen {σ : Type} (memory : Memory) (callback : σ → Target → Except Fault σ)
    (fuel : Nat) (t : Target) (seen : SmallMap) (user : σ)
    (h : seen.has (StringView.from_c_string t.name) = true) :
    recurse_targets_rec memory callback (fuel + 1) t (seen, user) = .ok (seen, user) := by
  simp [recurse_targets_rec, h]

theorem rec_records_fresh (memory : Memory) (fuel : Nat) (t : Target) (V : List Target)
    (st : SmallMap × Context) (hfresh : t.name ∉ names V)
    (h : recurse_targets_rec memory flatten_callback fuel t (state_of V) = .ok st) :
    ∃ rest, st = state_of (V ++ t :: rest) := by
  rw [rec_eq_dfs] at h
  cases hd : dfs memory fuel t V with
  | error e => rw [hd] at h; cases h
  | ok V' =>
    rw [hd] at h
    simp only [Except.ok.injEq] at h
    obtain ⟨rest, e⟩ := (dfs_post memory fuel t V V' hd).2.2 hfresh
    exact ⟨rest, by rw [← h, e]⟩

/-- C4: for every graph, with or without name collisions, no two entries of the
sequence `flatten_targets` returns have the same name.  A target whose name is
already in `seen` is skipped: the call leaves `seen` and the callback state as
they are, so the target is not recorded and its dependencies are not traversed;
a target whose name is not yet in `seen` is recorded at that moment, after the
entries already present.  In the graph `R -> [A, A2]`, `A2 -> [C]`, where `A` and
`A2` share a name, the result is `[R, A]`. -/
theorem C4_first_name_wins :
    (∀ (memory : Memory) (root : Target) (ts : Targets),
        flatten_targets memory root = .ok ts → (names (live MAX_ENTRIES ts.entries)).Nodup)
    ∧ (∀ (memory : Memory) (callback : Context → Target → Except Fault Context) (fuel : Nat)
        (t : Target) (seen : SmallMap) (user : Context),
        seen.has (StringView.from_c_string t.name) = true →
        recurse_targets_rec memory callback (fuel + 1) t (seen, user) = .ok (seen, user))
    ∧ (∀ (memory : Memory) (fuel : Nat) (t : Target) (V : List Target)
        (st : SmallMap × Context), t.name ∉ names V →
        recurse_targets_rec memory flatten_callback fuel t (state_of V) = .ok st →
        ∃ rest, st = state_of (V ++ t :: rest))
    ∧ flatten_targets collision ex_R = .ok { entries := [some ex_R, some ex_A] } :=
  ⟨flatten_targets_names_nodup, rec_skips_seen, rec_records_fresh, by rfl⟩

theorem C4_first_name_wins_witness :
    (names (live MAX_ENTRIES [some ex_R, some ex_A])).Nodup :=
  C4_first_name_wins.1 collision ex_R { entries := [some ex_R, some ex_A] } (by rfl)
/-! ## Target triples -/

theorem snprintf_fits (size : Nat) (text : String) (h : text.length + 1 ≤ size) :
    snprintf size text = text := by
  simp only [snprintf]
  rw [List.take_of_length_le]
  have : text.data.length = text.length := rfl
  omega

/-- C5: for every triple, `target_triple_string` returns exactly
`arch ++ "-" ++ abi ++ "-" ++ os`, untruncated, where an absent field is rendered as
`"unknown"`; `{x86_64, gnu, linux}` formats to `"x86_64-gnu-linux"` and
`wasm_target_triple()` to `"wasm32-unknown-unknown"`. -/
theorem C5_target_triple_string :
    (∀ triple : TargetTriple,
        target_triple_string triple
          = triple.arch.getD "unknown" ++ "-" ++ triple.abi.getD "unknown" ++ "-"
              ++ triple.os.getD "unknown")
    ∧ target_triple_string { arch := some "x86_64", abi := some "gnu", os := some "linux" }
        = "x86_64-gnu-linux"
    ∧ target_triple_string wasm_target_triple = "wasm32-unknown-unknown" := by
  refine ⟨?_, by decide, by decide⟩
  intro triple
  have key : ∀ a b c : String,
      snprintf (0 + (strlen a + 1) + (strlen b + 1) + (strlen c + 1)) (a ++ "-" ++ b ++ "-" ++ c)
        = a ++ "-" ++ b ++ "-" ++ c := by
    intro a b c
    apply snprintf_fits
    have h1 : ("-" : String).length = 1 := rfl
    simp only [String.length_append, strlen, h1]
    omega
  obtain ⟨arch, abi, os⟩ := triple
  cases arch <;> cases abi <;> cases os <;>
    simp only [target_triple_string, Option.getD_some, Option.getD_none] <;> exact key _ _ _
/-! ## Merging flags and the constructors -/

theorem memcpy_loop_append {α : Type} (other : List (Option α)) (c n k : Nat)
    (items : List (Option α)) (h : items.length = c + k) :
    memcpy_loop other c n k items = items ++ (List.range' k n).map (entry other) := by
  induction n generalizing k items with
  | zero => simp [memcpy_loop]
  | succ n ih =>
    simp only [memcpy_loop]
    rw [← h, store_length, ih (k + 1) _ (by simp [h, Nat.add_assoc])]
    simp [List.range'_succ]

theorem map_entry_range_shift {α : Type} (x : Option α) (rest : List (Option α)) (n k : Nat) :
    (List.range' (k + 1) n).map (entry (x :: rest)) = (List.range' k n).map (entry rest) := by
  induction n generalizing k with
  | zero => rfl
  | succ n ih => simp only [List.range'_succ, List.map_cons, entry_cons_succ, ih (k + 1)]

theorem map_entry_range_live {α : Type} (Count : Nat) (other : List (Option α)) :
    (List.range' 0 (len Count other)).map (entry other) = (live Count other).map some := by
  induction Count generalizing other with
  | zero => simp [len, len_loop, live]
  | succ n ih =>
    cases other with
    | nil => simp [len, len_loop, live, entry]
    | cons x rest =>
      cases x with
      | none => simp [len, len_loop, live, entry]
      | some a =>
        have hl : len (n + 1) (some a :: rest) = len n rest + 1 := by
          simp [len, len_loop, entry, len_loop_cons]
        rw [hl, List.range'_succ]
        simp only [List.map_cons, live, Nat.zero_add]
        rw [map_entry_range_shift, ih rest]
        simp [entry]

theorem cat_map_some {α : Type} (Count Count2 : Nat) (V : List α) (other r : List (Option α))
    (hV : V.length ≤ Count) (h : cat Count Count2 (V.map some) other = .ok r) :
    r = (V ++ live Count2 other).map some ∧ live Count r = V ++ live Count2 other := by
  have hlen : len Count (V.map some) = V.length := by
    rw [len_eq_length_live, live_map_some Count V hV]
  simp only [cat, hlen] at h
  split at h
  · rename_i hgt
    simp only [Except.ok.injEq] at h
    rw [memcpy_loop_append other V.length _ 0 _ (by simp), map_entry_range_live] at h
    have hr : r = (V ++ live Count2 other).map some := by rw [← h]; simp
    refine ⟨hr, ?_⟩
    rw [hr]
    apply live_map_some
    rw [len_eq_length_live] at hgt
    simp only [List.length_append]
    omega
  · cases h

theorem default_cpp_args_eq :
    default_cpp_args.entries
      = (["-Wall", "-Wextra", "-fcolor-diagnostics", "-std=c++17"] : List String).map some := by
  decide

theorem default_c_args_eq :
    default_c_args.entries
      = (["-Wall", "-Wextra", "-fcolor-diagnostics", "-std=11", "-xc"] : List String).map some := by
  decide

theorem default_objc_args_eq :
    default_objc_args.entries
      = (["-Wall", "-Wextra", "-fcolor-diagnostics", "-std=11", "-xc", "-xobjc"]
          : List String).map some := by
  decide

theorem default_objcpp_args_eq :
    default_objcpp_args.entries
      = (["-Wall", "-Wextra", "-fcolor-diagnostics", "-std=c++17", "-xobjc++"]
          : List String).map some := by
  decide

theorem all_targets_append_memory (w w' : World) (target : Target)
    (h : all_targets_append w target = .ok w') :
    w'.memory.binary = w.memory.binary ∧ w'.memory.library = w.memory.library := by
  simp only [all_targets_append] at h
  split at h
  · simp only [Except.ok.injEq] at h
    subst h
    exact ⟨rfl, rfl⟩
  · cases h

theorem cpp_binary_flags (host : Host) (libc : Libc) (name : String) (args : BinaryArgs)
    (file : String) (w : World) (t : Target) (w' : World)
    (h : cpp_binary host libc name args file w = .ok (t, w')) :
    live MAX_ENTRIES (w'.memory.binary_at t.args).compile_flags.entries
      = live MAX_ENTRIES default_cpp_args.entries ++ live MAX_ENTRIES args.compile_flags.entries := by
  simp only [cpp_binary] at h
  cases hc : cat MAX_ENTRIES MAX_ENTRIES default_cpp_args.entries args.compile_flags.entries with
  | error e => rw [hc] at h; cases h
  | ok flags =>
    rw [hc] at h
    simp only at h
    split at h
    · cases h
    · rename_i w'' hw
      simp only [Except.ok.injEq, Prod.mk.injEq] at h
      obtain ⟨ht, hw'⟩ := h
      subst ht hw'
      have hm := (all_targets_append_memory _ _ _ hw).1
      rw [default_cpp_args_eq] at hc ⊢
      have hcat := (cat_map_some MAX_ENTRIES MAX_ENTRIES _ _ _ (by decide) hc).2
      rw [live_map_some MAX_ENTRIES _ (by decide)]
      simp only [Memory.binary_at, hm, Memory.set_binary, if_true]
      exact hcat
theorem cpp_library_flags (libc : Libc) (name : String) (args : LibraryArgs)
    (file : String) (w : World) (t : Target) (w' : World)
    (h : cpp_library libc name args file w = .ok (t, w')) :
    live MAX_ENTRIES (w'.memory.library_at t.args).compile_flags.entries
      = live MAX_ENTRIES default_cpp_args.entries ++ live MAX_ENTRIES args.compile_flags.entries := by
  simp only [cpp_library] at h
  cases hc : cat MAX_ENTRIES MAX_ENTRIES default_cpp_args.entries args.compile_flags.entries with
  | error e => rw [hc] at h; cases h
  | ok flags =>
    rw [hc] at h
    simp only at h
    split at h
    · cases h
    · rename_i w'' hw
      simp only [Except.ok.injEq, Prod.mk.injEq] at h
      obtain ⟨ht, hw'⟩ := h
      subst ht hw'
      have hm := (all_targets_append_memory _ _ _ hw).2
      rw [default_cpp_args_eq] at hc ⊢
      have hcat := (cat_map_some MAX_ENTRIES MAX_ENTRIES _ _ _ (by decide) hc).2
      rw [live_map_some MAX_ENTRIES _ (by decide)]
      simp only [Memory.library_at, hm, Memory.set_library, if_true]
      exact hcat

theorem c_library_flags (libc : Libc) (name : String) (args : LibraryArgs)
    (file : String) (w : World) (t : Target) (w' : World)
    (h : c_library libc name args file w = .ok (t, w')) :
    live MAX_ENTRIES (w'.memory.library_at t.args).compile_flags.entries
      = live MAX_ENTRIES default_c_args.entries ++ live MAX_ENTRIES args.compile_flags.entries := by
  simp only [c_library] at h
  cases hc : cat MAX_ENTRIES MAX_ENTRIES default_c_args.entries args.compile_flags.entries with
  | error e => rw [hc] at h; cases h
  | ok flags =>
    rw [hc] at h
    simp only at h
    split at h
    · cases h
    · rename_i w'' hw
      simp only [Except.ok.injEq, Prod.mk.injEq] at h
      obtain ⟨ht, hw'⟩ := h
      subst ht hw'
      have hm := (all_targets_append_memory _ _ _ hw).2
      rw [default_c_args_eq] at hc ⊢
      have hcat := (cat_map_some MAX_ENTRIES MAX_ENTRIES _ _ _ (by decide) hc).2
      rw [live_map_some MAX_ENTRIES _ (by decide)]
      simp only [Memory.library_at, hm, Memory.set_library, if_true]
      exact hcat

theorem objc_library_flags (libc : Libc) (name : String) (args : LibraryArgs)
    (file : String) (w : World) (t : Target) (w' : World)
    (h : objc_library libc name args file w = .ok (t, w')) :
    live MAX_ENTRIES (w'.memory.library_at t.args).compile_flags.entries
      = live MAX_ENTRIES default_objc_args.entries ++ live MAX_ENTRIES args.compile_flags.entries := by
  simp only [objc_library] at h
  cases hc : cat MAX_ENTRIES MAX_ENTRIES default_objc_args.entries args.compile_flags.entries with
  | error e => rw [hc] at h; cases h
  | ok flags =>
    rw [hc] at h
    simp only at h
    split at h
    · cases h
    · rename_i w'' hw
      simp only [Except.ok.injEq, Prod.mk.injEq] at h
      obtain ⟨ht, hw'⟩ := h
      subst ht hw'
      have hm := (all_targets_append_memory _ _ _ hw).2
      rw [default_objc_args_eq] at hc ⊢
      have hcat := (cat_map_some MAX_ENTRIES MAX_ENTRIES _ _ _ (by decide) hc).2
      rw [live_map_some MAX_ENTRIES _ (by decide)]
      simp only [Memory.library_at, hm, Memory.set_library, if_true]
      exact hcat

theorem objcpp_library_flags (libc : Libc) (name : String) (args : LibraryArgs)
    (file : String) (w : World) (t : Target) (w' : World)
    (h : objcpp_library libc name args file w = .ok (t, w')) :
    live MAX_ENTRIES (w'.memory.library_at t.args).compile_flags.entries
      = live MAX_ENTRIES default_objcpp_args.entries ++ live MAX_ENTRIES args.compile_flags.entries := by
  simp only [objcpp_library] at h
  cases hc : cat MAX_ENTRIES MAX_ENTRIES default_objcpp_args.entries args.compile_flags.entries with
  | error e => rw [hc] at h; cases h
  | ok flags =>
    rw [hc] at h
    simp only at h
    split at h
    · cases h
    · rename_i w'' hw
      simp only [Except.ok.injEq, Prod.mk.injEq] at h
      obtain ⟨ht, hw'⟩ := h
      subst ht hw'
      have hm := (all_targets_append_memory _ _ _ hw).2
      rw [default_objcpp_args_eq] at hc ⊢
      have hcat := (cat_map_some MAX_ENTRIES MAX_ENTRIES _ _ _ (by decide) hc).2
      rw [live_map_some MAX_ENTRIES _ (by decide)]
      simp only [Memory.library_at, hm, Memory.set_library, if_true]
      exact hcat

theorem live_defaults :
    live MAX_ENTRIES default_cpp_args.entries
        = ["-Wall", "-Wextra", "-fcolor-diagnostics", "-std=c++17"]
      ∧ live MAX_ENTRIES default_c_args.entries
        = ["-Wall", "-Wextra", "-fcolor-diagnostics", "-std=11", "-xc"]
      ∧ live MAX_ENTRIES default_objc_args.entries
        = ["-Wall", "-Wextra", "-fcolor-diagnostics", "-std=11", "-xc", "-xobjc"]
      ∧ live MAX_ENTRIES default_objcpp_args.entries
        = ["-Wall", "-Wextra", "-fcolor-diagnostics", "-std=c++17", "-xobjc++"] := by
  decide

/-- C6: whenever a constructor (`cpp_binary`, `cpp_library`, `c_library`,
`objc_library`, `objcpp_library`) returns, the compile flags stored in the block
of the returned target are exactly the default flags of its language followed by
all of the flags of the caller, in order.  The defaults of `cpp_binary` are
`-Wall -Wextra -fcolor-diagnostics -std=c++17`: with no explicit flags the stored
flags are these four, with the single flag `-O2` they are these four and `-O2`. -/
theorem C6_default_flags_precede_explicit_flags :
    (∀ (host : Host) (libc : Libc) (name : String) (args : BinaryArgs) (file : String)
        (w : World) (t : Target) (w' : World),
        cpp_binary host libc name args file w = .ok (t, w') →
        live MAX_ENTRIES (w'.memory.binary_at t.args).compile_flags.entries
          = live MAX_ENTRIES default_cpp_args.entries
              ++ live MAX_ENTRIES args.compile_flags.entries)
    ∧ (∀ (libc : Libc) (name : String) (args : LibraryArgs) (file : String)
        (w : World) (t : Target) (w' : World),
        (cpp_library libc name args file w = .ok (t, w') →
          live MAX_ENTRIES (w'.memory.library_at t.args).compile_flags.entries
            = live MAX_ENTRIES default_cpp_args.entries
                ++ live MAX_ENTRIES args.compile_flags.entries)
        ∧ (c_library libc name args file w = .ok (t, w') →
          live MAX_ENTRIES (w'.memory.library_at t.args).compile_flags.entries
            = live MAX_ENTRIES default_c_args.entries
                ++ live MAX_ENTRIES args.compile_flags.entries)
        ∧ (objc_library libc name args file w = .ok (t, w') →
          live MAX_ENTRIES (w'.memory.library_at t.args).compile_flags.entries
            = live MAX_ENTRIES default_objc_args.entries
                ++ live MAX_ENTRIES args.compile_flags.entries)
        ∧ (objcpp_library libc name args file w = .ok (t, w') →
          live MAX_ENTRIES (w'.memory.library_at t.args).compile_flags.entries
            = live MAX_ENTRIES default_objcpp_args.entries
                ++ live MAX_ENTRIES args.compile_flags.entries))
    ∧ live MAX_ENTRIES default_cpp_args.entries
        = ["-Wall", "-Wextra", "-fcolor-diagnostics", "-std=c++17"]
    ∧ (∀ (host : Host) (libc : Libc) (name : String) (args : BinaryArgs) (file : String)
        (w : World) (t : Target) (w' : World),
        cpp_binary host libc name { args with compile_flags := {} } file w = .ok (t, w') →
        live MAX_ENTRIES (w'.memory.binary_at t.args).compile_flags.entries
          = ["-Wall", "-Wextra", "-fcolor-diagnostics", "-std=c++17"])
    ∧ (∀ (host : Host) (libc : Libc) (name : String) (args : BinaryArgs) (file : String)
        (w : World) (t : Target) (w' : World),
        cpp_binary host libc name { args with compile_flags := { entries := [some "-O2"] } }
            file w = .ok (t, w') →
        live MAX_ENTRIES (w'.memory.binary_at t.args).compile_flags.entries
          = ["-Wall", "-Wextra", "-fcolor-diagnostics", "-std=c++17", "-O2"]) := by
  refine ⟨cpp_binary_flags, ?_, live_defaults.1, ?_, ?_⟩
  · intro libc name args file w t w'
    exact ⟨cpp_library_flags libc name args file w t w', c_library_flags libc name args file w t w',
      objc_library_flags libc name args file w t w', objcpp_library_flags libc name args file w t w'⟩
  · intro host libc name args file w t w' h
    rw [cpp_binary_flags host libc name _ file w t w' h, live_defaults.1]
    rfl
  · intro host libc name args file w t w' h
    rw [cpp_binary_flags host libc name _ file w t w' h, live_defaults.1]
    rfl

theorem C6_default_flags_precede_explicit_flags_witness :
    ∃ t w', cpp_binary ex_host ex_libc "app"
        { srcs := { entries := [some "main.cpp"] },
          compile_flags := { entries := [some "-O2"] } } "src/build.cpp" {} = .ok (t, w')
      ∧ live MAX_ENTRIES (w'.memory.binary_at t.args).compile_flags.entries
          = live MAX_ENTRIES default_cpp_args.entries
              ++ live MAX_ENTRIES ([some "-O2"] : List c_string) := by
  cases h : cpp_binary ex_host ex_libc "app"
      { srcs := { entries := [some "main.cpp"] },
        compile_flags := { entries := [some "-O2"] } } "src/build.cpp" {} with
  | error e =>
    have hok : (cpp_binary ex_host ex_libc "app"
      { srcs := { entries := [some "main.cpp"] },
        compile_flags := { entries := [some "-O2"] } } "src/build.cpp" {}).isOk = true := rfl
    rw [h] at hok
    cases hok
  | ok p =>
    exact ⟨p.1, p.2, rfl,
      C6_default_flags_precede_explicit_flags.1 ex_host ex_libc "app" _ "src/build.cpp" {} p.1 p.2 h⟩
/-! ## The stored target triple -/

theorem cpp_binary_target_triple (host : Host) (libc : Libc) (name : String) (args : BinaryArgs)
    (file : String) (w : World) (t : Target) (w' : World)
    (h : cpp_binary host libc name args file w = .ok (t, w')) :
    (w'.memory.binary_at t.args).target_triple = system_target_triple host := by
  simp only [cpp_binary] at h
  cases hc : cat MAX_ENTRIES MAX_ENTRIES default_cpp_args.entries args.compile_flags.entries with
  | error e => rw [hc] at h; cases h
  | ok flags =>
    rw [hc] at h
    simp only at h
    split at h
    · cases h
    · rename_i w'' hw
      simp only [Except.ok.injEq, Prod.mk.injEq] at h
      obtain ⟨ht, hw'⟩ := h
      subst ht hw'
      have hm := (all_targets_append_memory _ _ _ hw).1
      simp only [Memory.binary_at, hm, Memory.set_binary, if_true]

/-- C7 (failing input): `cpp_binary` called on a Linux x86-64 host with the target
triple explicitly set to `wasm_target_triple()` stores the host triple
`x86_64-gnu-linux`, not the triple of the caller. -/
theorem C7_cpp_binary_overwrites_caller_triple :
    ∃ t w', cpp_binary ex_host ex_libc "app"
        { srcs := { entries := [some "main.cpp"] }, target_triple := wasm_target_triple }
        "src/build.cpp" {} = .ok (t, w')
      ∧ (w'.memory.binary_at t.args).target_triple = system_target_triple ex_host
      ∧ (w'.memory.binary_at t.args).target_triple ≠ wasm_target_triple
      ∧ target_triple_string (w'.memory.binary_at t.args).target_triple = "x86_64-gnu-linux" := by
  cases h : cpp_binary ex_host ex_libc "app"
      { srcs := { entries := [some "main.cpp"] }, target_triple := wasm_target_triple }
      "src/build.cpp" {} with
  | error e =>
    have hok : (cpp_binary ex_host ex_libc "app"
      { srcs := { entries := [some "main.cpp"] }, target_triple := wasm_target_triple }
      "src/build.cpp" {}).isOk = true := rfl
    rw [h] at hok
    cases hok
  | ok p =>
    have ht := cpp_binary_target_triple ex_host ex_libc "app" _ "src/build.cpp" {} p.1 p.2 h
    refine ⟨p.1, p.2, rfl, ht, ?_, ?_⟩
    · rw [ht]; decide
    · rw [ht]; decide

theorem cpp_library_target_triple (libc : Libc) (name : String) (args : LibraryArgs)
    (file : String) (w : World) (t : Target) (w' : World)
    (h : cpp_library libc name args file w = .ok (t, w')) :
    (w'.memory.library_at t.args).target_triple = args.target_triple := by
  simp only [cpp_library] at h
  cases hc : cat MAX_ENTRIES MAX_ENTRIES default_cpp_args.entries args.compile_flags.entries with
  | error e => rw [hc] at h; cases h
  | ok flags =>
    rw [hc] at h
    simp only at h
    split at h
    · cases h
    · rename_i w'' hw
      simp only [Except.ok.injEq, Prod.mk.injEq] at h
      obtain ⟨ht, hw'⟩ := h
      subst ht hw'
      have hm := (all_targets_append_memory _ _ _ hw).2
      simp only [Memory.library_at, hm, Memory.set_library, if_true]

theorem c_library_target_triple (libc : Libc) (name : String) (args : LibraryArgs)
    (file : String) (w : World) (t : Target) (w' : World)
    (h : c_library libc name args file w = .ok (t, w')) :
    (w'.memory.library_at t.args).target_triple = args.target_triple := by
  simp only [c_library] at h
  cases hc : cat MAX_ENTRIES MAX_ENTRIES default_c_args.entries args.compile_flags.entries with
  | error e => rw [hc] at h; cases h
  | ok flags =>
    rw [hc] at h
    simp only at h
    split at h
    · cases h
    · rename_i w'' hw
      simp only [Except.ok.injEq, Prod.mk.injEq] at h
      obtain ⟨ht, hw'⟩ := h
      subst ht hw'
      have hm := (all_targets_append_memory _ _ _ hw).2
      simp only [Memory.library_at, hm, Memory.set_library, if_true]

theorem objc_library_target_triple (libc : Libc) (name : String) (args : LibraryArgs)
    (file : String) (w : World) (t : Target) (w' : World)
    (h : objc_library libc name args file w = .ok (t, w')) :
    (w'.memory.library_at t.args).target_triple = args.target_triple := by
  simp only [objc_library] at h
  cases hc : cat MAX_ENTRIES MAX_ENTRIES default_objc_args.entries args.compile_flags.entries with
  | error e => rw [hc] at h; cases h
  | ok flags =>
    rw [hc] at h
    simp only at h
    split at h
    · cases h
    · rename_i w'' hw
      simp only [Except.ok.injEq, Prod.mk.injEq] at h
      obtain ⟨ht, hw'⟩ := h
      subst ht hw'
      have hm := (all_targets_append_memory _ _ _ hw).2
      simp only [Memory.library_at, hm, Memory.set_library, if_true]

theorem objcpp_library_target_triple (libc : Libc) (name : String) (args : LibraryArgs)
    (file : String) (w : World) (t : Target) (w' : World)
    (h : objcpp_library libc name args file w = .ok (t, w')) :
    (w'.memory.library_at t.args).target_triple = args.target_triple := by
  simp only [objcpp_library] at h
  cases hc : cat MAX_ENTRIES MAX_ENTRIES default_objcpp_args.entries args.compile_flags.entries with
  | error e => rw [hc] at h; cases h
  | ok flags =>
    rw [hc] at h
    simp only at h
    split at h
    · cases h
    · rename_i w'' hw
      simp only [Except.ok.injEq, Prod.mk.injEq] at h
      obtain ⟨ht, hw'⟩ := h
      subst ht hw'
      have hm := (all_targets_append_memory _ _ _ hw).2
      simp only [Memory.library_at, hm, Memory.set_library, if_true]

/-- The arguments of the example library `core`, with the target triple left unset. -/
theorem core_args_triple_unset :
    ({ srcs := { entries := [some "core.cpp"] },
       exported_headers := { entries := [some "core.h"] },
       header_namespace := some "core" } : LibraryArgs).target_triple = ⟨none, none, none⟩ :=
  rfl

theorem library_unset_triple_facts (m : Memory) (p : Ptr)
    (ht : (m.library_at p).target_triple = ⟨none, none, none⟩) :
    (m.library_at p).target_triple ≠ system_target_triple ex_host
      ∧ target_triple_string (m.library_at p).target_triple = "unknown-unknown-unknown" := by
  rw [ht]
  exact ⟨by decide, by decide⟩

/-- C8 (failing input): each library constructor (`cpp_library`, `c_library`,
`objc_library`, `objcpp_library`) called on a Linux x86-64 host with the target
triple left unset returns a library whose stored triple differs from the host
triple `system_target_triple()` and formats to `unknown-unknown-unknown`. -/
theorem C8_library_keeps_unset_triple :
    (∃ t w', cpp_library ex_libc "core"
        { srcs := { entries := [some "core.cpp"] },
          exported_headers := { entries := [some "core.h"] },
          header_namespace := some "core" } "src/build.cpp" {} = .ok (t, w')
      ∧ (w'.memory.library_at t.args).target_triple ≠ system_target_triple ex_host
      ∧ target_triple_string (w'.memory.library_at t.args).target_triple
          = "unknown-unknown-unknown")
    ∧ (∃ t w', c_library ex_libc "core"
        { srcs := { entries := [some "core.cpp"] },
          exported_headers := { entries := [some "core.h"] },
          header_namespace := some "core" } "src/build.cpp" {} = .ok (t, w')
      ∧ (w'.memory.library_at t.args).target_triple ≠ system_target_triple ex_host
      ∧ target_triple_string (w'.memory.library_at t.args).target_triple
          = "unknown-unknown-unknown")
    ∧ (∃ t w', objc_library ex_libc "core"
        { srcs := { entries := [some "core.cpp"] },
          exported_headers := { entries := [some "core.h"] },
          header_namespace := some "core" } "src/build.cpp" {} = .ok (t, w')
      ∧ (w'.memory.library_at t.args).target_triple ≠ system_target_triple ex_host
      ∧ target_triple_string (w'.memory.library_at t.args).target_triple
          = "unknown-unknown-unknown")
    ∧ (∃ t w', objcpp_library ex_libc "core"
        { srcs := { entries := [some "core.cpp"] },
          exported_headers := { entries := [some "core.h"] },
          header_namespace := some "core" } "src/build.cpp" {} = .ok (t, w')
      ∧ (w'.memory.library_at t.args).target_triple ≠ system_target_triple ex_host
      ∧ target_triple_string (w'.memory.library_at t.args).target_triple
          = "unknown-unknown-unknown") := by
  refine ⟨?_, ?_, ?_, ?_⟩
  · cases h : cpp_library ex_libc "core"
        { srcs := { entries := [some "core.cpp"] },
          exported_headers := { entries := [some "core.h"] },
          header_namespace := some "core" } "src/build.cpp" {} with
    | error e =>
      have hok : (cpp_library ex_libc "core"
        { srcs := { entries := [some "core.cpp"] },
          exported_headers := { entries := [some "core.h"] },
          header_namespace := some "core" } "src/build.cpp" {}).isOk = true := rfl
      rw [h] at hok
      cases hok
    | ok p =>
      have ht := cpp_library_target_triple ex_libc "core" _ "src/build.cpp" {} p.1 p.2 h
      exact ⟨p.1, p.2, rfl, library_unset_triple_facts _ _ (ht.trans core_args_triple_unset)⟩
  · cases h : c_library ex_libc "core"
        { srcs := { entries := [some "core.cpp"] },
          exported_headers := { entries := [some "core.h"] },
          header_namespace := some "core" } "src/build.cpp" {} with
    | error e =>
      have hok : (c_library ex_libc "core"
        { srcs := { entries := [some "core.cpp"] },
          exported_headers := { entries := [some "core.h"] },
          header_namespace := some "core" } "src/build.cpp" {}).isOk = true := rfl
      rw [h] at hok
      cases hok
    | ok p =>
      have ht := c_library_target_triple ex_libc "core" _ "src/build.cpp" {} p.1 p.2 h
      exact ⟨p.1, p.2, rfl, library_unset_triple_facts _ _ (ht.trans core_args_triple_unset)⟩
  · cases h : objc_library ex_libc "core"
        { srcs := { entries := [some "core.cpp"] },
          exported_headers := { entries := [some "core.h"] },
          header_namespace := some "core" } "src/build.cpp" {} with
    | error e =>
      have hok : (objc_library ex_libc "core"
        { srcs := { entries := [some "core.cpp"] },
          exported_headers := { entries := [some "core.h"] },
          header_namespace := some "core" } "src/build.cpp" {}).isOk = true := rfl
      rw [h] at hok
      cases hok
    | ok p =>
      have ht := objc_library_target_triple ex_libc "core" _ "src/build.cpp" {} p.1 p.2 h
      exact ⟨p.1, p.2, rfl, library_unset_triple_facts _ _ (ht.trans core_args_triple_unset)⟩
  · cases h : objcpp_library ex_libc "core"
        { srcs := { entries := [some "core.cpp"] },
          exported_headers := { entries := [some "core.h"] },
          header_namespace := some "core" } "src/build.cpp" {} with
    | error e =>
      have hok : (objcpp_library ex_libc "core"
        { srcs := { entries := [some "core.cpp"] },
          exported_headers := { entries := [some "core.h"] },
          header_namespace := some "core" } "src/build.cpp" {}).isOk = true := rfl
      rw [h] at hok
      cases hok
    | ok p =>
      have ht := objcpp_library_target_triple ex_libc "core" _ "src/build.cpp" {} p.1 p.2 h
      exact ⟨p.1, p.2, rfl, library_unset_triple_facts _ _ (ht.trans core_args_triple_unset)⟩
/-! ## Loops that print -/

theorem for_loop_succ_shift {σ : Type} (body : Nat → σ → σ) (n k : Nat) (s : σ) :
    for_loop body n (k + 1) s = for_loop (fun i => body (i + 1)) n k s := by
  induction n generalizing k s with
  | zero => rfl
  | succ n ih => simp only [for_loop]; exact ih (k + 1) _

theorem for_loop_text_from {α : Type} (body : Nat → String → String) (Count : Nat)
    (items : List (Option α)) (E : Nat → α → String)
    (h : ∀ i a, entry items i = some a → ∀ out, body i out = out ++ E i a) (out : String) :
    for_loop body (len Count items) 0 out = out ++ concat_from E 0 (live Count items) := by
  induction Count generalizing items body E out with
  | zero => simp [len, len_loop, live, for_loop, concat_from]
  | succ n ih =>
    cases items with
    | nil => simp [len, len_loop, live, entry, for_loop, concat_from]
    | cons x rest =>
      cases x with
      | none => simp [len, len_loop, live, entry, for_loop, concat_from]
      | some a =>
        have hl : len (n + 1) (some a :: rest) = len n rest + 1 := by
          simp [len, len_loop, entry, len_loop_cons]
        rw [hl]
        simp only [for_loop, live, concat_from]
        rw [for_loop_succ_shift, h 0 a (by simp [entry]),
          ih (fun i => body (i + 1)) rest (fun i => E (i + 1))
            (fun i b hb out => h (i + 1) b (by rw [entry_cons_succ]; exact hb) out),
          String.append_assoc]
        have hshift : ∀ (L : List α) (k : Nat),
            concat_from (fun i => E (i + 1)) k L = concat_from E (k + 1) L := by
          intro L
          induction L with
          | nil => intro k; rfl
          | cons b L ihL => intro k; simp only [concat_from, ihL (k + 1)]
        rw [hshift]

theorem concat_from_const {α : Type} (E : α → String) (k : Nat) (L : List α) :
    concat_from (fun _ => E) k L = concat_all (L.map E) := by
  induction L generalizing k with
  | nil => rfl
  | cons a rest ih => simp only [concat_from, List.map_cons, concat_all, ih (k + 1)]

theorem for_loop_text {α : Type} (body : Nat → String → String) (Count : Nat)
    (items : List (Option α)) (E : α → String)
    (h : ∀ i a, entry items i = some a → ∀ out, body i out = out ++ E a) (out : String) :
    for_loop body (len Count items) 0 out = out ++ concat_all ((live Count items).map E) := by
  rw [for_loop_text_from body Count items (fun _ => E) h out, concat_from_const]

theorem for_loop_text_tail {α : Type} (body : Nat → String → String) (Count : Nat)
    (items : List (Option α)) (E : α → String)
    (h : ∀ i a, entry items i = some a → ∀ out, body i out = out ++ E a) (out : String) :
    for_loop body (len Count items - 1) 1 out
      = out ++ concat_all ((live Count items).tail.map E) := by
  cases Count with
  | zero => simp [len, len_loop, live, for_loop, concat_all]
  | succ n =>
    cases items with
    | nil => simp [len, len_loop, live, entry, for_loop, concat_all]
    | cons x rest =>
      cases x with
      | none => simp [len, len_loop, live, entry, for_loop, concat_all]
      | some a =>
        have hl : len (n + 1) (some a :: rest) = len n rest + 1 := by
          simp [len, len_loop, entry, len_loop_cons]
        rw [hl]
        simp only [Nat.add_sub_cancel, live, List.tail_cons]
        rw [for_loop_succ_shift]
        exact for_loop_text (fun i => body (i + 1)) n rest E
          (fun i b hb out => h (i + 1) b (by rw [entry_cons_succ]; exact hb) out) out
/-! ## The text of the emitted edges -/

theorem emit_ninja_build_binary_eq (memory : Memory) (output : String) (target : Target) :
    emit_ninja_build_binary memory output target
      = match flatten_targets memory (deps_root target.args.to_binary_deps) with
        | .error e => .error e
        | .ok deps =>
          .ok (output
            ++ link_edge_text (target_triple_string (memory.binary_at target.args).target_triple)
                target.name target.base_dir
                (live MAX_ENTRIES (memory.binary_at target.args).srcs.entries)
                (live MAX_ENTRIES deps.entries)
            ++ concat_all ((live MAX_ENTRIES (memory.binary_at target.args).srcs.entries).map
                (compile_edge_text memory
                  (target_triple_string (memory.binary_at target.args).target_triple)
                  target.base_dir
                  (live MAX_ENTRIES (memory.binary_at target.args).compile_flags.entries)
                  (live MAX_ENTRIES deps.entries)))) := by
  simp only [emit_ninja_build_binary, deps_root]
  cases flatten_targets memory
      { name := "__deps__", file := "", base_dir := "",
        args := target.args.to_binary_deps, kind := .Targets } with
  | error e => rfl
  | ok deps =>
    simp only []
    refine congrArg Except.ok ?_
    refine Eq.trans (for_loop_text _ MAX_ENTRIES _
      (compile_edge_text memory
        (target_triple_string (memory.binary_at target.args).target_triple)
        target.base_dir
        (live MAX_ENTRIES (memory.binary_at target.args).compile_flags.entries)
        (live MAX_ENTRIES deps.entries)) ?_ _) ?_
    · intro i a he out
      simp only [he]
      rw [for_loop_text_tail _ MAX_ENTRIES deps.entries
        (fun dep => if dep.kind = .Library then
          " -Ins/" ++ fmt_s (memory.library_at dep.args).header_namespace ++ "/h" else "") ?_]
      rw [for_loop_text _ MAX_ENTRIES _ (fun flag : String => " " ++ flag) ?_]
      rw [for_loop_text_tail _ MAX_ENTRIES deps.entries
        (fun dep => if dep.kind = .Library then
          " ns/" ++ fmt_s (memory.library_at dep.args).header_namespace ++ "/_" else "") ?_]
      · rw [len_eq_length_live]
        simp only [compile_edge_text, order_only_text, include_flags_text, fmt_s,
          Option.some_bind]
        by_cases hc : (live MAX_ENTRIES deps.entries).length > 1
        · simp only [hc, if_true, String.append_assoc]
        · simp only [hc, if_false, String.append_assoc, String.empty_append]
      · intro j d hd out'
        simp only [hd, slot_kind, slot_args]
        split
        · rfl
        · exact (String.append_empty _).symm
      · intro j f hf out'
        simp only [hf, fmt_s]
      · intro j d hd out'
        simp only [hd, slot_kind, slot_args]
        split
        · rfl
        · exact (String.append_empty _).symm
    · congr 1
      rw [for_loop_text_tail _ MAX_ENTRIES deps.entries
        (fun dep => " " ++ target_triple_string (memory.binary_at target.args).target_triple
          ++ "/" ++ dep.name ++ ".o") ?_]
      rw [for_loop_text _ MAX_ENTRIES _
        (fun src : String => " " ++ target_triple_string (memory.binary_at target.args).target_triple
          ++ "/" ++ target.base_dir ++ "/" ++ src ++ ".o") ?_]
      · simp only [link_edge_text, String.append_assoc]
      · intro j src hs out'
        simp only [hs, fmt_s]
      · intro j d hd out'
        simp only [hd, slot_name, fmt_s]
theorem emit_ninja_build_library_eq (libc : Libc) (memory : Memory) (output : String)
    (target : Target) :
    emit_ninja_build_library libc memory output target
      = match flatten_targets memory (deps_root target.args.to_library_deps) with
        | .error e => .error e
        | .ok deps =>
          .ok (output
            ++ library_edges_text libc (memory.library_at target.args).header_namespace
                (target_triple_string (memory.library_at target.args).target_triple)
                target.name target.base_dir
                (live MAX_ENTRIES (memory.library_at target.args).srcs.entries)
                (live MAX_ENTRIES (memory.library_at target.args).exported_headers.entries)
            ++ concat_all ((live MAX_ENTRIES (memory.library_at target.args).srcs.entries).map
                (compile_edge_text memory
                  (target_triple_string (memory.library_at target.args).target_triple)
                  target.base_dir
                  (live MAX_ENTRIES (memory.library_at target.args).compile_flags.entries)
                  (live MAX_ENTRIES deps.entries)))) := by
  simp only [emit_ninja_build_library, deps_root]
  cases flatten_targets memory
      { name := "__deps__", file := "", base_dir := "",
        args := target.args.to_library_deps, kind := .Targets } with
  | error e => rfl
  | ok deps =>
    simp only []
    refine congrArg Except.ok ?_
    refine Eq.trans (for_loop_text _ MAX_ENTRIES _
      (compile_edge_text memory
        (target_triple_string (memory.library_at target.args).target_triple)
        target.base_dir
        (live MAX_ENTRIES (memory.library_at target.args).compile_flags.entries)
        (live MAX_ENTRIES deps.entries)) ?_ _) ?_
    · intro i a he out
      simp only [he]
      rw [for_loop_text_tail _ MAX_ENTRIES deps.entries
        (fun dep => if dep.kind = .Library then
          " -Ins/" ++ fmt_s (memory.library_at dep.args).header_namespace ++ "/h" else "") ?_]
      rw [for_loop_text _ MAX_ENTRIES _ (fun flag : String => " " ++ flag) ?_]
      rw [for_loop_text_tail _ MAX_ENTRIES deps.entries
        (fun dep => if dep.kind = .Library then
          " ns/" ++ fmt_s (memory.library_at dep.args).header_namespace ++ "/_" else "") ?_]
      · rw [len_eq_length_live]
        simp only [compile_edge_text, order_only_text, include_flags_text, fmt_s,
          Option.some_bind]
        by_cases hc : (live MAX_ENTRIES deps.entries).length > 1
        · simp only [hc, if_true, String.append_assoc]
        · simp only [hc, if_false, String.append_assoc, String.empty_append]
      · intro j d hd out'
        simp only [hd, slot_kind, slot_args]
        split
        · rfl
        · exact (String.append_empty _).symm
      · intro j f hf out'
        simp only [hf, fmt_s]
      · intro j d hd out'
        simp only [hd, slot_kind, slot_args]
        split
        · rfl
        · exact (String.append_empty _).symm
    · congr 1
      rw [for_loop_text_from _ MAX_ENTRIES (memory.library_at target.args).srcs.entries
        (fun i src => target_triple_string (memory.library_at target.args).target_triple
          ++ "/" ++ target.base_dir ++ "/" ++ src ++ ".o"
          ++ if i ≠ (live MAX_ENTRIES (memory.library_at target.args).srcs.entries).length - 1
             then " " else "") ?_]
      rw [for_loop_text _ MAX_ENTRIES (memory.library_at target.args).exported_headers.entries
        (fun header : String => " ns/" ++ target.name ++ "/h/" ++ target.name ++ "/" ++ header) ?_]
      rw [for_loop_text _ MAX_ENTRIES (memory.library_at target.args).exported_headers.entries
        (fun header : String => "build ns/" ++ target.name ++ "/h/" ++ target.name ++ "/" ++ header
          ++ ": namespace-header " ++ fmt_s (libc.realpath (target.base_dir ++ "/" ++ header))
          ++ "\n") ?_]
      · simp only [library_edges_text, String.append_assoc]
      · intro j header hh out'
        simp only [hh, fmt_s]
      · intro j header hh out'
        simp only [hh, fmt_s]
      · intro j src hs out'
        simp only [hs, fmt_s]
        rw [len_eq_length_live]
        split
        · simp only [String.append_assoc]
        · simp only [String.append_assoc, String.append_empty]
set_option maxRecDepth 100000 in
/-- C9: for every binary target with name `n`, base directory `d`, sources `s1..sk`
and triple string `t`, `emit_ninja_build_binary` fails exactly when flattening the
dependencies fails, and otherwise appends one link edge followed by the compile
edges of the sources.  The link edge is `build t/n: link-binary`, then ` t/d/s.o`
for each source in order, then ` t/<x.name>.o` for each entry `x` of the flattened
dependency list after position 0 in flattened order, then the variable line
`target = t` and a blank line.  For the binary `app` with source `main.cpp`
depending on the library `core` the inputs are `x86_64-gnu-linux/src/main.cpp.o`
and `x86_64-gnu-linux/core.o`. -/
theorem C9_binary_link_edge :
    (∀ (memory : Memory) (output : String) (target : Target),
        emit_ninja_build_binary memory output target
          = match flatten_targets memory (deps_root target.args.to_binary_deps) with
            | .error e => .error e
            | .ok deps =>
              .ok (output
                ++ ("build " ++ binary_triple memory target ++ "/" ++ target.name
                    ++ ": link-binary"
                    ++ concat_all
                        ((live MAX_ENTRIES (memory.binary_at target.args).srcs.entries).map
                          fun src => " " ++ binary_triple memory target ++ "/"
                            ++ target.base_dir ++ "/" ++ src ++ ".o")
                    ++ concat_all
                        ((live MAX_ENTRIES deps.entries).tail.map
                          fun dep => " " ++ binary_triple memory target ++ "/"
                            ++ dep.name ++ ".o")
                    ++ "\n" ++ "    target = " ++ binary_triple memory target ++ "\n" ++ "\n")
                ++ concat_all
                    ((live MAX_ENTRIES (memory.binary_at target.args).srcs.entries).map
                      (compile_edge_text memory (binary_triple memory target) target.base_dir
                        (live MAX_ENTRIES (memory.binary_at target.args).compile_flags.entries)
                        (live MAX_ENTRIES deps.entries)))))
    ∧ (match ex_project with
        | .ok (_, app, w) => emit_ninja_build_binary w.memory "" app
        | .error e => .error e)
      = .ok ("build x86_64-gnu-linux/app: link-binary"
          ++ " x86_64-gnu-linux/src/main.cpp.o x86_64-gnu-linux/core.o\n"
          ++ "    target = x86_64-gnu-linux\n\n"
          ++ "build x86_64-gnu-linux/src/main.cpp.o: cxx ../src/main.cpp | ns/core/_\n"
          ++ "    language = C++\n"
          ++ "    target = x86_64-gnu-linux\n"
          ++ "    depfile = main.cpp.x86_64-gnu-linux.d\n"
          ++ "    args = -Wall -Wextra -fcolor-diagnostics -std=c++17 -Ins/core/h\n\n") := by
  refine ⟨?_, by rfl⟩
  intro memory output target
  rw [emit_ninja_build_binary_eq]
  cases flatten_targets memory (deps_root target.args.to_binary_deps) with
  | error e => rfl
  | ok deps => rfl

set_option maxRecDepth 100000 in
/-- C10: for every binary or library target, `emit_ninja_build_binary` and
`emit_ninja_build_library` append, after the link edge (respectively the header,
phony and merge edges), exactly one compile edge per source `s`, in source order:
the build line `build <triple>/<base_dir>/<s>.o: cxx ../<base_dir>/<s>` with its
order-only part, then `language = ` with the result of `language_from_filename(s)`
(the language name when the suffix is recognised), `target = <triple>`,
`depfile = <s>.<triple>.d`, and `args =` followed by the accumulated compile flags
of the target in order, each preceded by one space, then the include flags of the
dependencies, and a blank line. -/
theorem C10_compile_edges :
    (∀ (memory : Memory) (output : String) (target : Target),
        emit_ninja_build_binary memory output target
          = match flatten_targets memory (deps_root target.args.to_binary_deps) with
            | .error e => .error e
            | .ok deps =>
              .ok (output
                ++ link_edge_text (binary_triple memory target) target.name target.base_dir
                    (live MAX_ENTRIES (memory.binary_at target.args).srcs.entries)
                    (live MAX_ENTRIES deps.entries)
                ++ concat_all
                    ((live MAX_ENTRIES (memory.binary_at target.args).srcs.entries).map
                      fun src =>
                        "build " ++ binary_triple memory target ++ "/" ++ target.base_dir ++ "/"
                          ++ src ++ ".o: cxx ../" ++ target.base_dir ++ "/" ++ src
                          ++ order_only_text memory (live MAX_ENTRIES deps.entries) ++ "\n"
                          ++ "    language = " ++ fmt_s (language_from_filename src) ++ "\n"
                          ++ "    target = " ++ binary_triple memory target ++ "\n"
                          ++ "    depfile = " ++ src ++ "." ++ binary_triple memory target
                          ++ ".d\n"
                          ++ "    args ="
                          ++ concat_all
                              ((live MAX_ENTRIES
                                  (memory.binary_at target.args).compile_flags.entries).map
                                fun flag => " " ++ flag)
                          ++ include_flags_text memory (live MAX_ENTRIES deps.entries)
                          ++ "\n" ++ "\n")))
    ∧ (∀ (libc : Libc) (memory : Memory) (output : String) (target : Target),
        emit_ninja_build_library libc memory output target
          = match flatten_targets memory (deps_root target.args.to_library_deps) with
            | .error e => .error e
            | .ok deps =>
              .ok (output
                ++ library_edges_text libc (memory.library_at target.args).header_namespace
                    (library_triple memory target) target.name target.base_dir
                    (live MAX_ENTRIES (memory.library_at target.args).srcs.entries)
                    (live MAX_ENTRIES (memory.library_at target.args).exported_headers.entries)
                ++ concat_all
                    ((live MAX_ENTRIES (memory.library_at target.args).srcs.entries).map
                      fun src =>
                        "build " ++ library_triple memory target ++ "/" ++ target.base_dir ++ "/"
                          ++ src ++ ".o: cxx ../" ++ target.base_dir ++ "/" ++ src
                          ++ order_only_text memory (live MAX_ENTRIES deps.entries) ++ "\n"
                          ++ "    language = " ++ fmt_s (language_from_filename src) ++ "\n"
                          ++ "    target = " ++ library_triple memory target ++ "\n"
                          ++ "    depfile = " ++ src ++ "." ++ library_triple memory target
                          ++ ".d\n"
                          ++ "    args ="
                          ++ concat_all
                              ((live MAX_ENTRIES
                                  (memory.library_at target.args).compile_flags.entries).map
                                fun flag => " " ++ flag)
                          ++ include_flags_text memory (live MAX_ENTRIES deps.entries)
                          ++ "\n" ++ "\n")))
    ∧ language_from_filename "main.cpp" = some "C++"
    ∧ (match ex_project with
        | .ok (core, _, w) => emit_ninja_build_library ex_libc w.memory "" core
        | .error e => .error e)
      = .ok ("build ns/core/h/core/core.h: namespace-header /project/src/core.h\n\n"
          ++ "build ns/core/_: phony ns/core/h/core/core.h\n\n"
          ++ "build unknown-unknown-unknown/core.o: merge-object"
          ++ " unknown-unknown-unknown/src/core.cpp.o\n"
          ++ "    ld = ld\n\n"
          ++ "build unknown-unknown-unknown/src/core.cpp.o: cxx ../src/core.cpp\n"
          ++ "    language = C++\n"
          ++ "    target = unknown-unknown-unknown\n"
          ++ "    depfile = core.cpp.unknown-unknown-unknown.d\n"
          ++ "    args = -Wall -Wextra -fcolor-diagnostics -std=c++17\n\n") := by
  refine ⟨?_, ?_, by decide, by rfl⟩
  · intro memory output target
    rw [emit_ninja_build_binary_eq]
    cases flatten_targets memory (deps_root target.args.to_binary_deps) with
    | error e => rfl
    | ok deps => rfl
  · intro libc memory output target
    rw [emit_ninja_build_library_eq]
    cases flatten_targets memory (deps_root target.args.to_library_deps) with
    | error e => rfl
    | ok deps => rfl
/-! ## The language of a source file -/

theorem language_from_filename_loop_eq_find (name : String) (l : List LanguageExtension) :
    language_from_filename_loop name l
      = (l.find? (fun e => decide (ends_with name e.extension))).map (fun e => e.name) := by
  induction l with
  | nil => rfl
  | cons e rest ih =>
    simp only [language_from_filename_loop, List.find?_cons, strlen]
    by_cases hs : ends_with name e.extension
    · have hle : ¬ name.length < e.extension.length := by
        have h1 : e.extension.data.length ≤ name.data.length := List.IsSuffix.length_le hs
        have h2 : name.length = name.data.length := rfl
        have h3 : e.extension.length = e.extension.data.length := rfl
        omega
      have hd : List.drop (name.length - e.extension.length) name.data = e.extension.data :=
        (List.suffix_iff_eq_drop.1 hs).symm
      simp [hs, hle, hd]
    · have hd : ¬ List.drop (name.length - e.extension.length) name.data = e.extension.data := by
        intro h
        exact hs (List.suffix_iff_eq_drop.2 h.symm)
      simp only [hs, decide_False, hd, if_false]
      split <;> exact ih

theorem ends_with_exclusive (name a b : String) (hab : ¬ a.data <:+ b.data)
    (hba : ¬ b.data <:+ a.data) (ha : ends_with name a) (hb : ends_with name b) : False := by
  rcases Nat.le_total a.data.length b.data.length with h | h
  · exact hab (List.suffix_of_suffix_length_le ha hb h)
  · exact hba (List.suffix_of_suffix_length_le hb ha h)

theorem languages_match_unique (name : String) (e e' : LanguageExtension)
    (he : e ∈ languages) (he' : e' ∈ languages)
    (h : ends_with name e.extension) (h' : ends_with name e'.extension) : e = e' := by
  simp only [languages, List.mem_cons, List.mem_singleton, List.not_mem_nil, or_false] at he he'
  rcases he with rfl | rfl | rfl | rfl <;> rcases he' with rfl | rfl | rfl | rfl <;>
    first
    | rfl
    | exact absurd h' (fun h' => ends_with_exclusive name _ _ (by decide) (by decide) h h')

theorem language_from_filename_some_iff (name : String) (e : LanguageExtension)
    (he : e ∈ languages) :
    language_from_filename name = some e.name ↔ ends_with name e.extension := by
  rw [language_from_filename, language_from_filename_loop_eq_find]
  constructor
  · intro h
    cases hf : languages.find? (fun e => decide (ends_with name e.extension)) with
    | none => rw [hf] at h; cases h
    | some e' =>
      rw [hf] at h
      simp only [Option.map_some', Option.some.injEq] at h
      have hm := List.mem_of_find?_eq_some hf
      have hp : ends_with name e'.extension := by simpa using List.find?_some hf
      have : e' = e := by
        simp only [languages, List.mem_cons, List.mem_singleton, List.not_mem_nil,
          or_false] at he hm
        rcases he with rfl | rfl | rfl | rfl <;> rcases hm with rfl | rfl | rfl | rfl <;>
          first
          | rfl
          | exact absurd h (by decide)
      rw [← this]
      exact hp
  · intro h
    cases hf : languages.find? (fun e => decide (ends_with name e.extension)) with
    | none =>
      have := List.find?_eq_none.1 hf e he
      simp only [decide_eq_true_eq] at this
      exact absurd h this
    | some e' =>
      have hm := List.mem_of_find?_eq_some hf
      have hp : ends_with name e'.extension := by simpa using List.find?_some hf
      rw [languages_match_unique name e e' he hm h hp]
      rfl

theorem language_from_filename_none_iff (name : String) :
    language_from_filename name = none ↔ ∀ e ∈ languages, ¬ ends_with name e.extension := by
  rw [language_from_filename, language_from_filename_loop_eq_find]
  simp only [Option.map_eq_none', List.find?_eq_none, decide_eq_true_eq]

theorem language_from_filename_perm (name : String) (l : List LanguageExtension)
    (hl : l.Perm languages) :
    language_from_filename_loop name l = language_from_filename name := by
  rw [language_from_filename, language_from_filename_loop_eq_find,
    language_from_filename_loop_eq_find]
  cases hf : languages.find? (fun e => decide (ends_with name e.extension)) with
  | none =>
    have h := List.find?_eq_none.1 hf
    have : l.find? (fun e => decide (ends_with name e.extension)) = none :=
      List.find?_eq_none.2 (fun x hx => h x (hl.mem_iff.1 hx))
    rw [this]
  | some e =>
    have hm := List.mem_of_find?_eq_some hf
    have hp : ends_with name e.extension := by simpa using List.find?_some hf
    cases hf' : l.find? (fun e => decide (ends_with name e.extension)) with
    | none =>
      have := List.find?_eq_none.1 hf' e (hl.mem_iff.2 hm)
      simp only [decide_eq_true_eq] at this
      exact absurd hp this
    | some e' =>
      have hm' := hl.mem_iff.1 (List.mem_of_find?_eq_some hf')
      have hp' : ends_with name e'.extension := by simpa using List.find?_some hf'
      rw [languages_match_unique name e e' hm hm' hp hp']

/-- C14: for every file name, `language_from_filename` returns `"C++"` iff the name
ends with `.cpp`, `"C"` iff it ends with `.c`, `"Objective-C++"` iff it ends with
`.mm`, `"Objective-C"` iff it ends with `.m`, and null iff it ends with none of the
four; trying the four suffixes in any other order gives the same result. -/
theorem C14_language_from_filename :
    (∀ name : String,
        (language_from_filename name = some "C++" ↔ ends_with name ".cpp")
        ∧ (language_from_filename name = some "C" ↔ ends_with name ".c")
        ∧ (language_from_filename name = some "Objective-C++" ↔ ends_with name ".mm")
        ∧ (language_from_filename name = some "Objective-C" ↔ ends_with name ".m")
        ∧ (language_from_filename name = none ↔
            ¬ ends_with name ".cpp" ∧ ¬ ends_with name ".c" ∧ ¬ ends_with name ".mm"
              ∧ ¬ ends_with name ".m"))
    ∧ (∀ (name : String) (order : List LanguageExtension), order.Perm languages →
        language_from_filename_loop name order = language_from_filename name) := by
  refine ⟨fun name => ⟨?_, ?_, ?_, ?_, ?_⟩, language_from_filename_perm⟩
  · exact language_from_filename_some_iff name ⟨"C++", ".cpp"⟩ (by decide)
  · exact language_from_filename_some_iff name ⟨"C", ".c"⟩ (by decide)
  · exact language_from_filename_some_iff name ⟨"Objective-C++", ".mm"⟩ (by decide)
  · exact language_from_filename_some_iff name ⟨"Objective-C", ".m"⟩ (by decide)
  · rw [language_from_filename_none_iff]
    simp [languages]

theorem C14_language_from_filename_witness :
    language_from_filename_loop "main.cpp"
        [⟨"Objective-C", ".m"⟩, ⟨"Objective-C++", ".mm"⟩, ⟨"C", ".c"⟩, ⟨"C++", ".cpp"⟩]
      = language_from_filename "main.cpp" :=
  C14_language_from_filename.2 "main.cpp" _ (by decide)
/-! ## Library dependencies of a compile edge, header publishing -/

theorem concat_all_filter {α : Type} (p : α → Prop) [DecidablePred p] (f : α → String)
    (L : List α) :
    concat_all (L.map fun x => if p x then f x else "")
      = concat_all ((L.filter (fun x => decide (p x))).map f) := by
  induction L with
  | nil => rfl
  | cons a rest ih =>
    by_cases h : p a
    · simp only [List.map_cons, concat_all, h, if_true, List.filter_cons, decide_True, ih]
    · simp only [List.map_cons, concat_all, h, if_false, List.filter_cons, decide_False, ih,
        String.empty_append]
      rfl

theorem flatten_deps_root_live (memory : Memory) (p : Ptr) (deps : Targets)
    (h : flatten_targets memory (deps_root p) = .ok deps) :
    ∃ rest, live MAX_ENTRIES deps.entries = deps_root p :: rest := by
  obtain ⟨V, hd, _, _, hlive⟩ := flatten_targets_ok_iff memory _ deps h
  obtain ⟨rest, e⟩ := (dfs_post memory _ _ [] V hd).2.2 (by simp [names])
  exact ⟨rest, by rw [hlive, e]; rfl⟩

theorem order_only_text_libraries (memory : Memory) (p : Ptr) (deps : Targets)
    (h : flatten_targets memory (deps_root p) = .ok deps) :
    order_only_text memory (live MAX_ENTRIES deps.entries)
        = (if (live MAX_ENTRIES deps.entries).length > 1 then " |" else "")
          ++ concat_all ((library_entries (live MAX_ENTRIES deps.entries)).map fun L =>
              " ns/" ++ fmt_s (memory.library_at L.args).header_namespace ++ "/_")
      ∧ include_flags_text memory (live MAX_ENTRIES deps.entries)
        = concat_all ((library_entries (live MAX_ENTRIES deps.entries)).map fun L =>
              " -Ins/" ++ fmt_s (memory.library_at L.args).header_namespace ++ "/h") := by
  obtain ⟨rest, e⟩ := flatten_deps_root_live memory p deps h
  rw [e]
  have hroot : library_entries (deps_root p :: rest) = library_entries rest := by
    simp [library_entries, deps_root, List.filter_cons]
  simp only [order_only_text, include_flags_text, List.tail_cons, hroot, library_entries]
  rw [concat_all_filter, concat_all_filter]
  exact ⟨rfl, rfl⟩
set_option maxRecDepth 100000 in
/-- C11: on every compile edge of a binary or a library, the order-only part of the
build line holds one marker ` ns/<L.header_namespace>/_` and the args line one flag
` -Ins/<L.header_namespace>/h` for each Library-kind entry `L` of the flattened
dependency list of the target, in flattened order; entries that are not libraries
contribute neither.  For the binary `app` depending on the library `core`
(namespace `core`) the compile edge of `main.cpp` has the order-only input
`ns/core/_` and the flag `-Ins/core/h`. -/
theorem C11_library_markers_and_include_flags :
    (∀ (memory : Memory) (output : String) (target : Target),
        emit_ninja_build_binary memory output target
          = match flatten_targets memory (deps_root target.args.to_binary_deps) with
            | .error e => .error e
            | .ok deps =>
              .ok (output
                ++ link_edge_text (binary_triple memory target) target.name target.base_dir
                    (live MAX_ENTRIES (memory.binary_at target.args).srcs.entries)
                    (live MAX_ENTRIES deps.entries)
                ++ concat_all
                    ((live MAX_ENTRIES (memory.binary_at target.args).srcs.entries).map
                      fun src =>
                        "build " ++ binary_triple memory target ++ "/" ++ target.base_dir ++ "/"
                          ++ src ++ ".o: cxx ../" ++ target.base_dir ++ "/" ++ src
                          ++ (if (live MAX_ENTRIES deps.entries).length > 1 then " |" else "")
                          ++ concat_all
                              ((library_entries (live MAX_ENTRIES deps.entries)).map fun L =>
                                " ns/" ++ fmt_s (memory.library_at L.args).header_namespace
                                  ++ "/_")
                          ++ "\n"
                          ++ "    language = " ++ fmt_s (language_from_filename src) ++ "\n"
                          ++ "    target = " ++ binary_triple memory target ++ "\n"
                          ++ "    depfile = " ++ src ++ "." ++ binary_triple memory target
                          ++ ".d\n"
                          ++ "    args ="
                          ++ concat_all
                              ((live MAX_ENTRIES
                                  (memory.binary_at target.args).compile_flags.entries).map
                                fun flag => " " ++ flag)
                          ++ concat_all
                              ((library_entries (live MAX_ENTRIES deps.entries)).map fun L =>
                                " -Ins/" ++ fmt_s (memory.library_at L.args).header_namespace
                                  ++ "/h")
                          ++ "\n" ++ "\n")))
    ∧ (∀ (libc : Libc) (memory : Memory) (output : String) (target : Target),
        emit_ninja_build_library libc memory output target
          = match flatten_targets memory (deps_root target.args.to_library_deps) with
            | .error e => .error e
            | .ok deps =>
              .ok (output
                ++ library_edges_text libc (memory.library_at target.args).header_namespace
                    (library_triple memory target) target.name target.base_dir
                    (live MAX_ENTRIES (memory.library_at target.args).srcs.entries)
                    (live MAX_ENTRIES (memory.library_at target.args).exported_headers.entries)
                ++ concat_all
                    ((live MAX_ENTRIES (memory.library_at target.args).srcs.entries).map
                      fun src =>
                        "build " ++ library_triple memory target ++ "/" ++ target.base_dir ++ "/"
                          ++ src ++ ".o: cxx ../" ++ target.base_dir ++ "/" ++ src
                          ++ (if (live MAX_ENTRIES deps.entries).length > 1 then " |" else "")
                          ++ concat_all
                              ((library_entries (live MAX_ENTRIES deps.entries)).map fun L =>
                                " ns/" ++ fmt_s (memory.library_at L.args).header_namespace
                                  ++ "/_")
                          ++ "\n"
                          ++ "    language = " ++ fmt_s (language_from_filename src) ++ "\n"
                          ++ "    target = " ++ library_triple memory target ++ "\n"
                          ++ "    depfile = " ++ src ++ "." ++ library_triple memory target
                          ++ ".d\n"
                          ++ "    args ="
                          ++ concat_all
                              ((live MAX_ENTRIES
                                  (memory.library_at target.args).compile_flags.entries).map
                                fun flag => " " ++ flag)
                          ++ concat_all
                              ((library_entries (live MAX_ENTRIES deps.entries)).map fun L =>
                                " -Ins/" ++ fmt_s (memory.library_at L.args).header_namespace
                                  ++ "/h")
                          ++ "\n" ++ "\n")))
    ∧ (match ex_project with
        | .ok (_, app, w) =>
          (emit_ninja_build_binary w.memory "" app,
            (flatten_targets w.memory (deps_root app.args.to_binary_deps)).map
              fun deps => (library_entries (live MAX_ENTRIES deps.entries)).map
                fun L => (L.name, (w.memory.library_at L.args).header_namespace))
        | .error e => (.error e, .error e))
      = (.ok ("build x86_64-gnu-linux/app: link-binary"
          ++ " x86_64-gnu-linux/src/main.cpp.o x86_64-gnu-linux/core.o\n"
          ++ "    target = x86_64-gnu-linux\n\n"
          ++ "build x86_64-gnu-linux/src/main.cpp.o: cxx ../src/main.cpp | ns/core/_\n"
          ++ "    language = C++\n"
          ++ "    target = x86_64-gnu-linux\n"
          ++ "    depfile = main.cpp.x86_64-gnu-linux.d\n"
          ++ "    args = -Wall -Wextra -fcolor-diagnostics -std=c++17 -Ins/core/h\n\n"),
         .ok [("core", some "core")]) := by
  refine ⟨?_, ?_, by rfl⟩
  · intro memory output target
    rw [emit_ninja_build_binary_eq]
    cases h : flatten_targets memory (deps_root target.args.to_binary_deps) with
    | error e => rfl
    | ok deps =>
      obtain ⟨h1, h2⟩ := order_only_text_libraries memory _ deps h
      refine congrArg Except.ok (congrArg (fun x => _ ++ concat_all x)
        (List.map_congr_left ?_))
      intro src _
      simp only [compile_edge_text, h1, h2, binary_triple, String.append_assoc]
  · intro libc memory output target
    rw [emit_ninja_build_library_eq]
    cases h : flatten_targets memory (deps_root target.args.to_library_deps) with
    | error e => rfl
    | ok deps =>
      obtain ⟨h1, h2⟩ := order_only_text_libraries memory _ deps h
      refine congrArg Except.ok (congrArg (fun x => _ ++ concat_all x)
        (List.map_congr_left ?_))
      intro src _
      simp only [compile_edge_text, h1, h2, library_triple, String.append_assoc]
set_option maxRecDepth 100000 in
/-- C12 (failing input): for the library `core` with header namespace `corelib` and
exported header `core.h`, the publish edge has the output `ns/core/h/core/core.h`,
under the directory of the target name, while the binary `app` that depends on it
gets the include flag `-Ins/corelib/h` and waits for the marker `ns/corelib/_`. -/
theorem C12_publish_edge_uses_target_name :
    (match ex_renamed_project with
      | .ok (core, app, w) =>
        (emit_ninja_build_library ex_libc w.memory "" core,
          emit_ninja_build_binary w.memory "" app)
      | .error e => (.error e, .error e))
      = (.ok ("build ns/core/h/core/core.h: namespace-header /project/src/core.h\n\n"
          ++ "build ns/corelib/_: phony ns/core/h/core/core.h\n\n"
          ++ "build unknown-unknown-unknown/core.o: merge-object"
          ++ " unknown-unknown-unknown/src/core.cpp.o\n"
          ++ "    ld = ld\n\n"
          ++ "build unknown-unknown-unknown/src/core.cpp.o: cxx ../src/core.cpp\n"
          ++ "    language = C++\n"
          ++ "    target = unknown-unknown-unknown\n"
          ++ "    depfile = core.cpp.unknown-unknown-unknown.d\n"
          ++ "    args = -Wall -Wextra -fcolor-diagnostics -std=c++17\n\n"),
         .ok ("build x86_64-gnu-linux/app: link-binary"
          ++ " x86_64-gnu-linux/src/main.cpp.o x86_64-gnu-linux/core.o\n"
          ++ "    target = x86_64-gnu-linux\n\n"
          ++ "build x86_64-gnu-linux/src/main.cpp.o: cxx ../src/main.cpp | ns/corelib/_\n"
          ++ "    language = C++\n"
          ++ "    target = x86_64-gnu-linux\n"
          ++ "    depfile = main.cpp.x86_64-gnu-linux.d\n"
          ++ "    args = -Wall -Wextra -fcolor-diagnostics -std=c++17 -Ins/corelib/h\n\n")) := by
  rfl

/-- C13: for every library, `emit_ninja_build_library` writes, after the
header-publish edges (one per exported header, in order), exactly one phony edge
with the output `ns/<header_namespace>/_`; its inputs are the output paths of the
header-publish edges of that library, in exported-header order, and none when the
library exports no header.  The merge edge and the compile edges follow. -/
theorem C13_phony_edge_inputs :
    ∀ (libc : Libc) (memory : Memory) (output : String) (target : Target),
      emit_ninja_build_library libc memory output target
        = match flatten_targets memory (deps_root target.args.to_library_deps) with
          | .error e => .error e
          | .ok deps =>
            .ok (output
              ++ concat_all
                  ((live MAX_ENTRIES (memory.library_at target.args).exported_headers.entries).map
                    fun header =>
                      "build " ++ ("ns/" ++ target.name ++ "/h/" ++ target.name ++ "/" ++ header)
                        ++ ": namespace-header "
                        ++ fmt_s (libc.realpath (target.base_dir ++ "/" ++ header)) ++ "\n")
              ++ "\n"
              ++ "build " ++ ("ns/" ++ fmt_s (memory.library_at target.args).header_namespace
                  ++ "/_") ++ ": phony"
              ++ concat_all
                  ((live MAX_ENTRIES (memory.library_at target.args).exported_headers.entries).map
                    fun header =>
                      " " ++ ("ns/" ++ target.name ++ "/h/" ++ target.name ++ "/" ++ header))
              ++ "\n\n"
              ++ merge_edge_text (library_triple memory target) target.name target.base_dir
                  (live MAX_ENTRIES (memory.library_at target.args).srcs.entries)
              ++ concat_all
                  ((live MAX_ENTRIES (memory.library_at target.args).srcs.entries).map
                    (compile_edge_text memory (library_triple memory target) target.base_dir
                      (live MAX_ENTRIES (memory.library_at target.args).compile_flags.entries)
                      (live MAX_ENTRIES deps.entries)))) := by
  intro libc memory output target
  rw [emit_ninja_build_library_eq]
  cases flatten_targets memory (deps_root target.args.to_library_deps) with
  | error e => rfl
  | ok deps =>
    have e1 : ("build ns/" : String) = "build " ++ "ns/" := by decide
    have e2 : (" ns/" : String) = " " ++ "ns/" := by decide
    have e3 : ("/_: phony" : String) = "/_" ++ ": phony" := by decide
    simp only [library_edges_text, merge_edge_text, library_triple, e1, e2, e3,
      String.append_assoc]
/-! ## The root and its own link inputs -/

theorem link_input_injective (triple a b : String)
    (h : " " ++ triple ++ "/" ++ a ++ ".o" = " " ++ triple ++ "/" ++ b ++ ".o") : a = b := by
  have hd := congrArg String.data h
  simp only [String.data_append, List.append_assoc] at hd
  have h1 := List.append_cancel_left (List.append_cancel_left (List.append_cancel_left hd))
  exact String.ext (List.append_cancel_right h1)

theorem own_name_not_in_link_inputs (memory : Memory) (output : String) (target : Target)
    (deps : Targets)
    (h : flatten_targets memory (deps_root target.args.to_binary_deps) = .ok deps)
    (hname : ∀ d ∈ deps_list memory (deps_root target.args.to_binary_deps),
      ∀ u, Reach memory d u → u.name ≠ target.name) :
    emit_ninja_build_binary memory output target
        = .ok (output
            ++ link_edge_text (binary_triple memory target) target.name target.base_dir
                (live MAX_ENTRIES (memory.binary_at target.args).srcs.entries)
                (live MAX_ENTRIES deps.entries)
            ++ concat_all
                ((live MAX_ENTRIES (memory.binary_at target.args).srcs.entries).map
                  (compile_edge_text memory (binary_triple memory target) target.base_dir
                    (live MAX_ENTRIES (memory.binary_at target.args).compile_flags.entries)
                    (live MAX_ENTRIES deps.entries))))
      ∧ ∀ dep ∈ (live MAX_ENTRIES deps.entries).tail,
          dep.name ≠ target.name
            ∧ " " ++ binary_triple memory target ++ "/" ++ dep.name ++ ".o"
                ≠ " " ++ binary_triple memory target ++ "/" ++ target.name ++ ".o" := by
  refine ⟨by rw [emit_ninja_build_binary_eq, h]; rfl, ?_⟩
  obtain ⟨V, hd, _, _, hlive⟩ := flatten_targets_ok_iff memory _ deps h
  obtain ⟨⟨new, e, r, _, nd, _, _⟩, _, hfresh⟩ := dfs_post memory _ _ [] V hd
  obtain ⟨rest, e'⟩ := hfresh (by simp [names])
  simp only [List.nil_append] at e e'
  rw [hlive, e', List.tail_cons]
  intro dep hdep
  have hnd : (names V).Nodup := nd (by simp [names])
  rw [e'] at hnd
  simp only [names, List.map_cons, List.nodup_cons, List.mem_map, not_exists, not_and] at hnd
  have hne : dep ≠ deps_root target.args.to_binary_deps := by
    intro he
    exact hnd.1 dep hdep (by rw [he])
  have hreach : Reach memory (deps_root target.args.to_binary_deps) dep := by
    obtain ⟨d, hd', hr⟩ := r dep (by rw [← e, e']; exact List.mem_cons_of_mem _ hdep)
    simp only [List.mem_singleton] at hd'
    subst hd'
    exact hr
  have hn : dep.name ≠ target.name := by
    rcases Relation.ReflTransGen.cases_head hreach with he | ⟨d, hd', hr⟩
    · exact absurd he.symm hne
    · exact hname d hd' dep hr
  exact ⟨hn, fun he => hn (link_input_injective _ _ _ he)⟩

/-- C15 (amended): the entry left out of the link inputs of a binary `B` is the
entry at position 0 of the flattened list, the synthetic root `__deps__`.  For
every binary `B` such that no target reachable from one of its dependencies has the
name of `B` (so `B` is not reachable from its own dependencies), whenever
flattening its dependencies returns, no dependency input of the link edge of `B`
is the entry `<triple>/<B.name>.o` of `B` itself. -/
theorem C15_own_entry_not_among_link_inputs :
    ∀ (memory : Memory) (output : String) (target : Target) (deps : Targets),
      flatten_targets memory (deps_root target.args.to_binary_deps) = .ok deps →
      (∀ d ∈ deps_list memory (deps_root target.args.to_binary_deps),
        ∀ u, Reach memory d u → u.name ≠ target.name) →
      emit_ninja_build_binary memory output target
          = .ok (output
              ++ link_edge_text (binary_triple memory target) target.name target.base_dir
                  (live MAX_ENTRIES (memory.binary_at target.args).srcs.entries)
                  (live MAX_ENTRIES deps.entries)
              ++ concat_all
                  ((live MAX_ENTRIES (memory.binary_at target.args).srcs.entries).map
                    (compile_edge_text memory (binary_triple memory target) target.base_dir
                      (live MAX_ENTRIES (memory.binary_at target.args).compile_flags.entries)
                      (live MAX_ENTRIES deps.entries))))
        ∧ ∀ dep ∈ (live MAX_ENTRIES deps.entries).tail,
            dep.name ≠ target.name
              ∧ " " ++ binary_triple memory target ++ "/" ++ dep.name ++ ".o"
                  ≠ " " ++ binary_triple memory target ++ "/" ++ target.name ++ ".o" :=
  own_name_not_in_link_inputs

theorem C15_own_entry_not_among_link_inputs_witness :
    ex_C.name ≠ ex_R.name
      ∧ " " ++ binary_triple diamond ex_R ++ "/" ++ ex_C.name ++ ".o"
          ≠ " " ++ binary_triple diamond ex_R ++ "/" ++ ex_R.name ++ ".o" :=
  (C15_own_entry_not_among_link_inputs diamond "" ex_R
    { entries := [some (deps_root (.binary_deps 0)), some ex_A, some ex_C, some ex_B] }
    (by rfl)
    (by
      intro d hd u hu
      have hd' : d ∈ [ex_A, ex_B] := hd
      have hU : u ∈ [ex_A, ex_B, ex_C] :=
        reach_subset diamond d [ex_A, ex_B, ex_C]
          (by simp only [List.mem_cons, List.mem_singleton, List.not_mem_nil, or_false] at hd' ⊢
              rcases hd' with h | h
              · exact Or.inl h
              · exact Or.inr (Or.inl h))
          (by decide) u hu
      have key : ∀ v ∈ [ex_A, ex_B, ex_C], v.name ≠ ex_R.name := by decide
      exact key u hU)).2 ex_C (by decide)

set_option maxRecDepth 100000 in
/-- C15 (counterexample): in the cycle `R -> [A]`, `A -> [R]` the binary `R` is
reachable from its own dependency `A`, and its link edge lists its own entry
`unknown-unknown-unknown/R.o` among the inputs. -/
theorem C15_counterexample :
    emit_ninja_build_binary binary_cycle "" ex_R
      = .ok ("build unknown-unknown-unknown/R: link-binary"
          ++ " unknown-unknown-unknown/A.o unknown-unknown-unknown/R.o\n"
          ++ "    target = unknown-unknown-unknown\n\n") := by
  rfl
/-! ## The whole build file -/

theorem emit_ninja_rule_eq (output : String) (rule : TargetRule) :
    emit_ninja_rule output rule
      = output
        ++ ("rule " ++ rule.name ++ "\n"
          ++ "    command = " ++ rule.command ++ "\n"
          ++ "    description = " ++ rule.description ++ "\n"
          ++ concat_all ((live 8 rule.vars).map fun var =>
              match var.default_value with
              | some default_value => "    " ++ var.name ++ " = " ++ default_value ++ "\n"
              | none => "")
          ++ "\n") := by
  simp only [emit_ninja_rule]
  rw [for_loop_text _ 8 rule.vars (fun var =>
        match var.default_value with
        | some default_value => "    " ++ var.name ++ " = " ++ default_value ++ "\n"
        | none => "") ?_]
  · simp only [String.append_assoc]
  · intro i var hv out
    simp only [hv]
    cases var.default_value with
    | none => exact (String.append_empty _).symm
    | some d => rfl

theorem emit_ninja_rule_append (output : String) (rule : TargetRule) :
    emit_ninja_rule output rule = output ++ emit_ninja_rule "" rule := by
  rw [emit_ninja_rule_eq output, emit_ninja_rule_eq "", String.empty_append]

theorem emit_ninja_build_binary_append (memory : Memory) (output : String) (target : Target) :
    emit_ninja_build_binary memory output target
      = match emit_ninja_build_binary memory "" target with
        | .ok edges => .ok (output ++ edges)
        | .error e => .error e := by
  rw [emit_ninja_build_binary_eq memory output, emit_ninja_build_binary_eq memory ""]
  cases flatten_targets memory (deps_root target.args.to_binary_deps) with
  | error e => rfl
  | ok deps => simp only [String.empty_append, String.append_assoc]

theorem emit_ninja_build_library_append (libc : Libc) (memory : Memory) (output : String)
    (target : Target) :
    emit_ninja_build_library libc memory output target
      = match emit_ninja_build_library libc memory "" target with
        | .ok edges => .ok (output ++ edges)
        | .error e => .error e := by
  rw [emit_ninja_build_library_eq libc memory output, emit_ninja_build_library_eq libc memory ""]
  cases flatten_targets memory (deps_root target.args.to_library_deps) with
  | error e => rfl
  | ok deps => simp only [String.empty_append, String.append_assoc]

theorem register_rules_table (rs : List TargetRule) (L : List TargetRule) (table : RuleTable)
    (h : visit_all (fun rule table => ninja_rule table rule) rs
      { all_rules := L.map some, all_rules_count := L.length } = .ok table) :
    table = { all_rules := (L ++ rs).map some, all_rules_count := (L ++ rs).length } := by
  induction rs generalizing L with
  | nil =>
    simp only [visit_all, Except.ok.injEq] at h
    simp [← h]
  | cons r rest ih =>
    simp only [visit_all, ninja_rule] at h
    split at h
    · rename_i t ht
      split at ht
      · simp only [Except.ok.injEq] at ht
        have hs : store (List.map some L) L.length (some r) = List.map some (L ++ [r]) := by
          have := store_length (List.map some L) (some r)
          simpa using this
        rw [hs] at ht
        have hl : L.length + 1 = (L ++ [r]).length := by simp
        rw [hl] at ht
        rw [← ht] at h
        have := ih (L ++ [r]) h
        simpa using this
      · cases ht
    · cases h

theorem visit_targets_eq (libc : Libc) (memory : Memory) (L : List Target) (output : String) :
    visit_all
        (fun target output =>
          match target.kind with
          | .Binary => emit_ninja_build_binary memory output target
          | .Library => emit_ninja_build_library libc memory output target
          | .Targets => .ok output)
        L output
      = match concat_results (L.map (target_edges libc memory)) with
        | .error e => .error e
        | .ok edges => .ok (output ++ edges) := by
  induction L generalizing output with
  | nil => simp [visit_all, concat_results]
  | cons t rest ih =>
    have hstep : (match t.kind with
          | .Binary => emit_ninja_build_binary memory output t
          | .Library => emit_ninja_build_library libc memory output t
          | .Targets => .ok output)
        = match target_edges libc memory t with
          | .ok edges => .ok (output ++ edges)
          | .error e => .error e := by
      cases hk : t.kind with
      | Binary => simp only [target_edges, hk]; exact emit_ninja_build_binary_append _ _ _
      | Library => simp only [target_edges, hk]; exact emit_ninja_build_library_append _ _ _ _
      | Targets => simp [target_edges, hk]
    simp only [visit_all, List.map_cons, concat_results, hstep]
    cases target_edges libc memory t with
    | error e => rfl
    | ok edges =>
      simp only [ih]
      cases concat_results (rest.map (target_edges libc memory)) with
      | error e => rfl
      | ok more => simp only [String.append_assoc]
theorem for_loop_text_list {α : Type} (body : Nat → String → String) (L : List α)
    (E : α → String)
    (h : ∀ i a, entry (L.map some) i = some a → ∀ out, body i out = out ++ E a)
    (out : String) :
    for_loop body L.length 0 out = out ++ concat_all (L.map E) := by
  have := for_loop_text body L.length (L.map some) E h out
  rwa [len_eq_length_live, live_map_some _ _ (Nat.le_refl _)] at this

theorem emit_ninja_eq (libc : Libc) (rs : List TargetRule) (rules : RuleTable)
    (memory : Memory) (output : String) (root : Target)
    (hrules : register_rules rs = .ok rules) :
    emit_ninja libc rules memory output root
      = match flatten_targets memory root with
        | .error e => .error e
        | .ok targets =>
          match concat_results
              ((live MAX_ENTRIES targets.entries).map (target_edges libc memory)) with
          | .error e => .error e
          | .ok edges =>
            .ok (output ++ "ninja_required_version = 1.8.2\n\n"
              ++ concat_all (rs.map (emit_ninja_rule ""))
              ++ "build compile_commands.json: compdb\n\n" ++ edges) := by
  have ht := register_rules_table rs [] rules hrules
  simp only [List.nil_append] at ht
  subst ht
  simp only [emit_ninja]
  rw [for_loop_text_list _ rs (emit_ninja_rule "") ?_]
  · cases flatten_targets memory root with
    | error e => rfl
    | ok targets =>
      simp only []
      have hloop := for_loop_except_live
        (fun (o : Option Target) (output : String) =>
          match o with
          | some target =>
            match target.kind with
            | .Binary => emit_ninja_build_binary memory output target
            | .Library => emit_ninja_build_library libc memory output target
            | .Targets => Except.ok output
          | none => Except.error Fault.null_string)
        MAX_ENTRIES targets.entries
        (output ++ "ninja_required_version = 1.8.2\n\n"
          ++ concat_all (rs.map (emit_ninja_rule ""))
          ++ "build compile_commands.json: compdb\n\n")
      simp only [] at hloop
      rw [hloop, visit_targets_eq]
  · intro i rule hr out
    simp only [hr]
    exact emit_ninja_rule_append out rule
theorem targets_at_to_binary_deps (memory : Memory) (p : Ptr) :
    memory.targets_at p.to_binary_deps = (memory.binary_at p).deps := by
  cases p <;> rfl

theorem targets_at_to_library_deps (memory : Memory) (p : Ptr) :
    memory.targets_at p.to_library_deps = (memory.library_at p).deps := by
  cases p <;> rfl

theorem concat_results_ok (l : List (Except Fault String))
    (h : ∀ r ∈ l, ∃ s, r = .ok s) : ∃ s, concat_results l = .ok s := by
  induction l with
  | nil => exact ⟨"", rfl⟩
  | cons r rest ih =>
    obtain ⟨s, hs⟩ := h r (List.mem_cons_self _ _)
    obtain ⟨t, ht⟩ := ih (fun r hr => h r (List.mem_cons_of_mem _ hr))
    exact ⟨s ++ t, by simp only [concat_results, hs, ht]⟩

/-- What is reachable from the synthetic root is the root itself or reachable from one
of the dependencies it lists. -/
theorem reach_deps_root (memory : Memory) (root : Target) (p : Ptr)
    (hp : ∀ d ∈ deps_list memory (deps_root p), Reach memory root d) (u : Target)
    (h : Reach memory (deps_root p) u) : u = deps_root p ∨ Reach memory root u := by
  rcases Relation.ReflTransGen.cases_head h with e | ⟨d, hd, hu⟩
  · exact Or.inl e.symm
  · exact Or.inr (Relation.ReflTransGen.trans (hp d hd) hu)

/-- Flattening the dependencies of a target reachable from `root` returns when the
targets reachable from `root` have pairwise distinct names, none of them the name of
the synthetic root, and number at most 127. -/
theorem flatten_deps_root_returns (memory : Memory) (root : Target) (p : Ptr) (U : List Target)
    (hU : U.length ≤ 127) (hreach : ∀ u, Reach memory root u → u ∈ U)
    (hnames : DistinctNames memory root)
    (hfree : ∀ u, Reach memory root u → u.name ≠ "__deps__")
    (hp : ∀ d ∈ deps_list memory (deps_root p), Reach memory root d) :
    ∃ ts, flatten_targets memory (deps_root p) = .ok ts := by
  have hr := reach_deps_root memory root p hp
  obtain ⟨rest, hd, _⟩ := dfs_reachable memory (deps_root p) (deps_root p :: U)
    (by simp only [List.length_cons]; omega)
    (fun u hu => by
      rcases hr u hu with e | h
      · rw [e]; exact List.mem_cons_self _ _
      · exact List.mem_cons_of_mem _ (hreach u h))
    (fun u v hu hv e => by
      rcases hr u hu with eu | hu' <;> rcases hr v hv with ev | hv'
      · rw [eu, ev]
      · exact absurd (by rw [← e, eu]; rfl) (hfree v hv')
      · exact absurd (by rw [e, ev]; rfl) (hfree u hu')
      · exact hnames u v hu' hv' e)
  exact ⟨_, by rw [flatten_targets_eq_dfs, hd]⟩

/-- The edges of a target reachable from `root` are emitted without a fault under the
conditions of `flatten_deps_root_returns`. -/
theorem target_edges_returns (libc : Libc) (memory : Memory) (root : Target) (U : List Target)
    (hU : U.length ≤ 127) (hreach : ∀ u, Reach memory root u → u ∈ U)
    (hnames : DistinctNames memory root)
    (hfree : ∀ u, Reach memory root u → u.name ≠ "__deps__")
    (t : Target) (ht : Reach memory root t) :
    ∃ s, target_edges libc memory t = .ok s := by
  cases hk : t.kind with
  | Binary =>
    obtain ⟨ts, hts⟩ := flatten_deps_root_returns memory root t.args.to_binary_deps U hU hreach
      hnames hfree (fun d hd => by
        refine Relation.ReflTransGen.tail ht ?_
        simpa only [Dep, deps_list, target_deps, deps_root, hk, targets_at_to_binary_deps]
          using hd)
    simp only [target_edges, hk]
    rw [emit_ninja_build_binary_eq, hts]
    exact ⟨_, rfl⟩
  | Library =>
    obtain ⟨ts, hts⟩ := flatten_deps_root_returns memory root t.args.to_library_deps U hU hreach
      hnames hfree (fun d hd => by
        refine Relation.ReflTransGen.tail ht ?_
        simpa only [Dep, deps_list, target_deps, deps_root, hk, targets_at_to_library_deps]
          using hd)
    simp only [target_edges, hk]
    rw [emit_ninja_build_library_eq, hts]
    exact ⟨_, rfl⟩
  | Targets => exact ⟨"", by simp only [target_edges, hk]⟩

/-- The text of `emit_ninja` under the side conditions on the reachable targets: the
flattened list holds every reachable target exactly once and no other, and the text
is the header, the rule stanzas, the compdb edge and the edges of the entries of that
list; with at most 127 reachable targets, none named as the synthetic root, no
emission fails. -/
theorem emit_ninja_reachable (libc : Libc) (rs : List TargetRule) (rules : RuleTable)
    (memory : Memory) (output : String) (root : Target) (U : List Target)
    (hrules : register_rules rs = .ok rules)
    (hU : U.length ≤ 128) (hreach : ∀ u, Reach memory root u → u ∈ U)
    (hnames : DistinctNames memory root) :
    ∃ ts, flatten_targets memory root = .ok ts
      ∧ (∀ u, Reach memory root u → (live MAX_ENTRIES ts.entries).count u = 1)
      ∧ (∀ u, u ∈ live MAX_ENTRIES ts.entries → Reach memory root u)
      ∧ emit_ninja libc rules memory output root
          = (match concat_results
                ((live MAX_ENTRIES ts.entries).map (target_edges libc memory)) with
            | .error e => .error e
            | .ok edges =>
              .ok (output ++ "ninja_required_version = 1.8.2\n\n"
                ++ concat_all (rs.map (emit_ninja_rule ""))
                ++ "build compile_commands.json: compdb\n\n" ++ edges))
      ∧ (U.length ≤ 127 → (∀ u, Reach memory root u → u.name ≠ "__deps__") →
          ∃ edges,
            concat_results ((live MAX_ENTRIES ts.entries).map (target_edges libc memory))
              = .ok edges
            ∧ emit_ninja libc rules memory output root
              = .ok (output ++ "ninja_required_version = 1.8.2\n\n"
                ++ concat_all (rs.map (emit_ninja_rule ""))
                ++ "build compile_commands.json: compdb\n\n" ++ edges)) := by
  obtain ⟨rest, hd, hl, hnd, hiff⟩ := dfs_reachable memory root U hU hreach hnames
  have hts : flatten_targets memory root = .ok { entries := (root :: rest).map some } := by
    rw [flatten_targets_eq_dfs, hd]
  have hlive : live MAX_ENTRIES ((root :: rest).map some) = root :: rest :=
    live_map_some MAX_ENTRIES _ hl
  have htext := emit_ninja_eq libc rs rules memory output root hrules
  rw [hts] at htext
  simp only [] at htext
  refine ⟨{ entries := (root :: rest).map some }, hts, ?_, ?_, htext, ?_⟩
  · intro u hu
    rw [hlive]
    exact List.count_eq_one_of_mem hnd ((hiff u).2 hu)
  · intro u hu
    rw [hlive] at hu
    exact (hiff u).1 hu
  · intro hU' hfree
    obtain ⟨edges, he⟩ := concat_results_ok
      ((live MAX_ENTRIES ((root :: rest).map some)).map (target_edges libc memory))
      (fun r hr => by
        obtain ⟨t, ht, e⟩ := List.mem_map.1 hr
        rw [hlive] at ht
        rw [← e]
        exact target_edges_returns libc memory root U hU' hreach hnames hfree t ((hiff t).1 ht))
    refine ⟨edges, he, ?_⟩
    rw [htext]
    simp only [he]

set_option maxRecDepth 100000 in
/-- C16 (amended): for every root and every rule table obtained by registering the
rules `rs` in order, the text `emit_ninja` writes is the version header, then one
rule stanza per registered rule in registration order, then the
compile-commands-database edge, then the concatenation over `flatten_targets(root)`,
in flattened order, of the binary edges of each Binary entry and the library edges
of each Library entry, group entries contributing no text; it fails exactly when
flattening the root or emitting one of the entries fails.  A rule stanza is the
`rule` line, the `command` and `description` lines and one line per variable with a
default value; each emit function appends its text to what was written before.
When the targets reachable from the root have pairwise distinct names and number at
most 128 (they all lie in a list `U` of at most 128 targets), flattening the root
returns and the entries whose edges are concatenated are the reachable targets,
each exactly once, and no other target.  When in addition they number at most 127
and none of them has the name `__deps__` of the synthetic root, no emission fails:
`emit_ninja` returns the text, in which every reachable binary or library has its
edges exactly once. -/
theorem C16_emit_ninja_text :
    (∀ (libc : Libc) (rs : List TargetRule) (rules : RuleTable) (memory : Memory)
        (output : String) (root : Target),
        register_rules rs = .ok rules →
        emit_ninja libc rules memory output root
          = match flatten_targets memory root with
            | .error e => .error e
            | .ok targets =>
              match concat_results
                  ((live MAX_ENTRIES targets.entries).map (target_edges libc memory)) with
              | .error e => .error e
              | .ok edges =>
                .ok (output ++ "ninja_required_version = 1.8.2\n\n"
                  ++ concat_all (rs.map (emit_ninja_rule ""))
                  ++ "build compile_commands.json: compdb\n\n" ++ edges))
    ∧ (∀ (output : String) (rule : TargetRule),
        emit_ninja_rule output rule
          = output
            ++ ("rule " ++ rule.name ++ "\n"
              ++ "    command = " ++ rule.command ++ "\n"
              ++ "    description = " ++ rule.description ++ "\n"
              ++ concat_all ((live 8 rule.vars).map fun var =>
                  match var.default_value with
                  | some default_value => "    " ++ var.name ++ " = " ++ default_value ++ "\n"
                  | none => "")
              ++ "\n"))
    ∧ (∀ (memory : Memory) (output : String) (target : Target),
        emit_ninja_build_binary memory output target
          = match emit_ninja_build_binary memory "" target with
            | .ok edges => .ok (output ++ edges)
            | .error e => .error e)
    ∧ (∀ (libc : Libc) (memory : Memory) (output : String) (target : Target),
        emit_ninja_build_library libc memory output target
          = match emit_ninja_build_library libc memory "" target with
            | .ok edges => .ok (output ++ edges)
            | .error e => .error e)
    ∧ static_rules
        = register_rules
            [cxx_rule, merge_object_rule, binary_link_rule, header_link_rule, compdb_rule]
    ∧ (match ex_project, static_rules with
        | .ok (_, _, w), .ok rules => emit_ninja ex_libc rules w.memory "" all_targets
        | _, _ => .error .assertion)
      = .ok ("ninja_required_version = 1.8.2\n\n"
          ++ "rule cxx\n"
          ++ "    command = clang++ -target $target $args -MD -MQ $out -MF $depfile -o $out -c $in\n"
          ++ "    description = Compiling $language object $out\n"
          ++ "    deps = gcc\n\n"
          ++ "rule merge-object\n"
          ++ "    command = $ld -r -o $out $in\n"
          ++ "    description = Linking static target $out\n\n"
          ++ "rule link-binary\n"
          ++ "    command = clang++ -target $target -o $out $in $link_args\n"
          ++ "    description = Linking binary target $out\n\n"
          ++ "rule namespace-header\n"
          ++ "    command = ln -sf $in $out\n"
          ++ "    description = Namespacing header $out\n\n"
          ++ "rule compdb\n"
          ++ "    command = ninja -t compdb > compile_commands.json\n"
          ++ "    description = Emitting compdb\n\n"
          ++ "build compile_commands.json: compdb\n\n"
          ++ "build ns/core/h/core/core.h: namespace-header /project/src/core.h\n\n"
          ++ "build ns/core/_: phony ns/core/h/core/core.h\n\n"
          ++ "build unknown-unknown-unknown/core.o: merge-object"
          ++ " unknown-unknown-unknown/src/core.cpp.o\n"
          ++ "    ld = ld\n\n"
          ++ "build unknown-unknown-unknown/src/core.cpp.o: cxx ../src/core.cpp\n"
          ++ "    language = C++\n"
          ++ "    target = unknown-unknown-unknown\n"
          ++ "    depfile = core.cpp.unknown-unknown-unknown.d\n"
          ++ "    args = -Wall -Wextra -fcolor-diagnostics -std=c++17\n\n"
          ++ "build x86_64-gnu-linux/app: link-binary"
          ++ " x86_64-gnu-linux/src/main.cpp.o x86_64-gnu-linux/core.o\n"
          ++ "    target = x86_64-gnu-linux\n\n"
          ++ "build x86_64-gnu-linux/src/main.cpp.o: cxx ../src/main.cpp | ns/core/_\n"
          ++ "    language = C++\n"
          ++ "    target = x86_64-gnu-linux\n"
          ++ "    depfile = main.cpp.x86_64-gnu-linux.d\n"
          ++ "    args = -Wall -Wextra -fcolor-diagnostics -std=c++17 -Ins/core/h\n\n")
    ∧ (∀ (libc : Libc) (rs : List TargetRule) (rules : RuleTable) (memory : Memory)
        (output : String) (root : Target) (U : List Target),
        register_rules rs = .ok rules →
        U.length ≤ 128 → (∀ u, Reach memory root u → u ∈ U) → DistinctNames memory root →
        ∃ ts, flatten_targets memory root = .ok ts
          ∧ (∀ u, Reach memory root u → (live MAX_ENTRIES ts.entries).count u = 1)
          ∧ (∀ u, u ∈ live MAX_ENTRIES ts.entries → Reach memory root u)
          ∧ emit_ninja libc rules memory output root
              = (match concat_results
                    ((live MAX_ENTRIES ts.entries).map (target_edges libc memory)) with
                | .error e => .error e
                | .ok edges =>
                  .ok (output ++ "ninja_required_version = 1.8.2\n\n"
                    ++ concat_all (rs.map (emit_ninja_rule ""))
                    ++ "build compile_commands.json: compdb\n\n" ++ edges)))
    ∧ (∀ (libc : Libc) (rs : List TargetRule) (rules : RuleTable) (memory : Memory)
        (output : String) (root : Target) (U : List Target),
        register_rules rs = .ok rules →
        U.length ≤ 127 → (∀ u, Reach memory root u → u ∈ U) → DistinctNames memory root →
        (∀ u, Reach memory root u → u.name ≠ "__deps__") →
        ∃ ts edges, flatten_targets memory root = .ok ts
          ∧ (∀ u, Reach memory root u → (live MAX_ENTRIES ts.entries).count u = 1)
          ∧ (∀ u, u ∈ live MAX_ENTRIES ts.entries → Reach memory root u)
          ∧ concat_results ((live MAX_ENTRIES ts.entries).map (target_edges libc memory))
              = .ok edges
          ∧ emit_ninja libc rules memory output root
              = .ok (output ++ "ninja_required_version = 1.8.2\n\n"
                ++ concat_all (rs.map (emit_ninja_rule ""))
                ++ "build compile_commands.json: compdb\n\n" ++ edges)) := by
  refine ⟨emit_ninja_eq, emit_ninja_rule_eq, emit_ninja_build_binary_append,
    emit_ninja_build_library_append, by rfl, by rfl, ?_, ?_⟩
  · intro libc rs rules memory output root U hrules hU hreach hnames
    obtain ⟨ts, h1, h2, h3, h4, _⟩ :=
      emit_ninja_reachable libc rs rules memory output root U hrules hU hreach hnames
    exact ⟨ts, h1, h2, h3, h4⟩
  · intro libc rs rules memory output root U hrules hU hreach hnames hfree
    obtain ⟨ts, h1, h2, h3, _, h5⟩ :=
      emit_ninja_reachable libc rs rules memory output root U hrules (by omega) hreach hnames
    obtain ⟨edges, h6, h7⟩ := h5 hU hfree
    exact ⟨ts, edges, h1, h2, h3, h6, h7⟩

theorem C16_emit_ninja_text_witness :
    ∃ ts edges, flatten_targets diamond ex_R = .ok ts
      ∧ (∀ u, Reach diamond ex_R u → (live MAX_ENTRIES ts.entries).count u = 1)
      ∧ (∀ u, u ∈ live MAX_ENTRIES ts.entries → Reach diamond ex_R u)
      ∧ concat_results ((live MAX_ENTRIES ts.entries).map (target_edges ex_libc diamond))
          = .ok edges
      ∧ emit_ninja ex_libc
            { all_rules := [some cxx_rule, some merge_object_rule, some binary_link_rule,
                some header_link_rule, some compdb_rule], all_rules_count := 5 }
            diamond "" ex_R
          = .ok ("" ++ "ninja_required_version = 1.8.2\n\n"
            ++ concat_all
                ([cxx_rule, merge_object_rule, binary_link_rule, header_link_rule,
                  compdb_rule].map (emit_ninja_rule ""))
            ++ "build compile_commands.json: compdb\n\n" ++ edges) :=
  C16_emit_ninja_text.2.2.2.2.2.2.2 ex_libc
    [cxx_rule, merge_object_rule, binary_link_rule, header_link_rule, compdb_rule] _
    diamond "" ex_R [ex_R, ex_A, ex_B, ex_C] (by rfl) (by decide)
    (reach_subset diamond ex_R [ex_R, ex_A, ex_B, ex_C] (by decide) (by decide))
    (distinct_names_of_list diamond ex_R [ex_R, ex_A, ex_B, ex_C] (by decide) (by decide)
      (by decide))
    (fun u hu =>
      (by decide : ∀ v ∈ [ex_R, ex_A, ex_B, ex_C], v.name ≠ "__deps__") u
        (reach_subset diamond ex_R [ex_R, ex_A, ex_B, ex_C] (by decide) (by decide) u hu))

set_option maxRecDepth 100000 in
/-- C16 (counterexample to the last clause as written): in the graph `collision`
(`R -> [A, A2]`, `A2 -> [C]`, with `A` and `A2` both named `A`) the library `C` is
reachable from the root `R`, the flattened list is `[R, A]`, in which `C` does not
occur, and the text `emit_ninja` writes for the root `R` holds the edges of `R` and
of `A` only: the edges of the reachable library `C` (its phony edge and its merge
edge `unknown-unknown-unknown/C.o`) are not emitted. -/
theorem C16_counterexample :
    Reach collision ex_R ex_C
    ∧ ex_C.kind = .Library
    ∧ flatten_targets collision ex_R = .ok { entries := [some ex_R, some ex_A] }
    ∧ (live MAX_ENTRIES [some ex_R, some ex_A]).count ex_C = 0
    ∧ target_edges ex_libc collision ex_C
        = .ok ("\nbuild ns/(null)/_: phony\n\n"
          ++ "build unknown-unknown-unknown/C.o: merge-object \n"
          ++ "    ld = ld\n\n")
    ∧ emit_ninja ex_libc
          { all_rules := [some cxx_rule, some merge_object_rule, some binary_link_rule,
              some header_link_rule, some compdb_rule], all_rules_count := 5 }
          collision "" ex_R
        = .ok ("ninja_required_version = 1.8.2\n\n"
          ++ "rule cxx\n"
          ++ "    command = clang++ -target $target $args -MD -MQ $out -MF $depfile -o $out -c $in\n"
          ++ "    description = Compiling $language object $out\n"
          ++ "    deps = gcc\n\n"
          ++ "rule merge-object\n"
          ++ "    command = $ld -r -o $out $in\n"
          ++ "    description = Linking static target $out\n\n"
          ++ "rule link-binary\n"
          ++ "    command = clang++ -target $target -o $out $in $link_args\n"
          ++ "    description = Linking binary target $out\n\n"
          ++ "rule namespace-header\n"
          ++ "    command = ln -sf $in $out\n"
          ++ "    description = Namespacing header $out\n\n"
          ++ "rule compdb\n"
          ++ "    command = ninja -t compdb > compile_commands.json\n"
          ++ "    description = Emitting compdb\n\n"
          ++ "build compile_commands.json: compdb\n\n"
          ++ "build unknown-unknown-unknown/R: link-binary unknown-unknown-unknown/A.o\n"
          ++ "    target = unknown-unknown-unknown\n\n"
          ++ "\nbuild ns/(null)/_: phony\n\n"
          ++ "build unknown-unknown-unknown/A.o: merge-object \n"
          ++ "    ld = ld\n\n") :=
  ⟨Relation.ReflTransGen.tail
      (Relation.ReflTransGen.single (show ex_A2 ∈ deps_list collision ex_R by decide))
      (show ex_C ∈ deps_list collision ex_A2 by decide),
    rfl, by rfl, by decide, by rfl, by rfl⟩
/-! ## The target registry -/

theorem all_targets_append_spec (w w' : World) (target : Target)
    (h : all_targets_append w target = .ok w') :
    w.all_targets_count < 128 ∧ w'.all_targets_count = w.all_targets_count + 1
      ∧ w'.memory.all_targets_deps.entries
          = store w.memory.all_targets_deps.entries w.all_targets_count (some target) := by
  simp only [all_targets_append, MAX_ENTRIES] at h
  split at h
  · rename_i hlt
    simp only [Except.ok.injEq] at h
    subst h
    exact ⟨hlt, rfl, rfl⟩
  · cases h

theorem construct_registers (host : Host) (libc : Libc) (d : Declaration) (w : World)
    (t : Target) (w' : World) (h : construct host libc d w = .ok (t, w')) :
    w.all_targets_count < 128 ∧ w'.all_targets_count = w.all_targets_count + 1
      ∧ w'.memory.all_targets_deps.entries
          = store w.memory.all_targets_deps.entries w.all_targets_count (some t) := by
  cases d with
  | cpp_binary name args file =>
    simp only [construct, cpp_binary] at h
    split at h
    · cases h
    · split at h
      · cases h
      · rename_i w'' hw
        simp only [Except.ok.injEq, Prod.mk.injEq] at h
        obtain ⟨ht, hw'⟩ := h
        subst ht hw'
        have hs := all_targets_append_spec _ _ _ hw
        exact hs
  | cpp_library name args file =>
    simp only [construct, cpp_library] at h
    split at h
    · cases h
    · split at h
      · cases h
      · rename_i w'' hw
        simp only [Except.ok.injEq, Prod.mk.injEq] at h
        obtain ⟨ht, hw'⟩ := h
        subst ht hw'
        have hs := all_targets_append_spec _ _ _ hw
        exact hs
  | c_library name args file =>
    simp only [construct, c_library] at h
    split at h
    · cases h
    · split at h
      · cases h
      · rename_i w'' hw
        simp only [Except.ok.injEq, Prod.mk.injEq] at h
        obtain ⟨ht, hw'⟩ := h
        subst ht hw'
        have hs := all_targets_append_spec _ _ _ hw
        exact hs
  | objc_library name args file =>
    simp only [construct, objc_library] at h
    split at h
    · cases h
    · split at h
      · cases h
      · rename_i w'' hw
        simp only [Except.ok.injEq, Prod.mk.injEq] at h
        obtain ⟨ht, hw'⟩ := h
        subst ht hw'
        have hs := all_targets_append_spec _ _ _ hw
        exact hs
  | objcpp_library name args file =>
    simp only [construct, objcpp_library] at h
    split at h
    · cases h
    · split at h
      · cases h
      · rename_i w'' hw
        simp only [Except.ok.injEq, Prod.mk.injEq] at h
        obtain ⟨ht, hw'⟩ := h
        subst ht hw'
        have hs := all_targets_append_spec _ _ _ hw
        exact hs

theorem construct_appends (host : Host) (libc : Libc) (d : Declaration) (w : World)
    (t : Target) (w' : World) (L : List Target)
    (hentries : w.memory.all_targets_deps.entries = L.map some)
    (hcount : w.all_targets_count = L.length)
    (h : construct host libc d w = .ok (t, w')) :
    w'.memory.all_targets_deps.entries = (L ++ [t]).map some
      ∧ w'.all_targets_count = L.length + 1 ∧ L.length < 128 := by
  obtain ⟨hlt, hc, he⟩ := construct_registers host libc d w t w' h
  refine ⟨?_, by rw [hc, hcount], by rw [← hcount]; exact hlt⟩
  rw [he, hentries, hcount]
  have := store_length (List.map some L) (some t)
  simpa using this

theorem construct_all_registry (host : Host) (libc : Libc) (ds : List Declaration) (w : World)
    (ts : List Target) (w' : World) (L : List Target)
    (hentries : w.memory.all_targets_deps.entries = L.map some)
    (hcount : w.all_targets_count = L.length) (hL : L.length ≤ 128)
    (h : construct_all host libc ds w = .ok (ts, w')) :
    w'.memory.all_targets_deps.entries = (L ++ ts).map some
      ∧ w'.all_targets_count = (L ++ ts).length ∧ ts.length = ds.length
      ∧ (L ++ ts).length ≤ 128 := by
  induction ds generalizing w ts L with
  | nil =>
    simp only [construct_all, Except.ok.injEq, Prod.mk.injEq] at h
    obtain ⟨h1, h2⟩ := h
    subst h1 h2
    simp [hentries, hcount, hL]
  | cons d rest ih =>
    simp only [construct_all] at h
    split at h
    · cases h
    · rename_i t w₁ hd
      split at h
      · cases h
      · rename_i ts' w₂ hrest
        simp only [Except.ok.injEq, Prod.mk.injEq] at h
        obtain ⟨h1, h2⟩ := h
        subst h1 h2
        obtain ⟨he, hc, hlt⟩ := construct_appends host libc d w t w₁ L hentries hcount hd
        have := ih w₁ ts' (L ++ [t]) he (by simp [hc]) (by simp; omega) hrest
        simpa [List.append_assoc] using this

/-- C17: starting from the empty registry, after a sequence of constructor calls
has returned the targets `t1..tn`, the dependency list of the aggregate target
`all` is exactly `[t1, .., tn]` in construction order, the registry count is `n`
and `n` is at most 128.  Each returning call appends the target it returns after
the entries registered before and leaves those as they were. -/
theorem C17_registry_is_append_only :
    (∀ (host : Host) (libc : Libc) (ds : List Declaration) (ts : List Target) (w : World),
        construct_all host libc ds {} = .ok (ts, w) →
        deps_list w.memory all_targets = ts ∧ w.all_targets_count = ds.length
          ∧ ts.length = ds.length ∧ ds.length ≤ 128)
    ∧ (∀ (host : Host) (libc : Libc) (d : Declaration) (w : World) (t : Target) (w' : World)
        (L : List Target),
        w.memory.all_targets_deps.entries = L.map some → w.all_targets_count = L.length →
        construct host libc d w = .ok (t, w') →
        w'.memory.all_targets_deps.entries = (L ++ [t]).map some
          ∧ w'.all_targets_count = L.length + 1) := by
  refine ⟨?_, ?_⟩
  · intro host libc ds ts w h
    obtain ⟨he, hc, hl, hb⟩ :=
      construct_all_registry host libc ds {} ts w [] rfl rfl (by simp) h
    simp only [List.nil_append] at he hc hb
    refine ⟨?_, by rw [hc, hl], hl, by rw [← hl]; exact hb⟩
    show live MAX_ENTRIES w.memory.all_targets_deps.entries = ts
    rw [he]
    exact live_map_some MAX_ENTRIES ts hb
  · intro host libc d w t w' L he hc h
    obtain ⟨h1, h2, _⟩ := construct_appends host libc d w t w' L he hc h
    exact ⟨h1, h2⟩

theorem C17_registry_is_append_only_witness :
    ∃ ts w, construct_all ex_host ex_libc
        [.cpp_library "core"
            { srcs := { entries := [some "core.cpp"] },
              exported_headers := { entries := [some "core.h"] },
              header_namespace := some "core" } "src/build.cpp",
          .cpp_binary "app" { srcs := { entries := [some "main.cpp"] } } "src/build.cpp"]
        {} = .ok (ts, w)
      ∧ deps_list w.memory all_targets = ts ∧ w.all_targets_count = 2
      ∧ ts.length = 2 ∧ 2 ≤ 128 := by
  cases h : construct_all ex_host ex_libc
      [.cpp_library "core"
          { srcs := { entries := [some "core.cpp"] },
            exported_headers := { entries := [some "core.h"] },
            header_namespace := some "core" } "src/build.cpp",
        .cpp_binary "app" { srcs := { entries := [some "main.cpp"] } } "src/build.cpp"]
      {} with
  | error e =>
    have hok : (construct_all ex_host ex_libc
      [.cpp_library "core"
          { srcs := { entries := [some "core.cpp"] },
            exported_headers := { entries := [some "core.h"] },
            header_namespace := some "core" } "src/build.cpp",
        .cpp_binary "app" { srcs := { entries := [some "main.cpp"] } } "src/build.cpp"]
      {}).isOk = true := rfl
    rw [h] at hok
    cases hok
  | ok p =>
    exact ⟨p.1, p.2, rfl, C17_registry_is_append_only.1 ex_host ex_libc _ p.1 p.2 h⟩
/-! ## Merging bounded sequences -/

theorem entry_eq_getElem {α : Type} (items : List (Option α)) (i : Nat) :
    entry items i = (items[i]?).getD none := by
  simp [entry, List.getD_eq_getElem?_getD]

theorem entry_store {α : Type} (items : List (Option α)) (i j : Nat) (v : Option α) :
    entry (store items i v) j = if j = i then v else entry items j := by
  simp only [entry_eq_getElem, store]
  by_cases hlt : i < items.length
  · simp only [hlt, if_true, List.getElem?_set]
    by_cases hji : j = i
    · subst hji; simp [hlt]
    · have : ¬ i = j := fun h => hji h.symm
      simp [hji, this]
  · simp only [hlt, if_false]
    have hle : items.length ≤ i := Nat.le_of_not_lt hlt
    by_cases hji : j = i
    · subst hji
      rw [List.getElem?_append_right (by simp; omega)]
      have h0 : j - (items ++ List.replicate (j - items.length) none).length = 0 := by
        simp only [List.length_append, List.length_replicate]; omega
      rw [h0]
      simp
    · simp only [hji, if_false]
      by_cases hj : j < items.length
      · rw [List.append_assoc, List.getElem?_append_left hj]
      · have hj' : items.length ≤ j := Nat.le_of_not_lt hj
        rw [List.getElem?_eq_none (l := items) hj']
        by_cases hjlt : j < i
        · rw [List.getElem?_append_left (by simp; omega),
            List.getElem?_append_right hj']
          simp only [List.getElem?_replicate]
          split <;> rfl
        · rw [List.getElem?_eq_none (by simp; omega)]
theorem len_loop_congr {α : Type} (a b : List (Option α)) (h : ∀ j, entry a j = entry b j)
    (n i : Nat) : len_loop a n i = len_loop b n i := by
  induction n generalizing i with
  | zero => rfl
  | succ n ih => simp only [len_loop, h i, ih (i + 1)]

theorem len_congr {α : Type} (Count : Nat) (a b : List (Option α))
    (h : ∀ j, entry a j = entry b j) : len Count a = len Count b :=
  len_loop_congr a b h Count 0

theorem live_succ {α : Type} (n : Nat) (items : List (Option α)) :
    live (n + 1) items
      = match entry items 0 with
        | none => []
        | some x => x :: live n items.tail := by
  cases items with
  | nil => cases n <;> simp [live, entry]
  | cons x rest =>
    cases x with
    | none => simp [live, entry]
    | some a => simp [live, entry]

theorem entry_tail {α : Type} (items : List (Option α)) (j : Nat) :
    entry items.tail j = entry items (j + 1) := by
  cases items with
  | nil => simp [entry]
  | cons x rest => simp [entry]

theorem live_congr {α : Type} (Count : Nat) (a b : List (Option α))
    (h : ∀ j, entry a j = entry b j) : live Count a = live Count b := by
  induction Count generalizing a b with
  | zero => simp [live]
  | succ n ih =>
    rw [live_succ, live_succ, h 0]
    have ht : ∀ j, entry a.tail j = entry b.tail j := by
      intro j
      rw [entry_tail, entry_tail, h]
    rw [ih a.tail b.tail ht]

theorem memcpy_loop_congr {α : Type} (other : List (Option α)) (c n k : Nat)
    (a b : List (Option α)) (h : ∀ j, entry a j = entry b j) :
    ∀ j, entry (memcpy_loop other c n k a) j = entry (memcpy_loop other c n k b) j := by
  induction n generalizing k a b with
  | zero => simpa [memcpy_loop] using h
  | succ n ih =>
    simp only [memcpy_loop]
    apply ih
    intro j
    rw [entry_store, entry_store, h]

theorem entry_live_lt {α : Type} (Count : Nat) (items : List (Option α)) (j : Nat)
    (hj : j < (live Count items).length) :
    entry items j = entry ((live Count items).map some) j := by
  induction Count generalizing items j with
  | zero => simp [live] at hj
  | succ n ih =>
    cases items with
    | nil => simp [live] at hj
    | cons x rest =>
      cases x with
      | none => simp [live] at hj
      | some a =>
        simp only [live, List.map_cons]
        cases j with
        | zero => simp [entry]
        | succ j =>
          rw [entry_cons_succ, entry_cons_succ]
          exact ih rest j (by simpa [live] using hj)

theorem entry_terminated {α : Type} (Count : Nat) (items : List (Option α))
    (h : Terminated Count items) (j : Nat) :
    entry items j = entry ((live Count items).map some) j := by
  by_cases hj : j < (live Count items).length
  · exact entry_live_lt Count items j hj
  · have hle : (live Count items).length ≤ j := Nat.le_of_not_lt hj
    rw [h j (by rw [len_eq_length_live]; exact hle)]
    simp only [entry]
    rw [List.getD_eq_default]
    simpa using hle

theorem live_length_le {α : Type} (Count : Nat) (items : List (Option α)) :
    (live Count items).length ≤ Count := by
  induction Count generalizing items with
  | zero => simp [live]
  | succ n ih =>
    cases items with
    | nil => simp [live]
    | cons x rest =>
      cases x with
      | none => simp [live]
      | some a => simpa [live] using ih rest

theorem cat_fatal_iff {α : Type} (Count Count2 : Nat) (items other : List (Option α)) :
    cat Count Count2 items other = .error .assertion
      ↔ Count ≤ len Count items + len Count2 other := by
  simp only [cat]
  split
  · rename_i h
    constructor
    · intro h'; cases h'
    · intro h'; omega
  · rename_i h
    constructor
    · intro _; omega
    · intro _; rfl

theorem cat_keeps_entries {α : Type} (Count Count2 : Nat) (items other : List (Option α))
    (h : len Count items + len Count2 other < Count) :
    ∃ r, cat Count Count2 items other = .ok r
      ∧ (Terminated Count items → live Count r = live Count items ++ live Count2 other) := by
  have hgt : Count - len Count items > len Count2 other := by omega
  refine ⟨memcpy_loop other (len Count items) (len Count2 other) 0 items, ?_, ?_⟩
  · simp only [cat, hgt, if_true]
  · intro hterm
    have hent := entry_terminated Count items hterm
    have hlen : len Count ((live Count items).map some) = len Count items :=
      (len_congr Count _ _ hent).symm
    have hcanon : cat Count Count2 ((live Count items).map some) other
        = .ok (memcpy_loop other (len Count items) (len Count2 other) 0
            ((live Count items).map some)) := by
      simp only [cat, hlen, hgt, if_true]
    have hl := (cat_map_some Count Count2 (live Count items) other _
      (live_length_le Count items) hcanon).2
    rw [← hl]
    exact live_congr Count _ _ (memcpy_loop_congr other _ _ 0 _ _ hent)
theorem memcpy_loop_congr_written {α : Type} (other : List (Option α)) (c n k : Nat)
    (a b : List (Option α)) (j : Nat)
    (h : entry a j = entry b j ∨ (c + k ≤ j ∧ j < c + k + n)) :
    entry (memcpy_loop other c n k a) j = entry (memcpy_loop other c n k b) j := by
  induction n generalizing k a b with
  | zero =>
    rcases h with h | h
    · simpa [memcpy_loop] using h
    · omega
  | succ n ih =>
    simp only [memcpy_loop]
    apply ih
    rw [entry_store, entry_store]
    by_cases hj : j = c + k
    · left; simp [hj]
    · simp only [hj, if_false]
      rcases h with h | h
      · exact Or.inl h
      · right; omega

theorem live_prefix_of_entries {α : Type} (Count : Nat) (r : List (Option α)) (L : List α)
    (hL : L.length ≤ Count) (h : ∀ j, j < L.length → entry r j = entry (L.map some) j) :
    L <+: live Count r := by
  induction L generalizing Count r with
  | nil => exact List.nil_prefix
  | cons a L ih =>
    cases Count with
    | zero => simp at hL
    | succ n =>
      have h0 : entry r 0 = some a := by
        rw [h 0 (by simp)]
        simp [entry]
      rw [live_succ, h0]
      simp only []
      rw [List.prefix_cons_inj]
      apply ih n r.tail (by simpa using hL)
      intro j hj
      rw [entry_tail, h (j + 1) (by simpa using hj)]
      simp [entry]

theorem cat_keeps_prefix {α : Type} (Count Count2 : Nat) (items other : List (Option α))
    (h : len Count items + len Count2 other < Count) :
    live Count items ++ live Count2 other
      <+: live Count (memcpy_loop other (len Count items) (len Count2 other) 0 items) := by
  have hgt : Count - len Count items > len Count2 other := by omega
  have hlen : len Count ((live Count items).map some) = len Count items := by
    rw [len_eq_length_live, live_map_some Count _ (live_length_le Count items),
      len_eq_length_live]
  have hcanon : cat Count Count2 ((live Count items).map some) other
      = .ok (memcpy_loop other (len Count items) (len Count2 other) 0
          ((live Count items).map some)) := by
    simp only [cat, hlen, hgt, if_true]
  have hr := (cat_map_some Count Count2 (live Count items) other _
    (live_length_le Count items) hcanon).1
  apply live_prefix_of_entries
  · simp only [List.length_append, ← len_eq_length_live]
    omega
  · intro j hj
    rw [← hr]
    apply memcpy_loop_congr_written
    simp only [List.length_append, ← len_eq_length_live] at hj
    by_cases hjc : j < len Count items
    · left
      exact entry_live_lt Count items j (by rw [← len_eq_length_live]; exact hjc)
    · right
      omega

/-- C18 (amended): merging with `cat(items, other)` is a fatal violation if and only
if the combined length `len(items) + len(other)` reaches or goes beyond the
capacity of `items` (128 for flag and source lists), that is, if and only if the
merged sequence would fill the array without a zero slot left; every merge whose
combined length is below the capacity succeeds with all entries kept: the merged
array starts with the entries of `items` followed by those of `other`, and holds
exactly these when `items` has nothing after its first zero slot. -/
theorem C18_cat_fatal_iff_no_room :
    ∀ (Count Count2 : Nat) (items other : List c_string),
      (cat Count Count2 items other = .error .assertion
        ↔ Count ≤ len Count items + len Count2 other)
      ∧ (len Count items + len Count2 other < Count →
          ∃ r, cat Count Count2 items other = .ok r
            ∧ live Count items ++ live Count2 other <+: live Count r
            ∧ (Terminated Count items →
                live Count r = live Count items ++ live Count2 other)) := by
  intro Count Count2 items other
  refine ⟨cat_fatal_iff Count Count2 items other, ?_⟩
  intro h
  obtain ⟨r, hr, hlive⟩ := cat_keeps_entries Count Count2 items other h
  refine ⟨r, hr, ?_, hlive⟩
  have hgt : Count - len Count items > len Count2 other := by omega
  simp only [cat, hgt, if_true, Except.ok.injEq] at hr
  rw [← hr]
  exact cat_keeps_prefix Count Count2 items other h

theorem C18_cat_fatal_iff_no_room_witness :
    ∃ r, cat MAX_ENTRIES MAX_ENTRIES default_cpp_args.entries [some "-O2"] = .ok r
      ∧ live MAX_ENTRIES default_cpp_args.entries ++ live MAX_ENTRIES [some "-O2"]
          <+: live MAX_ENTRIES r
      ∧ (Terminated MAX_ENTRIES default_cpp_args.entries →
          live MAX_ENTRIES r
            = live MAX_ENTRIES default_cpp_args.entries ++ live MAX_ENTRIES [some "-O2"]) :=
  (C18_cat_fatal_iff_no_room MAX_ENTRIES MAX_ENTRIES default_cpp_args.entries
    [some "-O2"]).2 (by decide)

/-- C18 (counterexample): the four default flags of `cpp_binary` and 124 flags of a
caller have the combined length 128, which does not go beyond the capacity 128,
yet `cat` stops with the failed assertion. -/
theorem C18_counterexample :
    ¬ (∀ (items other : List c_string),
        cat MAX_ENTRIES MAX_ENTRIES items other = .error .assertion
          ↔ MAX_ENTRIES < len MAX_ENTRIES items + len MAX_ENTRIES other) := by
  intro h
  have h1 : cat MAX_ENTRIES MAX_ENTRIES default_cpp_args.entries
      (List.replicate 124 (some "-DX")) = .error .assertion :=
    (cat_fatal_iff _ _ _ _).2 (by decide)
  have h2 := (h default_cpp_args.entries (List.replicate 124 (some "-DX"))).1 h1
  revert h2
  decide
/-! ## Capacity of the flattener and of the registry -/

theorem append_at_capacity (capacity : Nat) (m : SmallMap) (key : StringView) (value : Target)
    (h : m.m_size = capacity) : m.append capacity key value = .error .out_of_bounds := by
  simp [SmallMap.append, h]

theorem full_registry_names :
    (names (all_targets :: deps_list full_registry all_targets)).Nodup
      ∧ (all_targets :: deps_list full_registry all_targets).length = 129 := by
  decide!

set_option maxRecDepth 1000000 in
/-- C19 (failing input): the aggregate `all` over a registry of the 128 libraries
`t000` .. `t127` reaches 129 distinctly named targets.  Flattening it does not stop
at the assertion of `SmallMap::append`: for the 129th name `id` is 128, the
assertion `id <= capacity` holds, and the run ends at the stores into slot 128 of
the 128-slot arrays of `seen`. -/
theorem C19_flatten_overflow_is_not_asserted :
    (names (all_targets :: deps_list full_registry all_targets)).Nodup
      ∧ (all_targets :: deps_list full_registry all_targets).length = 129
      ∧ flatten_targets full_registry all_targets = .error .out_of_bounds
      ∧ flatten_targets full_registry all_targets ≠ .error .assertion := by
  have h : flatten_targets full_registry all_targets = .error .out_of_bounds := by rfl
  refine ⟨full_registry_names.1, full_registry_names.2, h, ?_⟩
  rw [h]
  intro he
  cases he

/-- C20 (failing input): with 128 targets registered in `all_targets_deps`, a call
of any constructor does not stop at an assertion: it reaches the store
`all_targets_deps.entries[128] = target`, past the end of the 128-slot array. -/
theorem C20_registry_overflow_is_not_asserted :
    cpp_binary ex_host ex_libc "extra" {} "src/build.cpp" full_world = .error .out_of_bounds
      ∧ cpp_library ex_libc "extra" {} "src/build.cpp" full_world = .error .out_of_bounds
      ∧ c_library ex_libc "extra" {} "src/build.cpp" full_world = .error .out_of_bounds
      ∧ objc_library ex_libc "extra" {} "src/build.cpp" full_world = .error .out_of_bounds
      ∧ objcpp_library ex_libc "extra" {} "src/build.cpp" full_world = .error .out_of_bounds
      ∧ full_world.all_targets_count = 128
      ∧ (deps_list full_world.memory all_targets).length = 128 := by
  refine ⟨by rfl, by rfl, by rfl, by rfl, by rfl, rfl, by decide!⟩
/-! ## The compile edges of a library and of a binary -/

theorem visit_all_extends (f : Target → List Target → Except Fault (List Target))
    (hext : ∀ d V V', f d V = .ok V' → ∃ new, V' = V ++ new)
    (D V V' : List Target) (h : visit_all f D V = .ok V') : ∃ new, V' = V ++ new := by
  induction D generalizing V with
  | nil =>
    simp only [visit_all, Except.ok.injEq] at h
    exact ⟨[], by rw [← h, List.append_nil]⟩
  | cons d rest ih =>
    simp only [visit_all] at h
    cases hd : f d V with
    | error e => rw [hd] at h; cases h
    | ok W =>
      rw [hd] at h
      obtain ⟨n₁, hW⟩ := hext d V W hd
      obtain ⟨n₂, hV'⟩ := ih W h
      exact ⟨n₁ ++ n₂, by rw [hV', hW, List.append_assoc]⟩

theorem visit_all_names_congr (f : Target → List Target → Except Fault (List Target))
    (hext : ∀ d V V', f d V = .ok V' → ∃ new, V' = V ++ new)
    (hf : ∀ d V₁ V₂, names V₁ = names V₂ →
      (∀ new, f d V₂ = .ok (V₂ ++ new) → f d V₁ = .ok (V₁ ++ new))
        ∧ (∀ e, f d V₂ = .error e → f d V₁ = .error e))
    (D V₁ V₂ : List Target) (h : names V₁ = names V₂) :
    (∀ new, visit_all f D V₂ = .ok (V₂ ++ new) → visit_all f D V₁ = .ok (V₁ ++ new))
      ∧ (∀ e, visit_all f D V₂ = .error e → visit_all f D V₁ = .error e) := by
  induction D generalizing V₁ V₂ with
  | nil =>
    refine ⟨?_, ?_⟩
    · intro new hn
      simp only [visit_all, Except.ok.injEq] at hn ⊢
      have hnil : new = [] := by
        have hl := congrArg List.length hn
        simp only [List.length_append] at hl
        exact List.eq_nil_of_length_eq_zero (by omega)
      rw [hnil, List.append_nil]
    · intro e he
      simp [visit_all] at he
  | cons d rest ih =>
    simp only [visit_all]
    cases hd : f d V₂ with
    | error e =>
      rw [(hf d V₁ V₂ h).2 e hd]
      exact ⟨fun new hn => (by cases hn), fun e' he' => he'⟩
    | ok W =>
      obtain ⟨n₁, hW⟩ := hext d V₂ W hd
      subst hW
      rw [(hf d V₁ V₂ h).1 n₁ hd]
      simp only []
      have hnames : names (V₁ ++ n₁) = names (V₂ ++ n₁) := by
        rw [names_append, names_append, h]
      obtain ⟨ih₁, ih₂⟩ := ih (V₁ ++ n₁) (V₂ ++ n₁) hnames
      refine ⟨?_, ih₂⟩
      intro new hn
      obtain ⟨m, hm⟩ := visit_all_extends f hext rest (V₂ ++ n₁) (V₂ ++ new) hn
      have hnew : new = n₁ ++ m := by
        rw [List.append_assoc] at hm
        exact List.append_cancel_left hm
      rw [hnew, ← List.append_assoc] at hn ⊢
      exact ih₁ m hn

theorem dfs_extends (memory : Memory) (fuel : Nat) (t : Target) (V V' : List Target)
    (h : dfs memory fuel t V = .ok V') : ∃ new, V' = V ++ new := by
  obtain ⟨⟨new, e, _⟩, _⟩ := dfs_post memory fuel t V V' h
  exact ⟨new, e⟩

theorem dfs_names_congr (memory : Memory) (fuel : Nat) (t : Target) (V₁ V₂ : List Target)
    (h : names V₁ = names V₂) :
    (∀ new, dfs memory fuel t V₂ = .ok (V₂ ++ new) → dfs memory fuel t V₁ = .ok (V₁ ++ new))
      ∧ (∀ e, dfs memory fuel t V₂ = .error e → dfs memory fuel t V₁ = .error e) := by
  induction fuel generalizing t V₁ V₂ with
  | zero =>
    refine ⟨fun new hn => by simp [dfs] at hn, fun e he => ?_⟩
    simpa [dfs] using he
  | succ fuel ih =>
    have hlen : V₁.length = V₂.length := by
      have := congrArg List.length h
      simpa [names] using this
    by_cases hmem : t.name ∈ names V₂
    · have hmem₁ : t.name ∈ names V₁ := by rw [h]; exact hmem
      simp only [dfs, hmem, hmem₁, if_true]
      refine ⟨?_, fun e he => by cases he⟩
      intro new hn
      simp only [Except.ok.injEq] at hn ⊢
      have hnil : new = [] := by
        have hl := congrArg List.length hn
        simp only [List.length_append] at hl
        exact List.eq_nil_of_length_eq_zero (by omega)
      rw [hnil, List.append_nil]
    · have hmem₁ : t.name ∉ names V₁ := by rw [h]; exact hmem
      by_cases hlt : V₂.length < 128
      · have hlt₁ : V₁.length < 128 := by rw [hlen]; exact hlt
        simp only [dfs, hmem, hmem₁, hlt, hlt₁, if_true, if_false]
        have hnames : names (V₁ ++ [t]) = names (V₂ ++ [t]) := by
          rw [names_append, names_append, h]
        obtain ⟨c₁, c₂⟩ := visit_all_names_congr (fun d W => dfs memory fuel d W)
          (fun d V V' hd => dfs_extends memory fuel d V V' hd)
          (fun d W₁ W₂ hW => ih d W₁ W₂ hW) (deps_list memory t) (V₁ ++ [t]) (V₂ ++ [t]) hnames
        refine ⟨?_, c₂⟩
        intro new hn
        obtain ⟨m, hm⟩ := visit_all_extends (fun d W => dfs memory fuel d W)
          (fun d V V' hd => dfs_extends memory fuel d V V' hd) _ (V₂ ++ [t]) (V₂ ++ new) hn
        have hnew : new = [t] ++ m := by
          rw [List.append_assoc] at hm
          exact List.append_cancel_left hm
        rw [hnew, ← List.append_assoc] at hn ⊢
        exact c₁ m hn
      · have hlt₁ : ¬ V₁.length < 128 := by rw [hlen]; exact hlt
        by_cases hle : V₂.length ≤ 128
        · have hle₁ : V₁.length ≤ 128 := by rw [hlen]; exact hle
          simp only [dfs, hmem, hmem₁, hlt, hlt₁, hle, hle₁, if_true, if_false]
          exact ⟨fun new hn => (by cases hn), fun e he => he⟩
        · have hle₁ : ¬ V₁.length ≤ 128 := by rw [hlen]; exact hle
          simp only [dfs, hmem, hmem₁, hlt, hlt₁, hle, hle₁, if_false]
          exact ⟨fun new hn => (by cases hn), fun e he => he⟩
theorem compile_edge_text_root (memory : Memory) (triple base_dir : String)
    (flags : List String) (r₁ r₂ : Target) (rest : List Target) :
    compile_edge_text memory triple base_dir flags (r₁ :: rest)
      = compile_edge_text memory triple base_dir flags (r₂ :: rest) := by
  funext src
  simp only [compile_edge_text, order_only_text, include_flags_text, List.tail_cons,
    List.length_cons]

theorem dfs_root (memory : Memory) (fuel : Nat) (r : Target) :
    dfs memory (fuel + 1) r []
      = visit_all (fun d W => dfs memory fuel d W) (deps_list memory r) [r] := by
  simp only [dfs, names, List.map_nil, List.not_mem_nil, if_false, List.length_nil,
    Nat.zero_lt_succ, Nat.ofNat_pos, if_true, List.nil_append]

theorem flatten_targets_same_deps (memory : Memory) (r₁ r₂ : Target)
    (hname : r₁.name = r₂.name) (hdeps : deps_list memory r₁ = deps_list memory r₂) :
    (∀ rest, flatten_targets memory r₂ = .ok { entries := (r₂ :: rest).map some } →
        flatten_targets memory r₁ = .ok { entries := (r₁ :: rest).map some })
      ∧ (∀ e, flatten_targets memory r₂ = .error e → flatten_targets memory r₁ = .error e) := by
  have hstep : ∀ r : Target, dfs memory (MAX_ENTRIES + 1) r []
      = visit_all (fun d W => dfs memory MAX_ENTRIES d W) (deps_list memory r) [r] := by
    intro r
    exact dfs_root memory MAX_ENTRIES r
  obtain ⟨c₁, c₂⟩ := visit_all_names_congr (fun d W => dfs memory MAX_ENTRIES d W)
    (fun d V V' hd => dfs_extends memory _ d V V' hd)
    (fun d W₁ W₂ hW => dfs_names_congr memory _ d W₁ W₂ hW) (deps_list memory r₂) [r₁] [r₂]
    (by simp [names, hname])
  rw [flatten_targets_eq_dfs, flatten_targets_eq_dfs, hstep, hstep, hdeps]
  refine ⟨?_, ?_⟩
  · intro rest h
    cases hv : visit_all (fun d W => dfs memory MAX_ENTRIES d W) (deps_list memory r₂) [r₂] with
    | error e => rw [hv] at h; cases h
    | ok V =>
      rw [hv] at h
      simp only [Except.ok.injEq, Targets.mk.injEq] at h
      have hV : V = [r₂] ++ rest :=
        List.map_injective_iff.2 (Option.some_injective _) h
      rw [hV] at hv
      rw [c₁ rest hv]
      rfl
  · intro e h
    cases hv : visit_all (fun d W => dfs memory MAX_ENTRIES d W) (deps_list memory r₂) [r₂] with
    | ok V => rw [hv] at h; cases h
    | error e' =>
      rw [hv] at h
      simp only [Except.error.injEq] at h
      subst h
      rw [c₂ e' hv]

theorem library_compile_edges_equal_binary (libc : Libc) (memory : Memory)
    (output_b output_l : String) (tb tl : Target)
    (hdir : tb.base_dir = tl.base_dir)
    (htriple : (memory.binary_at tb.args).target_triple
      = (memory.library_at tl.args).target_triple)
    (hsrcs : (memory.binary_at tb.args).srcs = (memory.library_at tl.args).srcs)
    (hflags : (memory.binary_at tb.args).compile_flags
      = (memory.library_at tl.args).compile_flags)
    (hdeps : (memory.binary_at tb.args).deps = (memory.library_at tl.args).deps) :
    (∃ e, emit_ninja_build_binary memory output_b tb = .error e
        ∧ emit_ninja_build_library libc memory output_l tl = .error e)
      ∨ (∃ db dl,
          flatten_targets memory (deps_root tb.args.to_binary_deps) = .ok db
          ∧ flatten_targets memory (deps_root tl.args.to_library_deps) = .ok dl
          ∧ emit_ninja_build_binary memory output_b tb
              = .ok (output_b
                ++ link_edge_text (binary_triple memory tb) tb.name tb.base_dir
                    (live MAX_ENTRIES (memory.binary_at tb.args).srcs.entries)
                    (live MAX_ENTRIES db.entries)
                ++ concat_all
                    ((live MAX_ENTRIES (memory.binary_at tb.args).srcs.entries).map
                      (compile_edge_text memory (binary_triple memory tb) tb.base_dir
                        (live MAX_ENTRIES (memory.binary_at tb.args).compile_flags.entries)
                        (live MAX_ENTRIES db.entries))))
          ∧ emit_ninja_build_library libc memory output_l tl
              = .ok (output_l
                ++ library_edges_text libc (memory.library_at tl.args).header_namespace
                    (library_triple memory tl) tl.name tl.base_dir
                    (live MAX_ENTRIES (memory.library_at tl.args).srcs.entries)
                    (live MAX_ENTRIES (memory.library_at tl.args).exported_headers.entries)
                ++ concat_all
                    ((live MAX_ENTRIES (memory.binary_at tb.args).srcs.entries).map
                      (compile_edge_text memory (binary_triple memory tb) tb.base_dir
                        (live MAX_ENTRIES (memory.binary_at tb.args).compile_flags.entries)
                        (live MAX_ENTRIES db.entries))))) := by
  have hroots : deps_list memory (deps_root tl.args.to_library_deps)
      = deps_list memory (deps_root tb.args.to_binary_deps) := by
    simp only [deps_list, target_deps, deps_root, targets_at_to_binary_deps,
      targets_at_to_library_deps, hdeps]
  obtain ⟨c₁, c₂⟩ := flatten_targets_same_deps memory (deps_root tl.args.to_library_deps)
    (deps_root tb.args.to_binary_deps) rfl hroots
  rw [emit_ninja_build_binary_eq, emit_ninja_build_library_eq]
  cases hb : flatten_targets memory (deps_root tb.args.to_binary_deps) with
  | error e =>
    left
    exact ⟨e, rfl, by rw [c₂ e hb]⟩
  | ok db =>
    right
    obtain ⟨V, hd, hts, hlen, hlive⟩ := flatten_targets_ok_iff memory _ db hb
    obtain ⟨rest, hrest⟩ := flatten_deps_root_live memory _ db hb
    have hV : V = deps_root tb.args.to_binary_deps :: rest := by rw [← hlive, hrest]
    have hl := c₁ rest (by rw [hb, hts, hV])
    rw [hl]
    have hlive_l : live MAX_ENTRIES
        (List.map some (deps_root tl.args.to_library_deps :: rest))
          = deps_root tl.args.to_library_deps :: rest := by
      apply live_map_some
      rw [hV] at hlen
      simp only [List.length_cons, MAX_ENTRIES] at hlen ⊢
      omega
    refine ⟨db, _, rfl, rfl, rfl, ?_⟩
    simp only [hlive_l, hrest, library_triple, binary_triple, ← hsrcs, ← hflags, ← htriple,
      ← hdir]
    rw [compile_edge_text_root memory _ _ _ (deps_root tl.args.to_library_deps)
      (deps_root tb.args.to_binary_deps) rest]
/-- C21: the compile edges emitted for a library are identical to those emitted
for a binary.  For every binary and library that have the same base directory,
triple, source list, compile-flag list and dependency list, either both emit
functions fail in the same way (flattening the dependencies fails), or both
return and the text of `emit_ninja_build_library` after its header, phony and
merge edges equals, character for character, the text of
`emit_ninja_build_binary` after its link edge. -/
theorem C21_library_compile_edges_equal_binary :
    ∀ (libc : Libc) (memory : Memory) (output_b output_l : String) (tb tl : Target),
      tb.base_dir = tl.base_dir →
      (memory.binary_at tb.args).target_triple = (memory.library_at tl.args).target_triple →
      (memory.binary_at tb.args).srcs = (memory.library_at tl.args).srcs →
      (memory.binary_at tb.args).compile_flags = (memory.library_at tl.args).compile_flags →
      (memory.binary_at tb.args).deps = (memory.library_at tl.args).deps →
      (∃ e, emit_ninja_build_binary memory output_b tb = .error e
          ∧ emit_ninja_build_library libc memory output_l tl = .error e)
        ∨ (∃ db dl,
            flatten_targets memory (deps_root tb.args.to_binary_deps) = .ok db
            ∧ flatten_targets memory (deps_root tl.args.to_library_deps) = .ok dl
            ∧ emit_ninja_build_binary memory output_b tb
                = .ok (output_b
                  ++ link_edge_text (binary_triple memory tb) tb.name tb.base_dir
                      (live MAX_ENTRIES (memory.binary_at tb.args).srcs.entries)
                      (live MAX_ENTRIES db.entries)
                  ++ concat_all
                      ((live MAX_ENTRIES (memory.binary_at tb.args).srcs.entries).map
                        (compile_edge_text memory (binary_triple memory tb) tb.base_dir
                          (live MAX_ENTRIES (memory.binary_at tb.args).compile_flags.entries)
                          (live MAX_ENTRIES db.entries))))
            ∧ emit_ninja_build_library libc memory output_l tl
                = .ok (output_l
                  ++ library_edges_text libc (memory.library_at tl.args).header_namespace
                      (library_triple memory tl) tl.name tl.base_dir
                      (live MAX_ENTRIES (memory.library_at tl.args).srcs.entries)
                      (live MAX_ENTRIES (memory.library_at tl.args).exported_headers.entries)
                  ++ concat_all
                      ((live MAX_ENTRIES (memory.binary_at tb.args).srcs.entries).map
                        (compile_edge_text memory (binary_triple memory tb) tb.base_dir
                          (live MAX_ENTRIES (memory.binary_at tb.args).compile_flags.entries)
                          (live MAX_ENTRIES db.entries))))) :=
  library_compile_edges_equal_binary

theorem C21_library_compile_edges_equal_binary_witness :
    (∃ e, emit_ninja_build_binary twins "" ex_R = .error e
        ∧ emit_ninja_build_library ex_libc twins "" ex_A = .error e)
      ∨ (∃ db dl,
          flatten_targets twins (deps_root ex_R.args.to_binary_deps) = .ok db
          ∧ flatten_targets twins (deps_root ex_A.args.to_library_deps) = .ok dl
          ∧ emit_ninja_build_binary twins "" ex_R
              = .ok (""
                ++ link_edge_text (binary_triple twins ex_R) ex_R.name ex_R.base_dir
                    (live MAX_ENTRIES (twins.binary_at ex_R.args).srcs.entries)
                    (live MAX_ENTRIES db.entries)
                ++ concat_all
                    ((live MAX_ENTRIES (twins.binary_at ex_R.args).srcs.entries).map
                      (compile_edge_text twins (binary_triple twins ex_R) ex_R.base_dir
                        (live MAX_ENTRIES (twins.binary_at ex_R.args).compile_flags.entries)
                        (live MAX_ENTRIES db.entries))))
          ∧ emit_ninja_build_library ex_libc twins "" ex_A
              = .ok (""
                ++ library_edges_text ex_libc (twins.library_at ex_A.args).header_namespace
                    (library_triple twins ex_A) ex_A.name ex_A.base_dir
                    (live MAX_ENTRIES (twins.library_at ex_A.args).srcs.entries)
                    (live MAX_ENTRIES (twins.library_at ex_A.args).exported_headers.entries)
                ++ concat_all
                    ((live MAX_ENTRIES (twins.binary_at ex_R.args).srcs.entries).map
                      (compile_edge_text twins (binary_triple twins ex_R) ex_R.base_dir
                        (live MAX_ENTRIES (twins.binary_at ex_R.args).compile_flags.entries)
                        (live MAX_ENTRIES db.entries))))) :=
  C21_library_compile_edges_equal_binary ex_libc twins "" "" ex_R ex_A rfl rfl rfl rfl rfl
set_option maxRecDepth 100000 in
/-- C22 (failing input): for the example project (library `core` with the triple
left unset, binary `app` depending on it, Linux x86-64 host) the flattened
dependency list of `app` is the synthetic root followed by `core`, the link edge of
`app` lists the object path `x86_64-gnu-linux/core.o` for `core`, and the merge
edge emitted for `core` has the output path `unknown-unknown-unknown/core.o`: the
library input of the link edge is the output of no emitted edge. -/
theorem C22_link_input_is_not_the_merge_output :
    (match ex_project with
      | .ok (core, app, w) =>
        (Except.map (fun (d : Targets) => names (live MAX_ENTRIES d.entries))
            (flatten_targets w.memory (deps_root app.args.to_binary_deps)),
          binary_triple w.memory app ++ "/" ++ core.name ++ ".o",
          library_triple w.memory core ++ "/" ++ core.name ++ ".o",
          emit_ninja_build_binary w.memory "" app,
          emit_ninja_build_library ex_libc w.memory "" core)
      | .error e => (.error e, "", "", .error e, .error e))
      = (.ok ["__deps__", "core"],
         "x86_64-gnu-linux/core.o",
         "unknown-unknown-unknown/core.o",
         .ok ("build x86_64-gnu-linux/app: link-binary"
          ++ " x86_64-gnu-linux/src/main.cpp.o x86_64-gnu-linux/core.o\n"
          ++ "    target = x86_64-gnu-linux\n\n"
          ++ "build x86_64-gnu-linux/src/main.cpp.o: cxx ../src/main.cpp | ns/core/_\n"
          ++ "    language = C++\n"
          ++ "    target = x86_64-gnu-linux\n"
          ++ "    depfile = main.cpp.x86_64-gnu-linux.d\n"
          ++ "    args = -Wall -Wextra -fcolor-diagnostics -std=c++17 -Ins/core/h\n\n"),
         .ok ("build ns/core/h/core/core.h: namespace-header /project/src/core.h\n\n"
          ++ "build ns/core/_: phony ns/core/h/core/core.h\n\n"
          ++ "build unknown-unknown-unknown/core.o: merge-object"
          ++ " unknown-unknown-unknown/src/core.cpp.o\n"
          ++ "    ld = ld\n\n"
          ++ "build unknown-unknown-unknown/src/core.cpp.o: cxx ../src/core.cpp\n"
          ++ "    language = C++\n"
          ++ "    target = unknown-unknown-unknown\n"
          ++ "    depfile = core.cpp.unknown-unknown-unknown.d\n"
          ++ "    args = -Wall -Wextra -fcolor-diagnostics -std=c++17\n\n")) := by
  rfl

set_option maxRecDepth 100000 in
/-- C23 (failing input): for the binary `app` (source `main.cpp`) whose only
dependency is the binary `gen`, the flattened dependency list is the synthetic root
followed by `gen`, it contains no library, and the build line of the compile edge
of `main.cpp` ends in the separator ` |` with no library marker after it. -/
theorem C23_separator_without_library_marker :
    (match ex_tool_project with
      | .ok (_, app, w) =>
        (Except.map (fun (d : Targets) => (live MAX_ENTRIES d.entries).map
              fun t => (t.name, t.kind))
            (flatten_targets w.memory (deps_root app.args.to_binary_deps)),
          Except.map (fun (d : Targets) => library_entries (live MAX_ENTRIES d.entries))
            (flatten_targets w.memory (deps_root app.args.to_binary_deps)),
          emit_ninja_build_binary w.memory "" app)
      | .error e => (.error e, .error e, .error e))
      = (.ok [("__deps__", .Targets), ("gen", .Binary)],
         .ok [],
         .ok ("build x86_64-gnu-linux/app: link-binary"
          ++ " x86_64-gnu-linux/src/main.cpp.o x86_64-gnu-linux/gen.o\n"
          ++ "    target = x86_64-gnu-linux\n\n"
          ++ "build x86_64-gnu-linux/src/main.cpp.o: cxx ../src/main.cpp |\n"
          ++ "    language = C++\n"
          ++ "    target = x86_64-gnu-linux\n"
          ++ "    depfile = main.cpp.x86_64-gnu-linux.d\n"
          ++ "    args = -Wall -Wextra -fcolor-diagnostics -std=c++17\n\n")) := by
  rfl

/-- A direct dependency whose name is not the name of the synthetic root is among the
flattened dependencies after position 0, under its name. -/
theorem direct_dependency_name_listed (memory : Memory) (p : Ptr) (deps : Targets)
    (h : flatten_targets memory (deps_root p) = .ok deps) (d : Target)
    (hd : d ∈ deps_list memory (deps_root p)) (hn : d.name ≠ "__deps__") :
    d.name ∈ names (live MAX_ENTRIES deps.entries).tail := by
  obtain ⟨V, hdfs, _, _, hlive⟩ := flatten_targets_ok_iff memory _ deps h
  obtain ⟨⟨new, e, _, hdeps, _, _, _⟩, _, hroot⟩ := dfs_post memory _ _ [] V hdfs
  obtain ⟨rest, er⟩ := hroot (by simp [names])
  simp only [List.nil_append] at e er
  have hmem : deps_root p ∈ new := by rw [← e, er]; exact List.mem_cons_self _ _
  have hname := hdeps _ hmem d hd
  rw [hlive, er]
  rw [er] at hname
  simp only [names, List.map_cons, List.mem_cons, List.tail_cons] at hname ⊢
  rcases hname with h1 | h2
  · exact absurd h1 hn
  · exact h2

set_option maxRecDepth 100000 in
/-- C24 (failing input): for the binary `app` (source `main.cpp`) whose only direct
dependency is the library named `__deps__`, the flattened dependency list holds the
synthetic root alone (the library has the name of the root and is skipped as already
seen), and the link edge of `app` lists `x86_64-gnu-linux/src/main.cpp.o` only: the
object path `x86_64-gnu-linux/__deps__.o` of the dependency is missing. -/
theorem C24_dependency_named_as_root_is_dropped :
    (match ex_root_named_project with
      | .ok (_, app, w) =>
        ((live MAX_ENTRIES (w.memory.binary_at app.args).deps.entries).map
            (fun t => (t.name, t.kind)),
          Except.map (fun (d : Targets) => (live MAX_ENTRIES d.entries).map
              fun t => (t.name, t.kind))
            (flatten_targets w.memory (deps_root app.args.to_binary_deps)),
          emit_ninja_build_binary w.memory "" app)
      | .error e => ([], .error e, .error e))
      = ([("__deps__", .Library)],
         .ok [("__deps__", .Targets)],
         .ok ("build x86_64-gnu-linux/app: link-binary"
          ++ " x86_64-gnu-linux/src/main.cpp.o\n"
          ++ "    target = x86_64-gnu-linux\n\n"
          ++ "build x86_64-gnu-linux/src/main.cpp.o: cxx ../src/main.cpp\n"
          ++ "    language = C++\n"
          ++ "    target = x86_64-gnu-linux\n"
          ++ "    depfile = main.cpp.x86_64-gnu-linux.d\n"
          ++ "    args = -Wall -Wextra -fcolor-diagnostics -std=c++17\n\n")) := by
  rfl

end Bs
